import Mathlib

/-!
Shallow embedding of the study-plan engine (allocator, rebalancer, scoring,
slot/workload builders) of the `prototipo` repository, together with proofs
of the stated behavioural properties.

Modelling conventions:
- Python floats are modelled as exact rationals (`ℚ`); all the arithmetic the
  engine performs on them (weighted sums, ratios, clamps) is rational.
- Python ints are modelled as `ℤ` (no overflow in CPython).
- Calendar dates are modelled by their proleptic-Gregorian ordinal (`ℤ`), the
  same value `datetime.date.toordinal` returns; ISO-8601 strings compare
  lexicographically in the same order as their ordinals, so sorts keyed on the
  ISO string are keyed here on the ordinal.
- Python dicts used as finite maps with a default are modelled as total
  functions obtained by pointwise update; dicts whose key set matters are
  modelled as association structures where noted.
- `while` loops whose guard Python can keep true forever are given explicit
  fuel and return `Option`; `none` models non-termination of the source.
-/

namespace Planner

/-- Day ordinal, as produced by `datetime.date.toordinal`. -/
abbrev Day := Int

/-- Python's `round` on a rational value: round half to even (banker's
rounding), as `round(float)` behaves on exactly-representable halves. -/
def pyRound (q : ℚ) : ℤ :=
  let f : ℤ := ⌊q⌋
  let r : ℚ := q - f
  if r < 1/2 then f
  else if 1/2 < r then f + 1
  else if f % 2 = 0 then f else f + 1

/-- Stable insertion of an element into a list sorted by `le`; the element is
placed before the first entry it is strictly below, hence after existing
equal-key entries, matching the stability contract of Python's `sorted`. -/
def insertLe {α : Type} (le : α → α → Bool) (x : α) : List α → List α
  | [] => [x]
  | y :: ys => if le x y then x :: y :: ys else y :: insertLe le x ys

/-- Stable insertion sort: for a total-preorder comparator this computes the
same list as Python's stable `sorted`. -/
def pySort {α : Type} (le : α → α → Bool) : List α → List α
  | [] => []
  | x :: xs => insertLe le x (pySort le xs)

/-! ### Exact rationals with executable arithmetic

The engine's float values (scores, weights, penalties, feasibility) are
exact rationals here, represented without gcd-normalisation so that every
operation and comparison reduces inside the kernel: a numerator and a
positive denominator, compared by cross-multiplication. `Rat` itself is not
used for these because its operations normalise through `Nat.gcd`, which the
kernel cannot unfold. -/

/-- An unnormalised exact rational: numerator over positive denominator. -/
structure QR where
  num : ℤ
  den : ℤ
  dpos : 0 < den

instance : OfNat QR n := ⟨⟨n, 1, one_pos⟩⟩

/-- Decimal literals: `0.35` is `35 / 10^2`. -/
instance : OfScientific QR :=
  ⟨fun m b e =>
    if b then ⟨(m : ℤ), (10 : ℤ) ^ e, pow_pos (by norm_num) e⟩
    else ⟨(m : ℤ) * (10 : ℤ) ^ e, 1, one_pos⟩⟩

instance : IntCast QR := ⟨fun n => ⟨n, 1, one_pos⟩⟩

instance : Add QR :=
  ⟨fun a b => ⟨a.num * b.den + b.num * a.den, a.den * b.den,
    mul_pos a.dpos b.dpos⟩⟩

instance : Neg QR := ⟨fun a => ⟨-a.num, a.den, a.dpos⟩⟩

instance : Sub QR :=
  ⟨fun a b => ⟨a.num * b.den - b.num * a.den, a.den * b.den,
    mul_pos a.dpos b.dpos⟩⟩

instance : Mul QR :=
  ⟨fun a b => ⟨a.num * b.num, a.den * b.den, mul_pos a.dpos b.dpos⟩⟩

/-- Division; division by a zero value (which raises in the source) returns
0 and is unreachable in every modelled computation. -/
instance : Div QR :=
  ⟨fun a b =>
    if h : 0 < b.num then ⟨a.num * b.den, a.den * b.num, mul_pos a.dpos h⟩
    else if h' : b.num < 0 then
      ⟨-(a.num * b.den), a.den * (-b.num), mul_pos a.dpos (by omega)⟩
    else 0⟩

instance : LT QR := ⟨fun a b => a.num * b.den < b.num * a.den⟩

instance : LE QR := ⟨fun a b => a.num * b.den ≤ b.num * a.den⟩

instance (a b : QR) : Decidable (a < b) := Int.decLt _ _

instance (a b : QR) : Decidable (a ≤ b) := Int.decLe _ _

/-- Value equality (`==` on floats), by cross-multiplication. -/
def qrEq (a b : QR) : Bool := a.num * b.den = b.num * a.den

/-- Python `min` on two rationals (returns the first on ties). -/
def qrMin (a b : QR) : QR := if a ≤ b then a else b

/-- Python `max` on two rationals (returns the first on ties). -/
def qrMax (a b : QR) : QR := if b ≤ a then a else b

/-- The rational value of a `QR` (for statements relating the executable
comparisons to the ordered field `ℚ`). -/
def qrVal (a : QR) : ℚ := (a.num : ℚ) / (a.den : ℚ)

/-- `⌊a⌋`, via floor division by the positive denominator. -/
def qrFloor (a : QR) : ℤ := Int.fdiv a.num a.den

/-- Python's `round` on a `QR` value: round half to even. -/
def qrRound (q : QR) : ℤ :=
  let f : ℤ := qrFloor q
  let r : QR := q - (f : QR)
  if r < 0.5 then f
  else if (0.5 : QR) < r then f + 1
  else if f % 2 = 0 then f else f + 1

/-- Code-point lexicographic comparison of character lists, the order Python
uses for `str` comparison. -/
def lexLt : List Char → List Char → Bool
  | [], [] => false
  | [], _ :: _ => true
  | _ :: _, [] => false
  | a :: as, b :: bs =>
      if a.val < b.val then true
      else if b.val < a.val then false
      else lexLt as bs

/-- Python `a < b` on strings. -/
def strLtB (a b : String) : Bool := lexLt a.data b.data

/-- Python `a <= b` on strings. -/
def strLeB (a b : String) : Bool := a = b || strLtB a b

/-- ASCII lower-casing of one character (the engine's mode strings are
ASCII, where Python's `str.lower` agrees with this). -/
def lowerChar (c : Char) : Char :=
  if 65 ≤ c.val ∧ c.val ≤ 90 then Char.ofNat (c.val.toNat + 32) else c

/-- Python `str.lower` restricted to ASCII. -/
def pyLower (s : String) : String := ⟨s.data.map lowerChar⟩

/-! ## Workload calculator (`planner/engine/workload.py`) -/

/-- Default `attendance_hours_per_cfu` used when the subject does not carry an
explicit value (`DEFAULT_ATTENDANCE_HOURS_PER_CFU`). -/
def DEFAULT_ATTENDANCE_HOURS_PER_CFU : ℚ := 6

/-- The fields of the subject record that `compute_subject_workload` reads.
A missing/non-numeric `attendance_hours_per_cfu` is `none`. -/
structure WorkloadSubject where
  cfu : ℚ
  difficulty_coeff : ℚ
  completion_initial : ℚ
  attending : Bool
  attendance_hours_per_cfu : Option ℚ
deriving Repr

/-- Output record of `compute_subject_workload`. -/
structure Workload where
  hours_theoretical : ℚ
  attendance_discount_hours : ℚ
  prep_gap_coeff : ℚ
  hours_base : ℚ
  hours_buffer : ℚ
  hours_target : ℚ
deriving Repr, DecidableEq

/-- `compute_subject_workload`: official workload formulas with attendance
correction, translated field by field from the source. -/
def compute_subject_workload (subject : WorkloadSubject)
    (subject_buffer_percent : ℚ) (attended_calendar_hours : Option ℚ) :
    Workload :=
  let cfu := subject.cfu
  let difficulty_coeff := subject.difficulty_coeff
  let completion_initial := min 1 (max 0 subject.completion_initial)
  let attendance_discount_hours : ℚ :=
    if subject.attending then
      match attended_calendar_hours with
      | some h => max 0 h
      | none =>
          max 0 (cfu * (subject.attendance_hours_per_cfu.getD
            DEFAULT_ATTENDANCE_HOURS_PER_CFU))
    else 0
  let hours_theoretical := cfu * 25
  let prep_gap_coeff := 1 + (1 - completion_initial)
  let hours_base :=
    max 0 ((hours_theoretical - attendance_discount_hours)
      * difficulty_coeff * prep_gap_coeff)
  let hours_buffer := max 0 (hours_base * subject_buffer_percent)
  let hours_target := hours_base + hours_buffer
  { hours_theoretical := hours_theoretical
    attendance_discount_hours := attendance_discount_hours
    prep_gap_coeff := prep_gap_coeff
    hours_base := hours_base
    hours_buffer := hours_buffer
    hours_target := hours_target }

/-- The concrete subject of the workload-exactness test vector:
`cfu=6, difficulty_coeff=1.2, completion_initial=0.25, attending=True,
attendance_hours_per_cfu=5`. -/
def workloadExactnessSubject : WorkloadSubject :=
  { cfu := 6
    difficulty_coeff := 1.2
    completion_initial := 0.25
    attending := true
    attendance_hours_per_cfu := some 5 }

/-! ## Scoring (`planner/engine/scoring.py`) -/

/-- The weight table of `compute_score` (`DEFAULT_SCORE_WEIGHTS` carries the
documented defaults). -/
structure ScoreWeights where
  w_urgency : QR
  w_priority : QR
  w_gap : QR
  w_difficulty : QR
  w_window : QR
  w_mode : QR
  w_concentration : QR
  w_streak : QR

def DEFAULT_SCORE_WEIGHTS : ScoreWeights :=
  { w_urgency := 0.35
    w_priority := 0.20
    w_gap := 0.15
    w_difficulty := 0.10
    w_window := 0.10
    w_mode := 0.05
    w_concentration := 0.05
    w_streak := 0.15 }

/-- The feature dict read by `compute_score`; a missing key reads as `0.0`,
so an absent dict is the all-zero record. -/
structure Features where
  urgency : QR := 0
  priority : QR := 0
  completion_gap : QR := 0
  difficulty : QR := 0
  window_pressure : QR := 0
  mode_alignment : QR := 0
  concentration_penalty : QR := 0
  streak_penalty : QR := 0

/-- The empty feature dict. -/
def emptyFeatures : Features := {}

/-- `compute_score(features, weights)`: fixed weighted sum of the six positive
features minus the concentration and streak penalties. -/
def compute_score (features : Features) (weights : Option ScoreWeights := none) : QR :=
  let w := weights.getD DEFAULT_SCORE_WEIGHTS
  w.w_urgency * features.urgency
    + w.w_priority * features.priority
    + w.w_gap * features.completion_gap
    + w.w_difficulty * features.difficulty
    + w.w_window * features.window_pressure
    + w.w_mode * features.mode_alignment
    - w.w_concentration * features.concentration_penalty
    - w.w_streak * features.streak_penalty

/-- Configuration of `compute_recent_continuity_penalty`
(`DEFAULT_CONTINUITY_CONFIG` carries the defaults). -/
structure ContinuityConfig where
  enabled : Bool
  lookback_days : ℤ
  rolling_window_days : ℤ
  streak_threshold_days : ℤ
  rolling_share_threshold : QR
  streak_penalty_factor : QR
  rolling_penalty_factor : QR
  max_penalty : QR

def DEFAULT_CONTINUITY_CONFIG : ContinuityConfig :=
  { enabled := true
    lookback_days := 5
    rolling_window_days := 4
    streak_threshold_days := 2
    rolling_share_threshold := 0.65
    streak_penalty_factor := 0.25
    rolling_penalty_factor := 1.0
    max_penalty := 1.0 }

/-- The consecutive-day streak scan of `compute_recent_continuity_penalty`:
counts offsets `offset, offset+1, ...` (up to `n` of them) such that the
subject has positive minutes on `ref_day - offset`, stopping at the first
gap — the Python `for offset in range(1, lookback+1)` loop with `break`. -/
def streakScan (minutes_by_day : Day → String → ℤ) (sid : String) (ref_day : Day) :
    Nat → ℤ → ℤ
  | 0, _ => 0
  | n + 1, offset =>
      if 0 < minutes_by_day (ref_day - offset) sid then
        1 + streakScan minutes_by_day sid ref_day n (offset + 1)
      else 0

/-- Sum of `f (ref_day - offset)` for `offset` in `1..n`. -/
def offsetSum (f : Day → ℤ) (ref_day : Day) : Nat → ℤ
  | 0 => 0
  | n + 1 => f (ref_day - (n + 1 : ℤ)) + offsetSum f ref_day n

/-- `compute_recent_continuity_penalty`: streak and rolling-share penalty
contributions, summed and capped at `max_penalty`. -/
def compute_recent_continuity_penalty (subject_id : String) (reference_day : Day)
    (minutes_by_day : Day → String → ℤ) (total_minutes_by_day : Day → ℤ)
    (config : Option ContinuityConfig) : QR :=
  let cfg := config.getD DEFAULT_CONTINUITY_CONFIG
  if !cfg.enabled then 0
  else
    let lookback_days := max 1 cfg.lookback_days
    let rolling_window_days := max 1 cfg.rolling_window_days
    let streak_threshold := max 0 cfg.streak_threshold_days
    let rolling_share_threshold := qrMax 0 (qrMin 1 cfg.rolling_share_threshold)
    let streak_factor := qrMax 0 cfg.streak_penalty_factor
    let rolling_factor := qrMax 0 cfg.rolling_penalty_factor
    let max_penalty := qrMax 0 cfg.max_penalty
    let streak_days : ℤ :=
      streakScan minutes_by_day subject_id reference_day lookback_days.toNat 1
    let rolling_subject_minutes : ℤ :=
      offsetSum (fun d => minutes_by_day d subject_id) reference_day
        rolling_window_days.toNat
    let rolling_total_minutes : ℤ :=
      offsetSum total_minutes_by_day reference_day rolling_window_days.toNat
    let rolling_share : QR :=
      if 0 < rolling_total_minutes then
        ((rolling_subject_minutes : ℤ) : QR) / ((rolling_total_minutes : ℤ) : QR)
      else 0
    let penalty : QR :=
      (if streak_threshold < streak_days then
        ((streak_days - streak_threshold : ℤ) : QR) * streak_factor
      else 0)
        + (if rolling_share_threshold < rolling_share then
            (rolling_share - rolling_share_threshold) * rolling_factor
          else 0)
    qrMin max_penalty penalty

/-- The subject record fields the engine reads (scoring, allocator,
rebalancer). Dates are day ordinals; every date the model carries is a
parseable date, so the `strptime`-failure paths are unreachable. -/
structure Subject where
  subject_id : String
  priority : ℤ := 0
  exam_dates : List Day := []
  selected_exam_date : Option Day := none
  start_at : Option Day := none
  end_by : Option Day := none
deriving Repr, DecidableEq

/-- Minimum of a nonempty list of days (`min(exam_dates)`). -/
def minDay (d : Day) (ds : List Day) : Day := ds.foldl min d

/-- `deterministic_tie_breaker_key(subject, reference_day)`:
`(days to nearest exam clamped at ≥ 0, or the 10^9 sentinel; -priority;
subject_id)`. The `exam_dates` entries all parse in this model; when the list
is empty a present `selected_exam_date` is used as fallback. -/
def deterministic_tie_breaker_key (subject : Subject) (reference_day : Day) :
    ℤ × ℤ × String :=
  let exam_dates :=
    match subject.exam_dates, subject.selected_exam_date with
    | [], some d => [d]
    | dates, _ => dates
  let days_to_exam : ℤ :=
    match exam_dates with
    | [] => 10 ^ 9
    | d :: ds => max 0 (minDay d ds - reference_day)
  (days_to_exam, -subject.priority, subject.subject_id)

/-- The tie-break key as the specification words it: days from the reference
day to the nearest of the subject's exam dates (selected or listed), clamped
at ≥ 0, with the `10^9` sentinel when the subject has no exam date at all;
then the negated priority; then the subject id. Stated for comparison with
`deterministic_tie_breaker_key`. -/
def tieBreakerKeySpec (subject : Subject) (reference_day : Day) :
    ℤ × ℤ × String :=
  let allExams :=
    subject.exam_dates ++
      (match subject.selected_exam_date with | some d => [d] | none => [])
  let days_to_exam : ℤ :=
    match allExams with
    | [] => 10 ^ 9
    | d :: ds => max 0 (minDay d ds - reference_day)
  (days_to_exam, -subject.priority, subject.subject_id)

/-- Python `<=` on the tie-break key tuples (lexicographic). -/
def tieKeyLe (a b : ℤ × ℤ × String) : Bool :=
  decide (a.1 < b.1)
    || (decide (a.1 = b.1)
      && (decide (a.2.1 < b.2.1)
        || (decide (a.2.1 = b.2.1) && strLeB a.2.2 b.2.2)))

/-- `_subject_order` (`planner/engine/allocator.py`): subjects sorted by the
deterministic tie-break key for the given day. -/
def subjectOrder (subjects : List Subject) (day : Day) : List Subject :=
  pySort (fun s1 s2 =>
    tieKeyLe (deterministic_tie_breaker_key s1 day)
      (deterministic_tie_breaker_key s2 day)) subjects

/-! ## Sleep resolution (`planner/normalization/config_resolver.py`) and
slot builder (`planner/engine/slot_builder.py`) -/

/-- `_WEEKDAY_NAMES`, indexed by Python's `date.weekday()` (0 = Monday). -/
def WEEKDAY_NAMES : List String := ["mon", "tue", "wed", "thu", "fri", "sat", "sun"]

/-- Weekday name of a day ordinal; ordinal 1 (0001-01-01) is a Monday in the
proleptic Gregorian calendar, so `weekday() = (ordinal - 1) mod 7`. -/
def weekdayName (d : Day) : String := WEEKDAY_NAMES.getD ((d - 1).emod 7).toNat ""

/-- The global-config fields read by the slot builder and sleep resolver.
Sleep override dicts are modelled as partial maps; a missing dict is the
everywhere-`none` map. `sleep_hours_per_day` is `none` when missing or
non-numeric (both fall back to the default 8). -/
structure SlotGlobalConfig where
  daily_cap_minutes : ℤ := 0
  daily_cap_tolerance_minutes : ℤ := 0
  sleep_overrides_by_date : Day → Option ℚ := fun _ => none
  sleep_overrides_by_weekday : String → Option ℚ := fun _ => none
  sleep_hours_per_day : Option ℚ := some 8

/-- `resolve_sleep_hours`: by-date override, then by-weekday override, then
the global `sleep_hours_per_day`, then the hardcoded default 8. -/
def resolve_sleep_hours (global_config : SlotGlobalConfig) (day : Day) : ℚ :=
  match global_config.sleep_overrides_by_date day with
  | some specific => specific
  | none =>
      match global_config.sleep_overrides_by_weekday (weekdayName day) with
      | some specific => specific
      | none => global_config.sleep_hours_per_day.getD 8

/-- A calendar-constraint record; `ctype` embeds the `"type"` key. Missing
numeric fields read as 0 (the `.get(..., 0)` defaults), a missing date or
weekday is `none`. -/
structure CalConstraint where
  constraint_id : String := ""
  ctype : String := ""
  date : Option Day := none
  weekday : Option String := none
  cap_override_minutes : ℤ := 0
  blocked_minutes : ℤ := 0
deriving Repr

/-- `_applies_to_day`: the constraint's date equals the day, or its weekday
string equals the day's weekday name. -/
def appliesToDay (constraint : CalConstraint) (day : Day) : Bool :=
  constraint.date = some day || constraint.weekday = some (weekdayName day)

/-- Python `<=` between `Option Day` sort-key components encoded as strings:
a missing date encodes as `""`, which sorts before every ISO date string, and
ISO strings order like ordinals. -/
def optDayLe (a b : Option Day) : Bool :=
  match a, b with
  | none, _ => true
  | some _, none => false
  | some x, some y => decide (x ≤ y)

/-- The deterministic constraint ordering key
`(constraint_id, type, date, weekday)` of `build_daily_slots`, as a boolean
`<=` comparator; string components compare as Python strings. -/
def constraintKeyLe (a b : CalConstraint) : Bool :=
  strLtB a.constraint_id b.constraint_id
    || (a.constraint_id = b.constraint_id
      && (strLtB a.ctype b.ctype
        || (a.ctype = b.ctype
          && ((optDayLe a.date b.date && !(a.date = b.date))
            || (a.date = b.date
              && strLeB (a.weekday.getD "") (b.weekday.getD ""))))))

/-- The daily slot record `build_daily_slots` produces. -/
structure Slot where
  slot_id : String := ""
  date : Day
  cap_minutes : ℤ := 0
  tolerance_minutes : ℤ := 0
  max_minutes : ℤ := 0
  sleep_hours : ℚ := 8
  blocked_minutes : ℤ := 0
  blocked_constraints : List String := []
  cap_override_minutes : Option ℤ := none
deriving Repr

/-- `_iter_days` unrolled on a fuel of `end - start + 1` days. -/
def iterDaysAux (start : Day) : Nat → List Day
  | 0 => []
  | n + 1 => start :: iterDaysAux (start + 1) n

/-- `_iter_days(start, end)`: ascending inclusive day range. -/
def iterDays (start_day end_day : Day) : List Day :=
  iterDaysAux start_day (end_day + 1 - start_day).toNat

/-- `min(cap_override_values)` when the list is nonempty, else the global
base cap — the `cap_pre_sleep` choice of `build_daily_slots`. -/
def capPreSleep (base_cap : ℤ) : List ℤ → ℤ
  | [] => base_cap
  | v :: vs => minDay v vs

/-- The `cap_override_minutes` values of the constraints applicable to the
day with type `"cap_override"`. -/
def capOverrideValues (ordered_constraints : List CalConstraint) (day : Day) :
    List ℤ :=
  ((ordered_constraints.filter (fun c => appliesToDay c day)).filter
    (fun c => c.ctype = "cap_override")).map (fun c => c.cap_override_minutes)

/-- The constraints applicable to the day taken by the `elif "blocked"`
branch. -/
def blockedListForDay (ordered_constraints : List CalConstraint) (day : Day) :
    List CalConstraint :=
  (ordered_constraints.filter (fun c => appliesToDay c day)).filter
    (fun c => !(c.ctype = "cap_override") && c.ctype = "blocked")

/-- The per-day body of the `build_daily_slots` loop: sleep ceiling,
constraint gathering (the pre-sorted list is passed in), cap/tolerance
computation and clamping, translated line by line. -/
def buildSlotForDay (global_config : SlotGlobalConfig)
    (ordered_constraints : List CalConstraint) (day : Day) : Slot :=
  let base_tolerance := global_config.daily_cap_tolerance_minutes
  let sleep_hours := resolve_sleep_hours global_config day
  let awake_minutes : ℤ := max 0 (pyRound ((24 - sleep_hours) * 60))
  let cap_override_values := capOverrideValues ordered_constraints day
  let blocked_list := blockedListForDay ordered_constraints day
  let blocked_minutes := (blocked_list.map (fun c => c.blocked_minutes)).sum
  let blocked_ids := blocked_list.map (fun c => c.constraint_id)
  let cap_pre_sleep :=
    capPreSleep global_config.daily_cap_minutes cap_override_values
  let cap_with_sleep := max 0 (min cap_pre_sleep awake_minutes)
  let total_with_tolerance :=
    max 0 (min (cap_pre_sleep + base_tolerance) awake_minutes)
  let effective_cap := max 0 (cap_with_sleep - blocked_minutes)
  let effective_total := max 0 (total_with_tolerance - blocked_minutes)
  let effective_tolerance := max 0 (effective_total - effective_cap)
  { slot_id := "slot-" ++ toString day
    date := day
    cap_minutes := effective_cap
    tolerance_minutes := effective_tolerance
    max_minutes := effective_cap + effective_tolerance
    sleep_hours := sleep_hours
    blocked_minutes := blocked_minutes
    blocked_constraints := blocked_ids
    cap_override_minutes :=
      match cap_override_values with
      | [] => none
      | v :: vs => some (minDay v vs) }

/-- `build_daily_slots`: one slot per day of the horizon, ascending date
order, constraints pre-sorted by the deterministic key. -/
def build_daily_slots (start_date end_date : Day)
    (global_config : SlotGlobalConfig)
    (calendar_constraints : List CalConstraint) : List Slot :=
  let ordered_constraints := pySort constraintKeyLe calendar_constraints
  (iterDays start_date end_date).map
    (buildSlotForDay global_config ordered_constraints)

/-! ## Allocator (`planner/engine/allocator.py`) -/

/-- An allocation record `{slot_id, date, subject_id, minutes, bucket}`; the
lock flags are read (with default `False`) by the rebalancer. -/
structure Alloc where
  slot_id : String
  date : Day
  subject_id : String
  minutes : ℤ
  bucket : String
  locked_by_user : Bool := false
  pinned : Bool := false
deriving Repr, DecidableEq

/-- Pointwise update of a string-keyed map, i.e. one dict assignment. -/
def fupdate {β : Type} (f : String → β) (k : String) (v : β) : String → β :=
  fun x => if x = k then v else f x

/-- A Python dict with string keys and integer values, in insertion order. -/
abbrev ZDict := List (String × ℤ)

/-- Dict lookup with default 0 (`d.get(k, 0)`, and plain `d[k]` at keys the
runs always populate first). -/
def lookZ (l : ZDict) (k : String) : ℤ :=
  match l.find? (fun e => e.1 = k) with
  | some e => e.2
  | none => 0

/-- Dict assignment `d[k] = v`: overwrite in place, else append. -/
def updZ : ZDict → String → ℤ → ZDict
  | [], k, v => [(k, v)]
  | e :: rest, k, v =>
      if e.1 = k then (k, v) :: rest else e :: updZ rest k v

/-- `_alloc_chunk`: append one record unless the chunk is empty. -/
def allocChunk (subject_id : String) (slot : Slot) (minutes : ℤ)
    (bucket : String) (out : List Alloc) : List Alloc :=
  if minutes ≤ 0 then out
  else
    let record : Alloc :=
      { slot_id := slot.slot_id, date := slot.date,
        subject_id := subject_id, minutes := minutes, bucket := bucket }
    out ++ [record]

/-- The two workload numbers `allocate_plan` reads per subject
(`hours_base`, `hours_buffer`, each defaulting to `0.0`). -/
structure WorkloadHours where
  hours_base : QR := 0
  hours_buffer : QR := 0

/-- The keys `_resolve_subject_distribution` may read from the global
distribution dict; a missing key is `none`. -/
structure DistributionConfig where
  human_distribution_mode : Option String := none
  max_same_subject_streak_days : Option ℤ := none
  max_same_subject_consecutive_blocks : Option ℤ := none
  target_daily_subject_variety : Option ℤ := none
deriving Repr

/-- The per-subject override dict keys the allocator reads. -/
structure SubjectConfig where
  strategy_mode : Option String := none
  concentration_mode : Option String := none
  human_distribution_mode : Option String := none
  max_same_subject_streak_days : Option ℤ := none
  max_same_subject_consecutive_blocks : Option ℤ := none
  target_daily_subject_variety : Option ℤ := none
deriving Repr

/-- `_distribution_limits_for_mode` (the numeric fields; `penalty_multiplier`
is rational, the rest integers). -/
structure DistLimits where
  penalty_multiplier : QR
  default_max_streak : ℤ
  default_max_same_day_blocks : ℤ
  min_variety : ℤ

def distributionLimitsForMode (mode : String) : DistLimits :=
  if mode = "strict" then
    { penalty_multiplier := 2.0, default_max_streak := 2,
      default_max_same_day_blocks := 2, min_variety := 3 }
  else if mode = "balanced" then
    { penalty_multiplier := 1.0, default_max_streak := 3,
      default_max_same_day_blocks := 3, min_variety := 2 }
  else
    { penalty_multiplier := 0.0, default_max_streak := 10 ^ 6,
      default_max_same_day_blocks := 10 ^ 6, min_variety := 1 }

/-- The record `_resolve_subject_distribution` returns. -/
structure ResolvedDistribution where
  mode : String
  penalty_multiplier : QR
  max_streak_days : ℤ
  max_same_day_blocks : ℤ
  target_daily_subject_variety : ℤ

/-- `{**global_distribution, **config_by_subject.get(sid, {})}` read key by
key: the subject override wins when present. -/
def mergedKey {β : Type} (subjectVal globalVal : Option β) : Option β :=
  match subjectVal with
  | some v => some v
  | none => globalVal

/-- `_resolve_subject_distribution`, with the global dict and the per-subject
override dict both optional. -/
def resolveSubjectDistribution (sid : String)
    (global_distribution : Option DistributionConfig)
    (config_by_subject : String → Option SubjectConfig) : ResolvedDistribution :=
  let g := global_distribution.getD {}
  let o := (config_by_subject sid).getD {}
  let rawMode := mergedKey o.human_distribution_mode g.human_distribution_mode
  let mode0 := pyLower (rawMode.getD "off")
  let mode := if mode0 = "off" || mode0 = "balanced" || mode0 = "strict"
    then mode0 else "off"
  let limits := distributionLimitsForMode mode
  let max_streak := (mergedKey o.max_same_subject_streak_days
    g.max_same_subject_streak_days).getD limits.default_max_streak
  let max_same_day_blocks := (mergedKey o.max_same_subject_consecutive_blocks
    g.max_same_subject_consecutive_blocks).getD limits.default_max_same_day_blocks
  let target_variety := (mergedKey o.target_daily_subject_variety
    g.target_daily_subject_variety).getD limits.min_variety
  { mode := mode
    penalty_multiplier := limits.penalty_multiplier
    max_streak_days := max 1 max_streak
    max_same_day_blocks := max 1 max_same_day_blocks
    target_daily_subject_variety := max 1 target_variety }

/-- `_strategy_weight`: multiplicative bias from the strategy mode and the
clamped distance to the exam day. -/
def strategyWeight (slot_date : Day) (exam_day : Day) (mode : String) : QR :=
  let days_to_exam : ℤ := max 0 (exam_day - slot_date)
  let distance : QR := (days_to_exam : QR)
  let near_ratio : QR := 1 / (1 + distance)
  let far_ratio : QR := distance / (distance + 2)
  let normalized_mode := pyLower (if mode = "" then "hybrid" else mode)
  if normalized_mode = "forward" then 1 + 0.40 * far_ratio
  else if normalized_mode = "backward" then 1 + 0.45 * near_ratio
  else 1 + 0.15 * near_ratio

/-- `_normalize_concentration_mode`. -/
def normalizeConcentrationMode (raw_mode : Option String)
    (fallback : String := "diffuse") : String :=
  let mode := pyLower (raw_mode.getD "")
  if mode = "diffuse" || mode = "concentrated" then mode else fallback

/-- `_concentration_multiplier`. -/
def concentrationMultiplier (mode : String) : QR :=
  if mode = "concentrated" then 1.03 else 1

/-- `_concentration_bias`. -/
def concentrationBias (mode : String) : QR :=
  if mode = "concentrated" then 0.01 else 0

/-- `_concentration_adjusted_features`: halve the concentration penalty for
`concentrated` subjects. -/
def concentrationAdjustedFeatures (features : Features) (mode : String) :
    Features :=
  if mode = "concentrated" then
    { features with concentration_penalty := features.concentration_penalty * 0.5 }
  else features

/-! ### Allocation-history ledger

The source keeps several mutually-consistent mutable views of the in-run
allocation history (`history_minutes_by_day`, `history_total_minutes_by_day`,
`day_subject_set`, `day_last_subject`, `day_consecutive_blocks`), all updated
only through `_register_history`. The embedding keeps a single append-only
ledger of `(day, subject, minutes)` entries (newest first) and derives each
view: per-day-per-subject minutes and totals as sums; the subject set as the
deduplicated day's subjects; the last subject of a day as the newest entry;
the consecutive-block counter as the length of the newest same-subject run,
which is exactly what the incremental `+= 1 / reset to 1` updates maintain. -/

/-- One history entry: day, subject, positive minutes. -/
abbrev HistEntry := Day × String × ℤ

/-- `_register_history`: slack and empty chunks are not recorded. -/
def registerHistory (hist : List HistEntry) (day : Day) (sid : String)
    (minutes : ℤ) : List HistEntry :=
  if sid = "__slack__" || minutes ≤ 0 then hist else (day, sid, minutes) :: hist

/-- `history_minutes_by_day[day][sid]` (0 when absent). -/
def histGet (hist : List HistEntry) (day : Day) (sid : String) : ℤ :=
  ((hist.filter (fun e => e.1 = day && e.2.1 = sid)).map
    (fun e => e.2.2)).sum

/-- `history_total_minutes_by_day[day]` (0 when absent). -/
def histTotal (hist : List HistEntry) (day : Day) : ℤ :=
  ((hist.filter (fun e => e.1 = day)).map (fun e => e.2.2)).sum

/-- The `(subject, minutes)` pairs recorded for a day, newest first. -/
def dayEntries (hist : List HistEntry) (day : Day) : List (String × ℤ) :=
  (hist.filter (fun e => e.1 = day)).map (fun e => e.2)

/-- `day_subject_set[day]`, as a deduplicated list. -/
def daySubjectsUnique (hist : List HistEntry) (day : Day) : List String :=
  ((dayEntries hist day).map Prod.fst).dedup

/-- `day_last_subject.get(day)`. -/
def dayLastSubject (hist : List HistEntry) (day : Day) : Option String :=
  match dayEntries hist day with
  | [] => none
  | e :: _ => some e.1

/-- Length of the initial run of entries for `sid`. -/
def initialRunLength (sid : String) : List (String × ℤ) → ℤ
  | [] => 0
  | e :: rest => if e.1 = sid then 1 + initialRunLength sid rest else 0

/-- `day_consecutive_blocks.get(day, 0)`: length of the newest same-subject
run of the day's entries. -/
def dayConsecutiveBlocks (hist : List HistEntry) (day : Day) : ℤ :=
  match dayEntries hist day with
  | [] => 0
  | e :: rest => 1 + initialRunLength e.1 rest

/-- The backwards scan of `_current_streak_days`, bounded by fuel: each day
counted has positive recorded minutes, hence at least one ledger entry, and
counted days are pairwise distinct, so `hist.length` fuel makes the bounded
scan agree with the source's unbounded `while`. -/
def streakLoop (hist : List HistEntry) (sid : String) :
    Nat → Day → ℤ
  | 0, _ => 0
  | n + 1, cursor =>
      if 0 < histGet hist (cursor - 1) sid then
        1 + streakLoop hist sid n (cursor - 1)
      else 0

/-- `_current_streak_days(sid, day, minutes_by_day)`. -/
def currentStreakDays (hist : List HistEntry) (sid : String) (day : Day) : ℤ :=
  streakLoop hist sid hist.length day

/-! ### Allocator pipeline -/

/-- The per-run read-only context of `allocate_plan`: the resolved per-subject
maps built in its prologue, plus the session quantum and the tie-ordered
subject list. (The optional `decision_trace` collector is not modelled: it is
`None` by default and only accumulates log entries.) -/
structure AllocCtx where
  session_minutes : ℤ
  features : String → Features
  continuity : ContinuityConfig
  dist : String → ResolvedDistribution
  strategyMode : String → String
  concMode : String → String
  examDay : String → Day
  orderedSubjects : List Subject

/-- The mutable state threaded through the three phases. `slack` embeds
`slack_by_slot` (missing key reads 0). -/
structure AllocState where
  allocations : List Alloc
  remaining_base : ZDict
  remaining_buffer : ZDict
  hist : List HistEntry
  slack : ZDict
deriving DecidableEq

/-- A scored candidate `(score-or-weight, tie_key, subject)`. -/
abbrev Cand := QR × (ℤ × ℤ × String) × Subject

/-- Python's ascending order on the sort key `(-score, tie_key)`. -/
def candLe (a b : Cand) : Bool :=
  decide (b.1 < a.1) || (qrEq a.1 b.1 && tieKeyLe a.2.1 b.2.1)

/-- `_is_same_day_block_limit_exceeded`. -/
def isSameDayBlockLimitExceeded (ctx : AllocCtx) (hist : List HistEntry)
    (sid : String) (day : Day) : Bool :=
  let dist_cfg := ctx.dist sid
  if dist_cfg.mode = "off" then false
  else if !(dayLastSubject hist day = some sid) then false
  else decide (dist_cfg.max_same_day_blocks < dayConsecutiveBlocks hist day + 1)

/-- The Phase-1 candidate construction: subjects with base remaining, not
blocked by a streak limit, scored with continuity and variety penalties,
concentration adjustments and the (phase-1-damped) strategy weight. -/
def phase1Candidates (ctx : AllocCtx) (st : AllocState) (slot : Slot) :
    List Cand :=
  (subjectOrder ctx.orderedSubjects slot.date).filterMap (fun subject =>
    let sid := subject.subject_id
    if lookZ st.remaining_base sid ≤ 0 then none
    else
      let features := ctx.features sid
      let continuity_penalty := compute_recent_continuity_penalty sid slot.date
        (histGet st.hist) (histTotal st.hist) (some ctx.continuity)
      let dist_cfg := ctx.dist sid
      let mode := dist_cfg.mode
      let day := slot.date
      let streak_days := currentStreakDays st.hist sid day
      if (mode = "balanced" || mode = "strict")
          && decide (dist_cfg.max_streak_days ≤ streak_days) then none
      else
        let unique_today := daySubjectsUnique st.hist day
        let unique_with_sid : ℤ :=
          if sid ∈ unique_today then (unique_today.length : ℤ)
          else (unique_today.length : ℤ) + 1
        let variety_missing : ℤ :=
          max 0 (dist_cfg.target_daily_subject_variety - unique_with_sid)
        let soft_penalty : QR :=
          dist_cfg.penalty_multiplier * ((variety_missing : ℤ) : QR) * 0.25
        let concentration_mode := ctx.concMode sid
        let adjusted := concentrationAdjustedFeatures features concentration_mode
        let base_score := compute_score
          { adjusted with streak_penalty := continuity_penalty + soft_penalty }
        let strategy_mode := ctx.strategyMode sid
        let w0 := strategyWeight slot.date (ctx.examDay sid) strategy_mode
        let strategy_weight :=
          if strategy_mode = "hybrid" then 1 + (w0 - 1) * 0.25 else w0
        let score := (base_score + concentrationBias concentration_mode)
          * strategy_weight * concentrationMultiplier concentration_mode
        let tie := deterministic_tie_breaker_key subject slot.date
        some (score, tie, subject))

/-- The chosen subject of a Phase-1 iteration: top candidate, or the first
lower-ranked candidate that respects the same-day block limit when the top
one would exceed it, or the top one again when none does. -/
def phase1Choose (ctx : AllocCtx) (hist : List HistEntry) (day : Day) :
    List Cand → Option Subject
  | [] => none
  | c0 :: rest =>
      let chosen := c0.2.2
      if isSameDayBlockLimitExceeded ctx hist chosen.subject_id day then
        match rest.find? (fun c =>
          !(isSameDayBlockLimitExceeded ctx hist c.2.2.subject_id day)) with
        | some c => some c.2.2
        | none => some chosen
      else some chosen

/-- The Phase-1 `while available >= session_minutes` loop, on explicit fuel;
`none` models the source's non-termination (possible only for a non-positive
session quantum, in which case candidates and `available` never shrink). With
`1 ≤ session_minutes` every iteration allocates at least one minute, so the
fuel `available.toNat + 1` used by `allocPhase1` is never exhausted. -/
def phase1Loop (ctx : AllocCtx) (slot : Slot) :
    Nat → ℤ → AllocState → Option (ℤ × AllocState)
  | 0, _, _ => none
  | fuel + 1, available, st =>
      if available < ctx.session_minutes then some (available, st)
      else
        let cands := pySort candLe (phase1Candidates ctx st slot)
        match phase1Choose ctx st.hist slot.date cands with
        | none => some (available, st)
        | some chosen =>
            let sid := chosen.subject_id
            let chunk := min ctx.session_minutes
              (min available (lookZ st.remaining_base sid))
            let st' : AllocState :=
              { st with
                allocations := allocChunk sid slot chunk "base" st.allocations
                remaining_base := updZ st.remaining_base sid
                  (lookZ st.remaining_base sid - chunk)
                hist := registerHistory st.hist slot.date sid chunk }
            phase1Loop ctx slot fuel (available - chunk) st'

/-- Phase 1 over the ordered slots: run the loop from `max_minutes` and store
the leftover in `slack_by_slot`. -/
def phase1Slots (ctx : AllocCtx) : List Slot → AllocState → Option AllocState
  | [], st => some st
  | slot :: rest, st =>
      let available := slot.max_minutes
      match phase1Loop ctx slot (available.toNat + 1) available st with
      | none => none
      | some (availEnd, st') =>
          phase1Slots ctx rest
            { st' with slack := updZ st'.slack slot.slot_id availEnd }

/-- The Phase-2 candidates: base fully exhausted, buffer remaining, exam not
yet passed; carried with the raw strategy weight. -/
def phase2Candidates (ctx : AllocCtx) (st : AllocState) (slot : Slot) :
    List Cand :=
  (subjectOrder ctx.orderedSubjects slot.date).filterMap (fun subject =>
    let sid := subject.subject_id
    if 0 < lookZ st.remaining_base sid then none
    else if lookZ st.remaining_buffer sid ≤ 0 then none
    else if ctx.examDay sid < slot.date then none
    else
      let strategy_weight := strategyWeight slot.date (ctx.examDay sid)
        (ctx.strategyMode sid)
      some (strategy_weight, deterministic_tie_breaker_key subject slot.date,
        subject))

/-- The Phase-2 per-candidate loop: one buffer chunk per ranked candidate,
stopping (`break`) once the slot's free capacity drops below one quantum. -/
def phase2Give (ctx : AllocCtx) (slot : Slot) :
    List Cand → ℤ → AllocState → ℤ × AllocState
  | [], free, st => (free, st)
  | c :: rest, free, st =>
      if free < ctx.session_minutes then (free, st)
      else
        let sid := c.2.2.subject_id
        let chunk := min ctx.session_minutes
          (min free (lookZ st.remaining_buffer sid))
        let st' : AllocState :=
          { st with
            allocations := allocChunk sid slot chunk "buffer" st.allocations
            remaining_buffer := updZ st.remaining_buffer sid
              (lookZ st.remaining_buffer sid - chunk)
            hist := registerHistory st.hist slot.date sid chunk }
        phase2Give ctx slot rest (free - chunk) st'

/-- Phase 2 over the ordered slots (slots with less than one quantum of
leftover keep their slack untouched). -/
def phase2Slots (ctx : AllocCtx) : List Slot → AllocState → AllocState
  | [], st => st
  | slot :: rest, st =>
      let free := lookZ st.slack slot.slot_id
      if free < ctx.session_minutes then phase2Slots ctx rest st
      else
        let cands := pySort candLe (phase2Candidates ctx st slot)
        let r := phase2Give ctx slot cands free st
        phase2Slots ctx rest
          { r.2 with slack := updZ r.2.slack slot.slot_id r.1 }

/-- The Phase-3 candidates: like Phase 2 but the free-capacity test is part
of the candidate filter (evaluated against the slot's free capacity at
candidate-build time). -/
def phase3Candidates (ctx : AllocCtx) (st : AllocState) (slot : Slot)
    (free : ℤ) : List Cand :=
  (subjectOrder ctx.orderedSubjects slot.date).filterMap (fun subject =>
    let sid := subject.subject_id
    if 0 < lookZ st.remaining_base sid then none
    else if lookZ st.remaining_buffer sid ≤ 0 || decide (free < ctx.session_minutes)
      then none
    else
      let strategy_weight := strategyWeight slot.date (ctx.examDay sid)
        (ctx.strategyMode sid)
      some (strategy_weight, deterministic_tie_breaker_key subject slot.date,
        subject))

/-- The Phase-3 per-candidate loop; unlike Phase 2 the capacity check is a
`continue`, not a `break` (same effect, since free capacity never grows when
the quantum is positive). -/
def phase3Give (ctx : AllocCtx) (slot : Slot) :
    List Cand → ℤ → AllocState → ℤ × AllocState
  | [], free, st => (free, st)
  | c :: rest, free, st =>
      if free < ctx.session_minutes then phase3Give ctx slot rest free st
      else
        let sid := c.2.2.subject_id
        let chunk := min ctx.session_minutes
          (min free (lookZ st.remaining_buffer sid))
        let st' : AllocState :=
          { st with
            allocations := allocChunk sid slot chunk "buffer" st.allocations
            remaining_buffer := updZ st.remaining_buffer sid
              (lookZ st.remaining_buffer sid - chunk)
            hist := registerHistory st.hist slot.date sid chunk }
        phase3Give ctx slot rest (free - chunk) st'

/-- Phase 3 over the ordered slots: remaining buffer-eligible fill, then an
explicit slack record for whatever is left (the slack map itself is not
updated in this phase, mirroring the source). -/
def phase3Slots (ctx : AllocCtx) : List Slot → AllocState → AllocState
  | [], st => st
  | slot :: rest, st =>
      let free := lookZ st.slack slot.slot_id
      if free ≤ 0 then phase3Slots ctx rest st
      else
        let cands := pySort candLe (phase3Candidates ctx st slot free)
        let r := phase3Give ctx slot cands free st
        let st' : AllocState :=
          if 0 < r.1 then
            { r.2 with
              allocations := allocChunk "__slack__" slot r.1 "slack"
                r.2.allocations }
          else r.2
        phase3Slots ctx rest st'

/-- The result dict of `allocate_plan`. -/
structure AllocResult where
  allocations : List Alloc
  remaining_base_minutes : ZDict
  remaining_buffer_minutes : ZDict
deriving DecidableEq

/-- Ascending `(str(date), str(slot_id))` order on slots (ISO date strings
order like ordinals). -/
def slotOrderLe (a b : Slot) : Bool :=
  decide (a.date < b.date)
    || (decide (a.date = b.date) && strLeB a.slot_id b.slot_id)

/-- Ascending `str(subject_id)` order on subjects. -/
def subjectIdLe (a b : Subject) : Bool := strLeB a.subject_id b.subject_id

/-- Ordinal of 9999-12-31 (`datetime.date.max`), the fallback exam day. -/
def FAR_FUTURE_DAY : Day := 3652059

/-- The exam day resolved per subject: `selected_exam_date` when present,
else the earliest of `exam_dates`, else 9999-12-31. -/
def subjectExamValue (subject : Subject) : Day :=
  match subject.selected_exam_date with
  | some selected => selected
  | none =>
      match subject.exam_dates with
      | [] => FAR_FUTURE_DAY
      | d :: ds => minDay d ds

/-- The read-only context assembled by `allocate_plan`'s prologue. -/
def mkAllocCtx (subjects : List Subject)
    (session_minutes : ℤ)
    (score_features_by_subject : String → Option Features)
    (continuity_config : Option ContinuityConfig)
    (distribution_config : Option DistributionConfig)
    (config_by_subject : String → Option SubjectConfig)
    (concentration_mode_by_subject : String → Option String)
    (global_concentration_mode : String) : AllocCtx :=
  let ordered_subjects := pySort subjectIdLe subjects
  let exam_day := ordered_subjects.foldl
    (fun f subject => fupdate f subject.subject_id (subjectExamValue subject))
    (fun _ => FAR_FUTURE_DAY)
  let gconc := normalizeConcentrationMode (some global_concentration_mode)
  { session_minutes := session_minutes
    features := fun sid => (score_features_by_subject sid).getD {}
    continuity := continuity_config.getD DEFAULT_CONTINUITY_CONFIG
    dist := fun sid =>
      resolveSubjectDistribution sid distribution_config config_by_subject
    strategyMode := fun sid =>
      pyLower ((((config_by_subject sid).getD {}).strategy_mode).getD "hybrid")
    concMode := fun sid =>
      match mergedKey (concentration_mode_by_subject sid)
          (((config_by_subject sid).getD {}).concentration_mode) with
      | none => gconc
      | some explicit => normalizeConcentrationMode (some explicit) gconc
    examDay := exam_day
    orderedSubjects := ordered_subjects }

/-- The base/buffer minute maps `allocate_plan` initialises from the
workload dict: `max(0, round(hours * 60))` per subject. -/
def initialMinutes (subjects : List Subject)
    (hours : String → QR) : ZDict :=
  (pySort subjectIdLe subjects).foldl
    (fun l subject => updZ l subject.subject_id
      (max 0 (qrRound (hours subject.subject_id * 60))))
    []

/-- Phase 1 of `allocate_plan` (prologue plus forward base allocation);
`none` models a diverging run. -/
def allocPhase1 (slots : List Slot) (subjects : List Subject)
    (workload_by_subject : String → Option WorkloadHours)
    (session_minutes : ℤ)
    (score_features_by_subject : String → Option Features)
    (continuity_config : Option ContinuityConfig)
    (distribution_config : Option DistributionConfig)
    (config_by_subject : String → Option SubjectConfig)
    (concentration_mode_by_subject : String → Option String)
    (global_concentration_mode : String) : Option AllocState :=
  let ctx := mkAllocCtx subjects session_minutes score_features_by_subject
    continuity_config distribution_config config_by_subject
    concentration_mode_by_subject global_concentration_mode
  let st0 : AllocState :=
    { allocations := []
      remaining_base := initialMinutes subjects
        (fun sid => ((workload_by_subject sid).getD {}).hours_base)
      remaining_buffer := initialMinutes subjects
        (fun sid => ((workload_by_subject sid).getD {}).hours_buffer)
      hist := []
      slack := [] }
  phase1Slots ctx (pySort slotOrderLe slots) st0

/-- Phases 1 and 2 of `allocate_plan`. -/
def allocPhase2 (slots : List Slot) (subjects : List Subject)
    (workload_by_subject : String → Option WorkloadHours)
    (session_minutes : ℤ)
    (score_features_by_subject : String → Option Features)
    (continuity_config : Option ContinuityConfig)
    (distribution_config : Option DistributionConfig)
    (config_by_subject : String → Option SubjectConfig)
    (concentration_mode_by_subject : String → Option String)
    (global_concentration_mode : String) : Option AllocState :=
  (allocPhase1 slots subjects workload_by_subject session_minutes
    score_features_by_subject continuity_config distribution_config
    config_by_subject concentration_mode_by_subject
    global_concentration_mode).map
    (phase2Slots (mkAllocCtx subjects session_minutes
      score_features_by_subject continuity_config distribution_config
      config_by_subject concentration_mode_by_subject
      global_concentration_mode) (pySort slotOrderLe slots))

/-- `allocate_plan`: deterministic three-phase allocation; `none` models a
diverging run (impossible when `1 ≤ session_minutes`). -/
def allocate_plan (slots : List Slot) (subjects : List Subject)
    (workload_by_subject : String → Option WorkloadHours)
    (session_minutes : ℤ := 30)
    (score_features_by_subject : String → Option Features := fun _ => none)
    (continuity_config : Option ContinuityConfig := none)
    (distribution_config : Option DistributionConfig := none)
    (config_by_subject : String → Option SubjectConfig := fun _ => none)
    (concentration_mode_by_subject : String → Option String := fun _ => none)
    (global_concentration_mode : String := "diffuse") : Option AllocResult :=
  (allocPhase2 slots subjects workload_by_subject session_minutes
    score_features_by_subject continuity_config distribution_config
    config_by_subject concentration_mode_by_subject
    global_concentration_mode).map (fun st2 =>
    let st3 := phase3Slots (mkAllocCtx subjects session_minutes
      score_features_by_subject continuity_config distribution_config
      config_by_subject concentration_mode_by_subject
      global_concentration_mode) (pySort slotOrderLe slots) st2
    { allocations := st3.allocations
      remaining_base_minutes := st3.remaining_base
      remaining_buffer_minutes := st3.remaining_buffer })

/-! ### Quantities the allocator claims speak about -/

/-- Total minutes of a list of allocation records. -/
def sumMinutes (l : List Alloc) : ℤ := (l.map (fun a => a.minutes)).sum

/-- The records carrying a given `slot_id`. -/
def bySlotId (l : List Alloc) (i : String) : List Alloc :=
  l.filter (fun a => a.slot_id = i)

/-- The non-slack records dated a given day. -/
def nonSlackByDate (l : List Alloc) (d : Day) : List Alloc :=
  l.filter (fun a => !(a.bucket = "slack") && a.date = d)

/-- The slack-bucket records carrying a given `slot_id`. -/
def slackRecordsFor (l : List Alloc) (i : String) : List Alloc :=
  l.filter (fun a => a.slot_id = i && a.bucket = "slack")

/-- Helper to write allocation records compactly. -/
def mkAlloc (sl : String) (d : Day) (sid : String) (m : ℤ) (b : String) :
    Alloc :=
  { slot_id := sl, date := d, subject_id := sid, minutes := m, bucket := b }

/-! ### Concrete allocator scenarios -/

/-- A 60-minute slot on 2026-01-01. -/
def demoSlot60 : Slot := { slot_id := "a", date := 739617, max_minutes := 60 }

/-- A 120-minute slot on 2026-01-01. -/
def demoSlot120 : Slot := { slot_id := "a", date := 739617, max_minutes := 120 }

/-- A 30-minute slot on 2026-01-01. -/
def demoSlot30 : Slot := { slot_id := "a", date := 739617, max_minutes := 30 }

/-- Two slots on distinct days sharing the slot id `"x"`. -/
def dupIdSlotA : Slot := { slot_id := "x", date := 739617, max_minutes := 30 }

def dupIdSlotB : Slot := { slot_id := "x", date := 739618, max_minutes := 600 }

/-- The demo subject, exam on 2026-12-31 (ordinal 739981). -/
def demoSubject : Subject :=
  { subject_id := "s", priority := 1, exam_dates := [739981] }

/-- Workload dict: 2 base hours, 1 buffer hour for `"s"`. -/
def demoWorkBase2 : String → Option WorkloadHours :=
  fun sid => if sid = "s" then some { hours_base := 2, hours_buffer := 1 }
    else none

/-- Workload dict: no base, 10 buffer hours for `"s"`. -/
def demoWorkBuf10 : String → Option WorkloadHours :=
  fun sid => if sid = "s" then some { hours_base := 0, hours_buffer := 10 }
    else none

/-- Workload dict: no base, 2 buffer hours for `"s"`. -/
def demoWorkBuf2 : String → Option WorkloadHours :=
  fun sid => if sid = "s" then some { hours_base := 0, hours_buffer := 2 }
    else none

/-- Workload dict: no base, 1 buffer hour for `"s"`. -/
def demoWorkBuf1 : String → Option WorkloadHours :=
  fun sid => if sid = "s" then some { hours_base := 0, hours_buffer := 1 }
    else none

/-! ## Replan / manual-session integration (`planner/engine/replan.py`) -/

/-- The manual-session fields `compute_manual_progress` reads; numeric
fields read as 0 when missing or falsy (`int(... or 0)`), a missing
`subject_id` reads as the empty string. -/
structure ManualSession where
  subject_id : String := ""
  planned_minutes : ℤ := 0
  actual_minutes_done : ℤ := 0
  status : Option String := none
deriving Repr, DecidableEq

/-- The per-subject counters `compute_manual_progress` accumulates. -/
structure ProgressCounters where
  effective_done_minutes : ℤ := 0
  planned_minutes : ℤ := 0
  skipped_minutes : ℤ := 0
  skipped_sessions : ℤ := 0
deriving Repr, DecidableEq

/-- The per-session `done` credit of `compute_manual_progress`:
`max(planned, actual)` for `done`, `min(planned, max(0, actual))` for
`partial`, `0` otherwise. -/
def manualSessionCredit (session : ManualSession) : ℤ :=
  if session.status = some "done" then
    max session.planned_minutes session.actual_minutes_done
  else if session.status = some "partial" then
    min session.planned_minutes (max 0 session.actual_minutes_done)
  else 0

/-- One loop iteration of `compute_manual_progress`: sessions without a
subject id are skipped, otherwise that subject's counters are bumped. -/
def manualProgressStep (acc : String → ProgressCounters)
    (session : ManualSession) : String → ProgressCounters :=
  if session.subject_id = "" then acc
  else fun sid =>
    if sid = session.subject_id then
      let prev := acc sid
      { effective_done_minutes :=
          prev.effective_done_minutes + manualSessionCredit session
        planned_minutes := prev.planned_minutes + max 0 session.planned_minutes
        skipped_minutes := prev.skipped_minutes
          + (if session.status = some "skipped" then
              max 0 session.planned_minutes
            else 0)
        skipped_sessions := prev.skipped_sessions
          + (if session.status = some "skipped" then 1 else 0) }
    else acc sid

/-- `compute_manual_progress`: folds the manual sessions into per-subject
counters (the result dict read with an all-zero default). -/
def compute_manual_progress (manual_sessions : List ManualSession) :
    String → ProgressCounters :=
  manual_sessions.foldl manualProgressStep (fun _ => {})

/-- A global config whose sleep hours exceed 24 (the resolver does not clamp
them). -/
def sleepCfg25 : SlotGlobalConfig :=
  { daily_cap_minutes := 10, sleep_hours_per_day := some 25 }

/-- A global config with a 900-minute cap and 8 sleep hours. -/
def negBlockedCfg : SlotGlobalConfig :=
  { daily_cap_minutes := 900, sleep_hours_per_day := some 8 }

/-- A blocked constraint carrying negative minutes (nothing in the builder
rejects it). -/
def negBlockedConstraint : CalConstraint :=
  { constraint_id := "c1", ctype := "blocked", date := some 739617,
    blocked_minutes := -100 }

/-- A concrete manual-session list exercising the `done`, `partial`,
`skipped`, foreign-subject and missing-subject cases. -/
def manualSessionsExample : List ManualSession :=
  [ { subject_id := "math", planned_minutes := 30, actual_minutes_done := 45,
      status := some "done" }
  , { subject_id := "math", planned_minutes := 30, actual_minutes_done := 10,
      status := some "partial" }
  , { subject_id := "math", planned_minutes := 20, actual_minutes_done := 0,
      status := some "skipped" }
  , { subject_id := "physics", planned_minutes := 60, actual_minutes_done := 60,
      status := some "done" }
  , { subject_id := "", planned_minutes := 99, actual_minutes_done := 99,
      status := some "done" } ]

/-- The result of the single-slot base-only demo run (verified by
evaluation): two 30-minute base chunks, 60 base and 60 buffer minutes left. -/
def rC1demo : AllocResult :=
  { allocations := [mkAlloc "a" 739617 "s" 30 "base",
      mkAlloc "a" 739617 "s" 30 "base"]
    remaining_base_minutes := [("s", 60)]
    remaining_buffer_minutes := [("s", 60)] }

/-- The result of the duplicate-slot-id run (verified by evaluation): the
shared `slack_by_slot` key makes day 739617 receive 60 non-slack minutes
against a 30-minute slot. -/
def rC2demo : AllocResult :=
  { allocations := [mkAlloc "x" 739617 "s" 30 "buffer",
      mkAlloc "x" 739618 "s" 30 "buffer",
      mkAlloc "x" 739617 "s" 30 "buffer",
      mkAlloc "x" 739617 "__slack__" 510 "slack",
      mkAlloc "x" 739618 "s" 30 "buffer",
      mkAlloc "x" 739618 "__slack__" 510 "slack"]
    remaining_base_minutes := [("s", 0)]
    remaining_buffer_minutes := [("s", 480)] }

/-- The result of the negative-session run (verified by evaluation): a
single 50-minute slack record against a 30-minute slot. -/
def rC9neg : AllocResult :=
  { allocations := [mkAlloc "a" 739617 "__slack__" 50 "slack"]
    remaining_base_minutes := [("s", 0)]
    remaining_buffer_minutes := [("s", 80)] }

/-- End-of-Phase-1 state of the 120-minute buffer-only run (verified by
evaluation). -/
def st1C7 : AllocState :=
  { allocations := []
    remaining_base := [("s", 0)]
    remaining_buffer := [("s", 120)]
    hist := []
    slack := [("a", 120)] }

/-- End-of-Phase-2 state of the 120-minute buffer-only run (verified by
evaluation): one 30-minute buffer chunk, 90 minutes of capacity and 90
buffer minutes both left over. -/
def st2C7 : AllocState :=
  { allocations := [mkAlloc "a" 739617 "s" 30 "buffer"]
    remaining_base := [("s", 0)]
    remaining_buffer := [("s", 90)]
    hist := [(739617, "s", 30)]
    slack := [("a", 90)] }

/-! ## Rebalancer (`planner/engine/rebalance.py`)

Dates are modelled as proleptic-Gregorian ordinals (`Day`), as in the
allocator: the source keys its per-day dictionaries by `str(date)` and
compares candidate keys as ISO strings, and for valid dates the ISO string
order coincides with the ordinal order, while `_parse_date` always succeeds
on them. -/

/-- Python `int(x or d)` on an optional integer config value: a missing or
falsy (zero) value falls back to the default. -/
def pyOrInt (v : Option ℤ) (d : ℤ) : ℤ :=
  match v with
  | none => d
  | some x => if x = 0 then d else x

/-- `str.startswith` on character lists. -/
def charsLeadB : List Char → List Char → Bool
  | [], _ => true
  | _ :: _, [] => false
  | c :: cs, d :: ds => c = d && charsLeadB cs ds

/-- `s.startswith(p)`. -/
def strLeadB (p s : String) : Bool := charsLeadB p.data s.data

/-- A subject window as computed by `_subject_windows` (`{}` when the
subject is unknown, every key then reading `None`). -/
structure RebWindow where
  start_at : Option Day := none
  end_by : Option Day := none
  exam_date : Option Day := none
deriving Repr, DecidableEq

/-- The `global_config` keys `rebalance_allocations` reads. -/
structure RebConfig where
  max_subjects_per_day : Option ℤ := none
  rebalance_max_swaps : Option ℤ := none
  rebalance_max_iterations : Option ℤ := none
  rebalance_near_days_window : Option ℤ := none
  default_strategy_mode : Option String := none
deriving Repr

/-- `_subject_windows`: per subject, `start_at`, the earlier of `end_by` and
the earliest exam date, and the earliest exam date (the selected exam date
counts among the exam dates); later subjects overwrite earlier ones. -/
def subjectWindows (subjects : List Subject) : String → Option RebWindow :=
  subjects.foldl
    (fun f subject =>
      if subject.subject_id = "" then f
      else
        let exams := (match subject.selected_exam_date with
          | some d => [d]
          | none => []) ++ subject.exam_dates
        let exam_date : Option Day := match exams with
          | [] => none
          | d :: ds => some (minDay d ds)
        let end_by : Option Day := match subject.end_by, exam_date with
          | none, none => none
          | some e, none => some e
          | none, some x => some x
          | some e, some x => some (min e x)
        fun sid =>
          if sid = subject.subject_id then
            some (RebWindow.mk subject.start_at end_by exam_date)
          else f sid)
    (fun _ => none)

/-- `_is_immutable`. -/
def isImmutable (locked_slot_ids : List String) (locked_dates : List Day)
    (past_cutoff : Option Day) (a : Alloc) : Bool :=
  locked_slot_ids.any (fun s => s = a.slot_id)
  || locked_dates.any (fun d => d = a.date)
  || a.bucket = "manual_locked"
  || strLeadB "manual-" a.slot_id
  || a.locked_by_user
  || a.pinned
  || (match past_cutoff with
      | none => false
      | some cutoff => decide (a.date < cutoff))

/-- `_allowed_by_day` read at a day (`0` for days with no slot): the summed
`max(0, cap_minutes) + max(0, tolerance_minutes)` of the day's slots. -/
def allowedByDay (slots : List Slot) (d : Day) : ℤ :=
  ((slots.filter (fun t => t.date = d)).map
    (fun t => max 0 t.cap_minutes + max 0 t.tolerance_minutes)).sum

/-- The allocation records the rebalancer counts (neither empty nor slack
subject). -/
def countedAllocs (l : List Alloc) : List Alloc :=
  l.filter (fun a => !(a.subject_id = "") && !(a.subject_id = "__slack__"))

/-- Minutes (clamped at 0 per record) the counted records use on a day. -/
def usedByDay (l : List Alloc) (d : Day) : ℤ :=
  (((countedAllocs l).filter (fun a => a.date = d)).map
    (fun a => max 0 a.minutes)).sum

/-- The distinct days carrying counted records. -/
def datesOf (l : List Alloc) : List Day :=
  ((countedAllocs l).map (fun a => a.date)).dedup

/-- The window violations of one counted record (one per broken bound). -/
def windowViolations (w : String → Option RebWindow) (a : Alloc) : ℕ :=
  let win := (w a.subject_id).getD {}
  (match win.start_at with
   | some s => if a.date < s then 1 else 0
   | none => 0)
  + (match win.end_by with
     | some e => if e < a.date then 1 else 0
     | none => 0)
  + (match win.exam_date with
     | some x => if x < a.date then 1 else 0
     | none => 0)

/-- The violation count of `_feasibility_score`: per-record window
violations plus one per day whose used minutes exceed the allowed budget. -/
def violationCount (slots : List Slot) (w : String → Option RebWindow)
    (l : List Alloc) : ℕ :=
  ((countedAllocs l).map (windowViolations w)).sum
  + ((datesOf l).filter
      (fun d => decide (allowedByDay slots d < usedByDay l d))).length

/-- `_feasibility_score = 1 / (1 + violations)`. -/
def feasibilityScore (slots : List Slot) (w : String → Option RebWindow)
    (l : List Alloc) : QR :=
  (1 : QR) / (1 + ((violationCount slots w l : ℤ) : QR))

/-- The distinct counted subjects studied on a day. -/
def subjectsOnDay (l : List Alloc) (d : Day) : List String :=
  (((countedAllocs l).filter (fun a => a.date = d)).map
    (fun a => a.subject_id)).dedup

/-- `_respects_max_subjects_per_day`. -/
def respectsMaxSubjectsPerDay (l : List Alloc) (m : ℤ) : Bool :=
  (datesOf l).all (fun d => decide (((subjectsOnDay l d).length : ℤ) ≤ m))

/-- `_strategy_mode_by_subject` read at a subject id (`"hybrid"` for ids
without an entry). -/
def strategyModes (subjects : List Subject) (cfg : RebConfig)
    (config_by_subject : String → Option SubjectConfig) : String → String :=
  let default_mode := pyLower ((cfg.default_strategy_mode).getD "hybrid")
  subjects.foldl
    (fun f subject =>
      if subject.subject_id = "" then f
      else fun sid =>
        if sid = subject.subject_id then
          pyLower ((((config_by_subject subject.subject_id).getD
            {}).strategy_mode).getD default_mode)
        else f sid)
    (fun _ => "hybrid")

/-- The post-swap window test of a candidate: the subject may study on the
other record's day. -/
def windowOkB (w : String → Option RebWindow) (sid : String) (d : Day) :
    Bool :=
  let win := (w sid).getD {}
  (match win.start_at with
   | some s => decide (s ≤ d)
   | none => true)
  && (match win.end_by with
      | some e => decide (d ≤ e)
      | none => true)
  && (match win.exam_date with
      | some x => decide (d ≤ x)
      | none => true)

/-- The eligibility filter of a candidate pair, combining the outer-loop
checks on `a` and the inner-loop checks on `b`. -/
def swapEligible (modes : String → String) (w : String → Option RebWindow)
    (locked_slot_ids : List String) (locked_dates : List Day)
    (past_cutoff : Option Day) (near : ℤ) (a b : Alloc) : Bool :=
  !(a.subject_id = "") && !(a.subject_id = "__slack__")
  && !(isImmutable locked_slot_ids locked_dates past_cutoff a)
  && !(b.subject_id = "") && !(b.subject_id = "__slack__")
  && !(a.subject_id = b.subject_id)
  && modes a.subject_id = modes b.subject_id
  && !(isImmutable locked_slot_ids locked_dates past_cutoff b)
  && decide (|a.date - b.date| ≤ near)
  && a.bucket = b.bucket
  && windowOkB w a.subject_id b.date
  && windowOkB w b.subject_id a.date

/-- Strict lexicographic order on a `(date, string, string)` triple (ISO
date strings order like ordinals). -/
def triLt (a b : Day × String × String) : Bool :=
  decide (a.1 < b.1)
  || (decide (a.1 = b.1)
      && (strLtB a.2.1 b.2.1
          || (decide (a.2.1 = b.2.1) && strLtB a.2.2 b.2.2)))

/-- Non-strict version of `triLt`. -/
def triLe (a b : Day × String × String) : Bool := triLt a b || decide (a = b)

/-- A ranked swap candidate: the deterministic key (split in two triples)
with the two working-list indices. -/
abbrev SwapCand := (Day × String × String) × (Day × String × String) × ℕ × ℕ

/-- Ascending order on the 6-component candidate key. -/
def swapCandLe (x y : SwapCand) : Bool :=
  triLt x.1 y.1 || (decide (x.1 = y.1) && triLe x.2.1 y.2.1)

/-- The candidate pairs of one iteration (`idx_a < idx_b`, both records
eligible). -/
def swapCands (modes : String → String) (w : String → Option RebWindow)
    (locked_slot_ids : List String) (locked_dates : List Day)
    (past_cutoff : Option Day) (near : ℤ) (working : List Alloc) :
    List SwapCand :=
  (working.enum.map (fun p =>
    (working.enum.filter (fun q => decide (p.1 < q.1))).filterMap (fun q =>
      if swapEligible modes w locked_slot_ids locked_dates past_cutoff near
          p.2 q.2 then
        some ((p.2.date, p.2.subject_id, p.2.slot_id),
          (q.2.date, q.2.subject_id, q.2.slot_id), p.1, q.1)
      else none))).join

/-- The proposal of a swap: exchange the `subject_id` fields of the records
at the two indices, everything else unchanged. -/
def applySwap (working : List Alloc) (ia ib : ℕ) : List Alloc :=
  match working.get? ia, working.get? ib with
  | some a, some b =>
      (working.set ia { a with subject_id := b.subject_id }).set ib
        { b with subject_id := a.subject_id }
  | _, _ => working

/-- `_humanity_improves`: some component strictly improves
(`mono_day_ratio` down, streak days down, variety up). -/
def humImproves (before after : QR × QR × QR) : Bool :=
  decide (after.1 < before.1) || decide (after.2.1 < before.2.1)
  || decide (before.2.2 < after.2.2)

/-- The inner acceptance scan: the first ranked candidate whose proposal
respects `max_subjects_per_day`, does not regress feasibility beyond the
tolerance, and improves the humanity vector; returns the proposal and its
feasibility. -/
def findAccepted (hum : List Alloc → QR × QR × QR) (slots : List Slot)
    (w : String → Option RebWindow) (maxSubj : ℤ) (tol : QR) (base : QR)
    (before_h : QR × QR × QR) (working : List Alloc) :
    List SwapCand → Option (List Alloc × QR)
  | [] => none
  | c :: rest =>
      let proposal := applySwap working c.2.2.1 c.2.2.2
      if !(respectsMaxSubjectsPerDay proposal maxSubj) then
        findAccepted hum slots w maxSubj tol base before_h working rest
      else
        let pf := feasibilityScore slots w proposal
        if pf + tol < base then
          findAccepted hum slots w maxSubj tol base before_h working rest
        else if humImproves before_h (hum proposal) then some (proposal, pf)
        else findAccepted hum slots w maxSubj tol base before_h working rest

/-- The bounded swap loop (`while accepted < max_swaps and iterations <
max_iterations`), on a fuel of `max_iterations`; alongside the working list
it carries the ledger of accepted swaps as `(feasibility before,
feasibility after)` pairs (what the source writes to the decision trace). -/
def rebalanceGo (hum : List Alloc → QR × QR × QR) (slots : List Slot)
    (w : String → Option RebWindow) (modes : String → String)
    (locked_slot_ids : List String) (locked_dates : List Day)
    (past_cutoff : Option Day) (near : ℤ) (maxSubj : ℤ) (maxSwapsEff : ℤ)
    (tol : QR) :
    ℕ → ℤ → List Alloc → List (QR × QR) → List Alloc × List (QR × QR)
  | 0, _, working, log => (working, log)
  | fuel + 1, accepted, working, log =>
      if maxSwapsEff ≤ accepted then (working, log)
      else
        let base := feasibilityScore slots w working
        let cands := pySort swapCandLe (swapCands modes w locked_slot_ids
          locked_dates past_cutoff near working)
        match findAccepted hum slots w maxSubj tol base (hum working)
            working cands with
        | none => (working, log)
        | some r =>
            rebalanceGo hum slots w modes locked_slot_ids locked_dates
              past_cutoff near maxSubj maxSwapsEff tol fuel (accepted + 1)
              r.1 (log ++ [(base, r.2)])

/-- The final deterministic output order `(str(date), str(slot_id),
str(subject_id))`. -/
def rebalanceOutLe (a b : Alloc) : Bool :=
  triLe (a.date, a.slot_id, a.subject_id) (b.date, b.slot_id, b.subject_id)

/-- The rebalancer run (working list and accepted-swap ledger) after the
prologue resolved the effective budgets from the config. -/
def rebalanceRun (hum : List Alloc → QR × QR × QR)
    (allocations : List Alloc) (slots : List Slot) (subjects : List Subject)
    (cfg : RebConfig) (config_by_subject : String → Option SubjectConfig)
    (past_cutoff : Option Day) (max_swaps : ℤ) (near_days_window : ℤ)
    (tol : QR) (locked_allocations : List Alloc) :
    List Alloc × List (QR × QR) :=
  rebalanceGo hum slots (subjectWindows subjects)
    (strategyModes subjects cfg config_by_subject)
    (locked_allocations.map (fun x => x.slot_id))
    ((locked_allocations.filter (fun x => strLeadB "manual-" x.slot_id)).map
      (fun x => x.date))
    past_cutoff
    (max 0 (pyOrInt cfg.rebalance_near_days_window near_days_window))
    (max 1 (pyOrInt cfg.max_subjects_per_day (10 ^ 9)))
    (max 0 (min max_swaps (pyOrInt cfg.rebalance_max_swaps max_swaps)))
    tol
    (max 0 (pyOrInt cfg.rebalance_max_iterations
      (pyOrInt cfg.rebalance_max_swaps max_swaps))).toNat
    0 allocations []

/-- `rebalance_allocations`: deterministic swap search over a working copy,
then the sorted working list (lists shorter than two records return as
they are). The humanity-vector function (the source's `_humanity_vector`
over the external `compute_humanity_metrics`) is a parameter. -/
def rebalance_allocations (hum : List Alloc → QR × QR × QR)
    (allocations : List Alloc) (slots : List Slot) (subjects : List Subject)
    (cfg : RebConfig)
    (config_by_subject : String → Option SubjectConfig := fun _ => none)
    (past_cutoff : Option Day := none) (max_swaps : ℤ := 100)
    (near_days_window : ℤ := 2) (tol : QR := 0)
    (locked_allocations : List Alloc := []) : List Alloc :=
  if allocations.length < 2 then allocations
  else
    pySort rebalanceOutLe
      (rebalanceRun hum allocations slots subjects cfg config_by_subject
        past_cutoff max_swaps near_days_window tol locked_allocations).1

/-- The accepted-swap ledger of a `rebalance_allocations` run (the
`(before, after)` feasibility pairs the source logs per accepted swap). -/
def rebalance_swap_log (hum : List Alloc → QR × QR × QR)
    (allocations : List Alloc) (slots : List Slot) (subjects : List Subject)
    (cfg : RebConfig)
    (config_by_subject : String → Option SubjectConfig := fun _ => none)
    (past_cutoff : Option Day := none) (max_swaps : ℤ := 100)
    (near_days_window : ℤ := 2) (tol : QR := 0)
    (locked_allocations : List Alloc := []) : List (QR × QR) :=
  if allocations.length < 2 then []
  else
    (rebalanceRun hum allocations slots subjects cfg config_by_subject
      past_cutoff max_swaps near_days_window tol locked_allocations).2

/-- The distinct counted subjects of a record list. -/
def sidsOf (l : List Alloc) : List String :=
  ((countedAllocs l).map (fun a => a.subject_id)).dedup

/-- The distinct days on which a subject has counted records. -/
def sidDays (l : List Alloc) (sid : String) : List Day :=
  (((countedAllocs l).filter (fun a => a.subject_id = sid)).map
    (fun a => a.date)).dedup

/-- The length of the consecutive-day run starting at a day, on fuel. -/
def streakFrom (days : List Day) : ℕ → Day → ℕ
  | 0, _ => 0
  | fuel + 1, d => if days.contains d then 1 + streakFrom days fuel (d + 1)
    else 0

/-- The longest consecutive-day streak of one subject. -/
def maxStreak (l : List Alloc) (sid : String) : ℕ :=
  let ds := sidDays l sid
  (ds.map (fun d => streakFrom ds ds.length d)).foldl max 0

/-- Modelled from the spec: `compute_humanity_metrics` is imported by the
rebalancer from `planner.metrics.collector`, but the source dump's collector
module does not define it; the spec describes only the three components the
rebalancer reads — `mono_day_ratio` (lower is better), `max_same_subject_
streak_days` (lower is better), `subject_variety_index` (higher is better).
This model computes them as: the fraction of study days devoted to a single
subject; the longest run of consecutive calendar days on which one subject
appears; and the average number of distinct subjects per study day. -/
def compute_humanity_metrics (allocations : List Alloc) : QR × QR × QR :=
  let days := datesOf allocations
  let mono : QR :=
    if days.length = 0 then 1
    else ((((days.filter
        (fun d => (subjectsOnDay allocations d).length = 1)).length : ℤ) : QR)
      / ((days.length : ℤ) : QR))
  let streak : QR :=
    (((sidsOf allocations).map (maxStreak allocations)).foldl max 0 : ℤ)
  let variety : QR :=
    if days.length = 0 then 0
    else ((((days.map
        (fun d => (subjectsOnDay allocations d).length)).sum : ℤ) : QR)
      / ((days.length : ℤ) : QR))
  (mono, streak, variety)

/-- The frame projection of an allocation record: every field the
rebalancer must keep fixed. -/
def allocProj (a : Alloc) : String × Day × ℤ × String :=
  (a.slot_id, a.date, a.minutes, a.bucket)

/-- The rebalance demo: three consecutive math days and one physics day. -/
def c4Allocs : List Alloc :=
  [mkAlloc "s1" 739617 "math" 60 "base",
   mkAlloc "s2" 739618 "math" 60 "base",
   mkAlloc "s3" 739619 "math" 60 "base",
   mkAlloc "s4" 739620 "physics" 60 "base"]

/-- Demo subject `math`, deadline 2026-01-10, exam 2026-01-12. -/
def c4SubjMath : Subject :=
  { subject_id := "math", end_by := some 739626, exam_dates := [739628] }

/-- Demo subject `physics`, deadline 2026-01-10, exam 2026-01-12. -/
def c4SubjPhys : Subject :=
  { subject_id := "physics", end_by := some 739626, exam_dates := [739628] }

/-- Demo global config: three subjects per day, swap budget configured 0. -/
def c4Cfg : RebConfig :=
  { max_subjects_per_day := some 3, rebalance_max_swaps := some 0 }

/-- Reference day 2026-01-01 (ordinal 739617) of the tie-break example. -/
def tieExampleRef : Day := 739617

/-- Example subject `a{priority:1, exam:2026-01-10}` (ordinal 739626). -/
def tieExampleA : Subject := { subject_id := "a", priority := 1, exam_dates := [739626] }

/-- Example subject `b{priority:3, exam:2026-01-10}`. -/
def tieExampleB : Subject := { subject_id := "b", priority := 3, exam_dates := [739626] }

/-- Example subject `c{priority:1, exam:2026-01-05}` (ordinal 739621). -/
def tieExampleC : Subject := { subject_id := "c", priority := 1, exam_dates := [739621] }

end Planner

namespace Planner

/-! ## Helper lemmas -/

theorem insertLe_perm {α : Type} (le : α → α → Bool) (x : α) (l : List α) :
    List.Perm (insertLe le x l) (x :: l) := by
  induction l with
  | nil => simp [insertLe]
  | cons y ys ih =>
    by_cases h : le x y = true
    · simp [insertLe, h]
    · simp only [insertLe, h, if_false]
      exact List.Perm.trans (ih.cons y) (List.Perm.swap x y ys)

theorem pySort_perm {α : Type} (le : α → α → Bool) (l : List α) :
    List.Perm (pySort le l) l := by
  induction l with
  | nil => simp [pySort]
  | cons x xs ih =>
    exact List.Perm.trans (insertLe_perm le x (pySort le xs)) (ih.cons x)

theorem lookZ_updZ (k : String) (v : ℤ) (x : String) :
    ∀ l : ZDict, lookZ (updZ l k v) x = if x = k then v else lookZ l x := by
  intro l
  induction l with
  | nil =>
    by_cases hx : x = k
    · simp [updZ, lookZ, List.find?, hx]
    · have hkx : ¬ (k = x) := fun h => hx h.symm
      simp [updZ, lookZ, List.find?, hkx, hx]
  | cons e rest ih =>
    by_cases he : e.1 = k
    · by_cases hx : x = k
      · simp [updZ, lookZ, List.find?, he, hx]
      · have hkx : ¬ (k = x) := fun h => hx h.symm
        have hex : ¬ (e.1 = x) := by rw [he]; exact hkx
        simp [updZ, lookZ, List.find?, he, hx, hkx, hex]
    · simp only [updZ, he, if_false]
      by_cases hex : e.1 = x
      · have hx : ¬ (x = k) := by
          intro h
          exact he (by rw [hex, h])
        simp [lookZ, List.find?, hex, hx]
      · simp only [lookZ, List.find?] at ih ⊢
        simp only [show (decide (e.1 = x)) = false from by simpa using hex]
        exact ih

theorem sumMinutes_append (l₁ l₂ : List Alloc) :
    sumMinutes (l₁ ++ l₂) = sumMinutes l₁ + sumMinutes l₂ := by
  simp [sumMinutes]

theorem bySlotId_append (l₁ l₂ : List Alloc) (i : String) :
    bySlotId (l₁ ++ l₂) i = bySlotId l₁ i ++ bySlotId l₂ i := by
  simp [bySlotId]

theorem nonSlackByDate_append (l₁ l₂ : List Alloc) (d : Day) :
    nonSlackByDate (l₁ ++ l₂) d = nonSlackByDate l₁ d ++ nonSlackByDate l₂ d := by
  simp [nonSlackByDate]

theorem slackRecordsFor_append (l₁ l₂ : List Alloc) (i : String) :
    slackRecordsFor (l₁ ++ l₂) i
      = slackRecordsFor l₁ i ++ slackRecordsFor l₂ i := by
  simp [slackRecordsFor]

theorem phase1Candidates_spec (ctx : AllocCtx) (st : AllocState) (slot : Slot) :
    ∀ c ∈ phase1Candidates ctx st slot,
      0 < lookZ st.remaining_base c.2.2.subject_id := by
  intro c hc
  rcases List.mem_filterMap.mp hc with ⟨subject, _, hf⟩
  dsimp only at hf
  split at hf
  · exact absurd hf (by simp)
  · split at hf
    · exact absurd hf (by simp)
    · rename_i h1 _
      rcases Option.some.inj hf with rfl
      exact lt_of_not_le h1

theorem phase1Choose_mem (ctx : AllocCtx) (hist : List HistEntry) (day : Day) :
    ∀ (cands : List Cand) (chosen : Subject),
      phase1Choose ctx hist day cands = some chosen →
      ∃ c ∈ cands, c.2.2 = chosen := by
  intro cands chosen h
  cases cands with
  | nil => cases h
  | cons c0 rest =>
    simp only [phase1Choose] at h
    split at h
    · split at h
      · rename_i c hfind
        exact ⟨c, List.mem_cons_of_mem c0 (List.mem_of_find?_eq_some hfind),
          Option.some.inj h⟩
      · exact ⟨c0, List.mem_cons_self c0 rest, Option.some.inj h⟩
    · exact ⟨c0, List.mem_cons_self c0 rest, Option.some.inj h⟩

theorem phase1Loop_spec (ctx : AllocCtx) (slot : Slot)
    (hs : 1 ≤ ctx.session_minutes) :
    ∀ (fuel : Nat) (available : ℤ) (st : AllocState) (a' : ℤ)
      (st' : AllocState),
      phase1Loop ctx slot fuel available st = some (a', st') →
      ∃ extra, st'.allocations = st.allocations ++ extra
        ∧ (∀ a ∈ extra, a.slot_id = slot.slot_id ∧ a.date = slot.date
            ∧ a.bucket = "base" ∧ 1 ≤ a.minutes)
        ∧ sumMinutes extra = available - a'
        ∧ st'.slack = st.slack
        ∧ st'.remaining_buffer = st.remaining_buffer
        ∧ (0 ≤ available → 0 ≤ a') := by
  intro fuel
  induction fuel with
  | zero => intro available st a' st' h; cases h
  | succ n ih =>
    intro available st a' st' h
    simp only [phase1Loop] at h
    split at h
    · simp only [Option.some.injEq, Prod.mk.injEq] at h
      obtain ⟨rfl, rfl⟩ := h
      exact ⟨[], by simp, by simp, by simp [sumMinutes], rfl, rfl, fun hh => hh⟩
    · rename_i hge
      split at h
      · simp only [Option.some.injEq, Prod.mk.injEq] at h
        obtain ⟨rfl, rfl⟩ := h
        exact ⟨[], by simp, by simp, by simp [sumMinutes], rfl, rfl, fun hh => hh⟩
      · rename_i chosen hchoose
        obtain ⟨c, hcmem, hcsubj⟩ := phase1Choose_mem ctx st.hist slot.date _
          chosen hchoose
        have hrb : 0 < lookZ st.remaining_base chosen.subject_id := by
          have := phase1Candidates_spec ctx st slot c
            ((pySort_perm candLe (phase1Candidates ctx st slot)).mem_iff.mp
              hcmem)
          rw [hcsubj] at this
          exact this
        have havail : ctx.session_minutes ≤ available := le_of_not_lt hge
        set chunk := min ctx.session_minutes
          (min available (lookZ st.remaining_base chosen.subject_id)) with hchunk
        have hchunk_pos : 1 ≤ chunk := by
          simp only [hchunk, le_min_iff]
          exact ⟨hs, le_trans hs havail, hrb⟩
        have hchunk_le : chunk ≤ available := le_trans (min_le_right _ _)
          (min_le_left _ _)
        obtain ⟨extra, helems, hfacts, hsum, hslack, hbuf, hnn⟩ := ih _ _ _ _ h
        have hach : allocChunk chosen.subject_id slot chunk "base"
            st.allocations = st.allocations
              ++ [mkAlloc slot.slot_id slot.date chosen.subject_id chunk
                "base"] := by
          simp only [allocChunk, mkAlloc]
          rw [if_neg (by omega)]
        refine ⟨mkAlloc slot.slot_id slot.date chosen.subject_id chunk "base"
          :: extra, ?_, ?_, ?_, ?_, ?_, ?_⟩
        · rw [helems]
          simp only [hach]
          simp
        · intro a ha
          rcases List.mem_cons.mp ha with rfl | ha'
          · exact ⟨rfl, rfl, rfl, hchunk_pos⟩
          · exact hfacts a ha'
        · simp only [sumMinutes, List.map_cons, List.sum_cons] at hsum ⊢
          simp only [mkAlloc]
          omega
        · exact hslack
        · exact hbuf
        · intro h0
          exact hnn (by omega)

theorem phase1Slots_spec (ctx : AllocCtx) (hs : 1 ≤ ctx.session_minutes)
    (i₀ : String) :
    ∀ (slots : List Slot) (st st1 : AllocState),
      phase1Slots ctx slots st = some st1 →
      (slots.filter (fun t => t.slot_id = i₀)).length ≤ 1 →
      st1.remaining_buffer = st.remaining_buffer
      ∧ ∃ extra, st1.allocations = st.allocations ++ extra
        ∧ (∀ a ∈ extra, a.bucket = "base" ∧ 1 ≤ a.minutes
            ∧ ∃ t ∈ slots, a.slot_id = t.slot_id ∧ a.date = t.date)
        ∧ (match slots.find? (fun t => t.slot_id = i₀) with
           | none => bySlotId extra i₀ = []
               ∧ lookZ st1.slack i₀ = lookZ st.slack i₀
           | some t₀ => sumMinutes (bySlotId extra i₀)
                 = t₀.max_minutes - lookZ st1.slack i₀
               ∧ (0 ≤ t₀.max_minutes → 0 ≤ lookZ st1.slack i₀)) := by
  intro slots
  induction slots with
  | nil =>
    intro st st1 h _
    simp only [phase1Slots, Option.some.injEq] at h
    subst h
    exact ⟨rfl, [], by simp, by simp, by simp [List.find?, bySlotId]⟩
  | cons slot rest ih =>
    intro st st1 h hcount
    simp only [phase1Slots] at h
    split at h
    · cases h
    · rename_i aE st' hloop
      obtain ⟨extra₁, he₁, hf₁, hsum₁, hslack₁, hbuf₁, hnn₁⟩ :=
        phase1Loop_spec ctx slot hs _ _ _ _ _ hloop
      by_cases hid : slot.slot_id = i₀
      · have hcnt : (rest.filter (fun t => t.slot_id = i₀)).length = 0 := by
          rw [List.filter_cons] at hcount
          simp only [hid, decide_True, if_true, List.length_cons] at hcount
          omega
        have hrest0 : ∀ t ∈ rest, ¬ (t.slot_id = i₀) := by
          intro t ht hti
          have : t ∈ rest.filter (fun t => t.slot_id = i₀) :=
            List.mem_filter.mpr ⟨ht, by simp [hti]⟩
          rw [List.length_eq_zero.mp hcnt] at this
          cases this
        obtain ⟨hbuf₂, extra₂, he₂, hf₂, htrack⟩ := ih _ _ h (by omega)
        have hfind : rest.find? (fun t => t.slot_id = i₀) = none :=
          List.find?_eq_none.mpr (fun t ht => by simp [hrest0 t ht])
        rw [hfind] at htrack
        obtain ⟨hby₂, hslack₂⟩ := htrack
        refine ⟨by rw [hbuf₂]; exact hbuf₁, extra₁ ++ extra₂, ?_, ?_, ?_⟩
        · rw [he₂]
          simp only [he₁]
          simp
        · intro a ha
          rcases List.mem_append.mp ha with ha' | ha'
          · obtain ⟨h1, h2, h3, h4⟩ := hf₁ a ha'
            exact ⟨h3, h4, slot, List.mem_cons_self _ _, h1, h2⟩
          · obtain ⟨h1, h2, t, ht, h3⟩ := hf₂ a ha'
            exact ⟨h1, h2, t, List.mem_cons_of_mem _ ht, h3⟩
        · have hfindc : (slot :: rest).find? (fun t => t.slot_id = i₀)
              = some slot := by
            simp [List.find?, hid]
          rw [hfindc]
          have hslack_mid : lookZ st1.slack i₀ = aE := by
            rw [hslack₂]
            simp only [lookZ_updZ]
            rw [← hid]
            simp
          have hb1 : bySlotId extra₁ i₀ = extra₁ := by
            apply List.filter_eq_self.mpr
            intro a ha
            simp [(hf₁ a ha).1, hid]
          constructor
          · rw [bySlotId_append, sumMinutes_append, hb1, hby₂, hslack_mid]
            have h0 : sumMinutes ([] : List Alloc) = 0 := rfl
            omega
          · intro hmax
            rw [hslack_mid]
            exact hnn₁ hmax
      · obtain ⟨hbuf₂, extra₂, he₂, hf₂, htrack⟩ := ih _ _ h (by
          simpa [List.filter_cons, hid] using hcount)
        have hb1 : bySlotId extra₁ i₀ = [] := by
          apply List.filter_eq_nil_iff.mpr
          intro a ha
          simp [(hf₁ a ha).1, hid]
        have hfindc : (slot :: rest).find? (fun t => t.slot_id = i₀)
            = rest.find? (fun t => t.slot_id = i₀) := by
          simp [List.find?, hid]
        refine ⟨by rw [hbuf₂]; exact hbuf₁, extra₁ ++ extra₂, ?_, ?_, ?_⟩
        · rw [he₂]
          simp only [he₁]
          simp
        · intro a ha
          rcases List.mem_append.mp ha with ha' | ha'
          · obtain ⟨h1, h2, h3, h4⟩ := hf₁ a ha'
            exact ⟨h3, h4, slot, List.mem_cons_self _ _, h1, h2⟩
          · obtain ⟨h1, h2, t, ht, h3⟩ := hf₂ a ha'
            exact ⟨h1, h2, t, List.mem_cons_of_mem _ ht, h3⟩
        · rw [hfindc]
          split
          · rename_i hfind
            simp only [hfind] at htrack
            obtain ⟨hby₂, hslack₂⟩ := htrack
            refine ⟨by rw [bySlotId_append, hb1, hby₂]; rfl, ?_⟩
            rw [hslack₂]
            simp only [lookZ_updZ]
            rw [if_neg (fun hh => hid hh.symm), hslack₁]
          · rename_i t₀ hfind
            simp only [hfind] at htrack
            obtain ⟨hsum₂, hnn₂⟩ := htrack
            refine ⟨?_, hnn₂⟩
            rw [bySlotId_append, sumMinutes_append, hb1, hsum₂]
            have h0 : sumMinutes ([] : List Alloc) = 0 := rfl
            omega

theorem phase2Candidates_spec (ctx : AllocCtx) (st : AllocState) (slot : Slot) :
    ∀ c ∈ phase2Candidates ctx st slot,
      lookZ st.remaining_base c.2.2.subject_id ≤ 0
      ∧ 0 < lookZ st.remaining_buffer c.2.2.subject_id
      ∧ slot.date ≤ ctx.examDay c.2.2.subject_id := by
  intro c hc
  rcases List.mem_filterMap.mp hc with ⟨subject, _, hf⟩
  dsimp only at hf
  split at hf
  · exact absurd hf (by simp)
  · split at hf
    · exact absurd hf (by simp)
    · split at hf
      · exact absurd hf (by simp)
      · rename_i h1 h2 h3
        rcases Option.some.inj hf with rfl
        exact ⟨le_of_not_lt h1, lt_of_not_le h2, le_of_not_lt h3⟩

theorem phase2Candidates_complete (ctx : AllocCtx) (st : AllocState)
    (slot : Slot) (subject : Subject)
    (hmem : subject ∈ ctx.orderedSubjects)
    (hrb : lookZ st.remaining_base subject.subject_id ≤ 0)
    (hbuf : 0 < lookZ st.remaining_buffer subject.subject_id)
    (hexam : slot.date ≤ ctx.examDay subject.subject_id) :
    ∃ c ∈ phase2Candidates ctx st slot, c.2.2 = subject := by
  refine ⟨(strategyWeight slot.date (ctx.examDay subject.subject_id)
      (ctx.strategyMode subject.subject_id),
      deterministic_tie_breaker_key subject slot.date, subject),
    List.mem_filterMap.mpr ⟨subject, ?_, ?_⟩, rfl⟩
  · exact (pySort_perm _ ctx.orderedSubjects).mem_iff.mpr hmem
  · dsimp only
    rw [if_neg (not_lt.mpr hrb), if_neg (not_le.mpr hbuf),
      if_neg (not_lt.mpr hexam)]

theorem phase2Give_spec (ctx : AllocCtx) (slot : Slot)
    (hs : 1 ≤ ctx.session_minutes) :
    ∀ (cands : List Cand) (free : ℤ) (st : AllocState) (free' : ℤ)
      (st' : AllocState),
      (∀ sid, 0 ≤ lookZ st.remaining_buffer sid) →
      phase2Give ctx slot cands free st = (free', st') →
      st'.remaining_base = st.remaining_base
      ∧ st'.slack = st.slack
      ∧ (∀ sid, 0 ≤ lookZ st'.remaining_buffer sid)
      ∧ (∀ sid, lookZ st.remaining_buffer sid ≤ 0 →
          lookZ st'.remaining_buffer sid ≤ 0)
      ∧ ∃ extra, st'.allocations = st.allocations ++ extra
        ∧ (∀ a ∈ extra, a.slot_id = slot.slot_id ∧ a.date = slot.date
            ∧ a.bucket = "buffer" ∧ 1 ≤ a.minutes
            ∧ ∃ c ∈ cands, c.2.2.subject_id = a.subject_id)
        ∧ sumMinutes extra = free - free'
        ∧ (0 ≤ free → 0 ≤ free')
        ∧ (∀ c ∈ cands, free' < ctx.session_minutes
            ∨ lookZ st'.remaining_buffer c.2.2.subject_id ≤ 0
            ∨ ∃ a ∈ extra, a.subject_id = c.2.2.subject_id) := by
  intro cands
  induction cands with
  | nil =>
    intro free st free' st' hbuf0 h
    simp only [phase2Give, Prod.mk.injEq] at h
    obtain ⟨rfl, rfl⟩ := h
    exact ⟨rfl, rfl, hbuf0, fun sid h => h, ([] : List Alloc),
      (List.append_nil _).symm, fun a ha => absurd ha (List.not_mem_nil a),
      by simp [sumMinutes], fun h => h,
      fun c hc => absurd hc (List.not_mem_nil c)⟩
  | cons c rest ih =>
    intro free st free' st' hbuf0 h
    simp only [phase2Give] at h
    split at h
    · rename_i hlt
      simp only [Prod.mk.injEq] at h
      obtain ⟨rfl, rfl⟩ := h
      exact ⟨rfl, rfl, hbuf0, fun sid h => h, ([] : List Alloc),
        (List.append_nil _).symm, fun a ha => absurd ha (List.not_mem_nil a),
        by simp [sumMinutes], fun h => h, fun c' _ => Or.inl hlt⟩
    · rename_i hge
      have hfree : ctx.session_minutes ≤ free := le_of_not_lt hge
      set sid := c.2.2.subject_id with hsid
      set buf := lookZ st.remaining_buffer sid with hbufdef
      have hbufnn : 0 ≤ buf := hbuf0 sid
      set chunk := min ctx.session_minutes (min free buf) with hchunk
      have hchunk_nn : 0 ≤ chunk := by
        simp only [hchunk, le_min_iff]
        exact ⟨by omega, by omega, hbufnn⟩
      have hchunk_le_free : chunk ≤ free := le_trans (min_le_right _ _)
        (min_le_left _ _)
      have hchunk_le_buf : chunk ≤ buf := le_trans (min_le_right _ _)
        (min_le_right _ _)
      set st'' : AllocState :=
        { st with
          allocations := allocChunk sid slot chunk "buffer" st.allocations
          remaining_buffer := updZ st.remaining_buffer sid (buf - chunk)
          hist := registerHistory st.hist slot.date sid chunk } with hst'
      have hbuf0' : ∀ s, 0 ≤ lookZ st''.remaining_buffer s := by
        intro s
        simp only [hst', lookZ_updZ]
        split
        · omega
        · exact hbuf0 s
      obtain ⟨hrb, hslack, hbufnn', hbufmono, extra, he, hf, hsum, hnn,
        hcov⟩ := ih (free - chunk) st'' free' st' hbuf0' h
      have hbufmono0 : ∀ s, lookZ st.remaining_buffer s ≤ 0 →
          lookZ st''.remaining_buffer s ≤ 0 := by
        intro s hle
        simp only [hst', lookZ_updZ]
        split
        · rename_i hseq
          have hb0 : buf ≤ 0 := by
            rw [hbufdef]
            rw [hseq] at hle
            exact hle
          have hcb : chunk = buf := by
            simp only [hchunk]
            rw [min_eq_right, min_eq_right]
            · omega
            · omega
          omega
        · exact hle
      by_cases hbpos : 0 < buf
      · have hchunk_pos : 1 ≤ chunk := by
          simp only [hchunk, le_min_iff]
          exact ⟨hs, by omega, by omega⟩
        have hach : allocChunk sid slot chunk "buffer" st.allocations
            = st.allocations ++ [mkAlloc slot.slot_id slot.date sid chunk
              "buffer"] := by
          simp only [allocChunk, mkAlloc]
          rw [if_neg (by omega)]
        refine ⟨hrb, hslack, hbufnn', fun s h => hbufmono s (hbufmono0 s h),
          mkAlloc slot.slot_id slot.date sid chunk "buffer" :: extra,
          ?_, ?_, ?_, ?_, ?_⟩
        · rw [he]
          simp only [hst', hach]
          simp
        · intro a ha
          rcases List.mem_cons.mp ha with rfl | ha'
          · exact ⟨rfl, rfl, rfl, hchunk_pos,
              c, List.mem_cons_self _ _, rfl⟩
          · obtain ⟨h1, h2, h3, h4, c', hc', h5⟩ := hf a ha'
            exact ⟨h1, h2, h3, h4, c', List.mem_cons_of_mem _ hc', h5⟩
        · simp only [sumMinutes, List.map_cons, List.sum_cons, mkAlloc] at *
          omega
        · intro h0
          exact hnn (by omega)
        · intro c' hc'
          rcases List.mem_cons.mp hc' with rfl | hc''
          · exact Or.inr (Or.inr ⟨mkAlloc slot.slot_id slot.date sid chunk
              "buffer", List.mem_cons_self _ _, rfl⟩)
          · rcases hcov c' hc'' with h | h | ⟨a, ha, hae⟩
            · exact Or.inl h
            · exact Or.inr (Or.inl h)
            · exact Or.inr (Or.inr ⟨a, List.mem_cons_of_mem _ ha, hae⟩)
      · have hbz : buf = 0 := by omega
        have hchunk_z : chunk = 0 := by
          simp only [hchunk, hbz]
          rw [min_eq_right, min_eq_right]
          · omega
          · omega
        have hzero : lookZ st''.remaining_buffer sid ≤ 0 := by
          have hv : lookZ st''.remaining_buffer sid = buf - chunk := by
            simp [hst', lookZ_updZ]
          omega
        have hach : allocChunk sid slot chunk "buffer" st.allocations
            = st.allocations := by
          simp only [allocChunk]
          rw [if_pos (by omega)]
        refine ⟨hrb, hslack, hbufnn', fun s h => hbufmono s (hbufmono0 s h),
          extra, ?_, ?_, ?_, ?_, ?_⟩
        · rw [he]
          simp only [hst', hach]
        · intro a ha
          obtain ⟨h1, h2, h3, h4, c', hc', h5⟩ := hf a ha
          exact ⟨h1, h2, h3, h4, c', List.mem_cons_of_mem _ hc', h5⟩
        · rw [hsum]
          omega
        · intro h0
          exact hnn (by omega)
        · intro c' hc'
          rcases List.mem_cons.mp hc' with rfl | hc''
          · exact Or.inr (Or.inl (hbufmono _ hzero))
          · rcases hcov c' hc'' with h | h | ⟨a, ha, hae⟩
            · exact Or.inl h
            · exact Or.inr (Or.inl h)
            · exact Or.inr (Or.inr ⟨a, ha, hae⟩)

theorem phase2Slots_spec (ctx : AllocCtx) (hs : 1 ≤ ctx.session_minutes)
    (i₀ : String) :
    ∀ (slots : List Slot) (st st2 : AllocState),
      phase2Slots ctx slots st = st2 →
      (∀ sid, 0 ≤ lookZ st.remaining_buffer sid) →
      (slots.filter (fun t => t.slot_id = i₀)).length ≤ 1 →
      st2.remaining_base = st.remaining_base
      ∧ (∀ sid, 0 ≤ lookZ st2.remaining_buffer sid)
      ∧ (∀ sid, lookZ st.remaining_buffer sid ≤ 0 →
          lookZ st2.remaining_buffer sid ≤ 0)
      ∧ ∃ extra, st2.allocations = st.allocations ++ extra
        ∧ (∀ a ∈ extra, a.bucket = "buffer" ∧ 1 ≤ a.minutes
            ∧ (∃ t ∈ slots, a.slot_id = t.slot_id ∧ a.date = t.date)
            ∧ lookZ st.remaining_base a.subject_id ≤ 0)
        ∧ (match slots.find? (fun t => t.slot_id = i₀) with
           | none => bySlotId extra i₀ = []
               ∧ lookZ st2.slack i₀ = lookZ st.slack i₀
           | some t₀ => sumMinutes (bySlotId extra i₀)
                 = lookZ st.slack i₀ - lookZ st2.slack i₀
               ∧ (0 ≤ lookZ st.slack i₀ → 0 ≤ lookZ st2.slack i₀)
               ∧ (ctx.session_minutes ≤ lookZ st.slack i₀ →
                   ∀ subject ∈ ctx.orderedSubjects,
                     lookZ st.remaining_base subject.subject_id ≤ 0 →
                     t₀.date ≤ ctx.examDay subject.subject_id →
                     lookZ st2.slack i₀ < ctx.session_minutes
                     ∨ lookZ st2.remaining_buffer subject.subject_id ≤ 0
                     ∨ ∃ a ∈ extra, a.slot_id = i₀
                         ∧ a.subject_id = subject.subject_id
                         ∧ a.bucket = "buffer")) := by
  intro slots
  induction slots with
  | nil =>
    intro st st2 h hbuf0 _
    simp only [phase2Slots] at h
    subst h
    exact ⟨rfl, hbuf0, fun sid hh => hh, [],
      (List.append_nil _).symm, fun a ha => absurd ha (List.not_mem_nil a),
      by simp [List.find?, bySlotId]⟩
  | cons slot rest ih =>
    intro st st2 h hbuf0 hcount
    simp only [phase2Slots] at h
    split at h
    · rename_i hlt
      obtain ⟨hrb, hbnn, hbmono, extra, he, hf, htrack⟩ :=
        ih st st2 h hbuf0 (by
          rw [List.filter_cons] at hcount
          split at hcount
          · simp only [List.length_cons] at hcount; omega
          · exact hcount)
      refine ⟨hrb, hbnn, hbmono, extra, he, ?_, ?_⟩
      · intro a ha
        obtain ⟨h1, h2, ⟨t, ht, h3⟩, h4⟩ := hf a ha
        exact ⟨h1, h2, ⟨t, List.mem_cons_of_mem _ ht, h3⟩, h4⟩
      · by_cases hid : slot.slot_id = i₀
        · have hfindc : (slot :: rest).find? (fun t => t.slot_id = i₀)
              = some slot := by simp [List.find?, hid]
          rw [hfindc]
          have hcnt : (rest.filter (fun t => t.slot_id = i₀)).length = 0 := by
            rw [List.filter_cons] at hcount
            simp only [hid, decide_True, if_true, List.length_cons] at hcount
            omega
          have hfindr : rest.find? (fun t => t.slot_id = i₀) = none :=
            List.find?_eq_none.mpr (fun t ht hti => by
              have : t ∈ rest.filter (fun t => t.slot_id = i₀) :=
                List.mem_filter.mpr ⟨ht, hti⟩
              rw [List.length_eq_zero.mp hcnt] at this
              cases this)
          rw [hfindr] at htrack
          obtain ⟨hby, hsl⟩ := htrack
          have hfree : lookZ st.slack i₀ < ctx.session_minutes := by
            rw [← hid]; exact hlt
          refine ⟨?_, ?_, ?_⟩
          · rw [hby, hsl]
            simp [sumMinutes]
          · intro h0
            rw [hsl]; exact h0
          · intro hses
            exact absurd hses (not_le.mpr hfree)
        · have hfindc : (slot :: rest).find? (fun t => t.slot_id = i₀)
              = rest.find? (fun t => t.slot_id = i₀) := by
            simp [List.find?, hid]
          rw [hfindc]
          rw [List.filter_cons] at hcount
          exact htrack
    · rename_i hge
      have hfree : ctx.session_minutes ≤ lookZ st.slack slot.slot_id :=
        le_of_not_lt hge
      obtain ⟨hrbG, hslG, hbnnG, hbmonoG, extraG, heG, hfG, hsumG, hnnG,
        hcovG⟩ := phase2Give_spec ctx slot hs
          (pySort candLe (phase2Candidates ctx st slot))
          (lookZ st.slack slot.slot_id) st _ _ hbuf0 rfl
      set r := phase2Give ctx slot (pySort candLe (phase2Candidates ctx st slot))
        (lookZ st.slack slot.slot_id) st with hr
      set stMid : AllocState := { r.2 with slack := updZ r.2.slack slot.slot_id r.1 }
        with hstMid
      have hcnt_rest : (rest.filter (fun t => t.slot_id = i₀)).length ≤ 1 := by
        rw [List.filter_cons] at hcount
        split at hcount
        · simp only [List.length_cons] at hcount; omega
        · exact hcount
      have hbuf0Mid : ∀ sid, 0 ≤ lookZ stMid.remaining_buffer sid := by
        intro sid
        simp only [hstMid]
        exact hbnnG sid
      obtain ⟨hrbR, hbnnR, hbmonoR, extraR, heR, hfR, htrackR⟩ :=
        ih stMid st2 h hbuf0Mid hcnt_rest
      have hrb2 : st2.remaining_base = st.remaining_base := by
        rw [hrbR]
        simpa [hstMid] using hrbG
      have hmono2 : ∀ sid, lookZ st.remaining_buffer sid ≤ 0 →
          lookZ st2.remaining_buffer sid ≤ 0 := by
        intro sid hh
        apply hbmonoR
        simpa [hstMid] using hbmonoG sid hh
      have hGfacts : ∀ a ∈ extraG, a.bucket = "buffer" ∧ 1 ≤ a.minutes
          ∧ (∃ t ∈ slot :: rest, a.slot_id = t.slot_id ∧ a.date = t.date)
          ∧ lookZ st.remaining_base a.subject_id ≤ 0 := by
        intro a ha
        obtain ⟨h1, h2, h3, h4, c, hc, h5⟩ := hfG a ha
        have hcmem := phase2Candidates_spec ctx st slot c
          ((pySort_perm candLe _).mem_iff.mp hc)
        refine ⟨h3, h4, ⟨slot, List.mem_cons_self _ _, h1, h2⟩, ?_⟩
        rw [← h5]
        exact hcmem.1
      refine ⟨hrb2, hbnnR, hmono2, extraG ++ extraR, ?_, ?_, ?_⟩
      · rw [heR]
        simp only [hstMid, heG]
        simp
      · intro a ha
        rcases List.mem_append.mp ha with ha' | ha'
        · exact hGfacts a ha'
        · obtain ⟨h1, h2, ⟨t, ht, h3⟩, h4⟩ := hfR a ha'
          refine ⟨h1, h2, ⟨t, List.mem_cons_of_mem _ ht, h3⟩, ?_⟩
          rw [← hrb2, hrbR]
          exact h4
      · by_cases hid : slot.slot_id = i₀
        · have hfindc : (slot :: rest).find? (fun t => t.slot_id = i₀)
              = some slot := by simp [List.find?, hid]
          rw [hfindc]
          have hcnt : (rest.filter (fun t => t.slot_id = i₀)).length = 0 := by
            rw [List.filter_cons] at hcount
            simp only [hid, decide_True, if_true, List.length_cons] at hcount
            omega
          have hfindr : rest.find? (fun t => t.slot_id = i₀) = none :=
            List.find?_eq_none.mpr (fun t ht hti => by
              have : t ∈ rest.filter (fun t => t.slot_id = i₀) :=
                List.mem_filter.mpr ⟨ht, hti⟩
              rw [List.length_eq_zero.mp hcnt] at this
              cases this)
          rw [hfindr] at htrackR
          obtain ⟨hbyR, hslR⟩ := htrackR
          have hslMid : lookZ stMid.slack i₀ = r.1 := by
            simp only [hstMid, lookZ_updZ]
            rw [← hid]
            simp
          have hsl2 : lookZ st2.slack i₀ = r.1 := by rw [hslR, hslMid]
          have hbyG : bySlotId extraG i₀ = extraG := by
            apply List.filter_eq_self.mpr
            intro a ha
            simp [(hfG a ha).1, hid]
          have hstsl : lookZ st.slack i₀ = lookZ st.slack slot.slot_id := by
            rw [hid]
          refine ⟨?_, ?_, ?_⟩
          · rw [bySlotId_append, sumMinutes_append, hbyG, hbyR, hsl2, hstsl]
            have h0 : sumMinutes ([] : List Alloc) = 0 := rfl
            omega
          · intro h0
            rw [hsl2]
            exact hnnG (by rw [hstsl] at h0; exact h0)
          · intro hses subject hsubj hsrb hsexam
            by_cases hb2 : lookZ st2.remaining_buffer subject.subject_id ≤ 0
            · exact Or.inr (Or.inl hb2)
            · have hbpass : 0 < lookZ st.remaining_buffer subject.subject_id := by
                by_contra hc
                exact hb2 (hmono2 _ (le_of_not_lt hc))
              obtain ⟨c, hcmem, hcsubj⟩ := phase2Candidates_complete ctx st slot
                subject hsubj hsrb hbpass hsexam
              have hcmem' : c ∈ pySort candLe (phase2Candidates ctx st slot) :=
                (pySort_perm candLe _).mem_iff.mpr hcmem
              rcases hcovG c hcmem' with hlt' | hble | ⟨a, ha, hae⟩
              · refine Or.inl ?_
                rw [hsl2]
                exact hlt'
              · refine Or.inr (Or.inl ?_)
                apply hbmonoR
                rw [hcsubj] at hble
                simpa [hstMid] using hble
              · refine Or.inr (Or.inr ⟨a, List.mem_append_left _ ha, ?_, ?_, ?_⟩)
                · rw [(hfG a ha).1, hid]
                · rw [hae, hcsubj]
                · exact (hfG a ha).2.2.1
        · have hfindc : (slot :: rest).find? (fun t => t.slot_id = i₀)
              = rest.find? (fun t => t.slot_id = i₀) := by
            simp [List.find?, hid]
          rw [hfindc]
          have hbyG : bySlotId extraG i₀ = [] := by
            apply List.filter_eq_nil_iff.mpr
            intro a ha
            simp [(hfG a ha).1, hid]
          have hslMid : lookZ stMid.slack i₀ = lookZ st.slack i₀ := by
            simp only [hstMid, lookZ_updZ]
            rw [if_neg (fun hh => hid hh.symm)]
            rw [hslG]
          split
          · rename_i hfind
            simp only [hfind] at htrackR
            obtain ⟨hbyR, hslR⟩ := htrackR
            refine ⟨by rw [bySlotId_append, hbyG, hbyR]; rfl, ?_⟩
            rw [hslR, hslMid]
          · rename_i t₀ hfind
            simp only [hfind] at htrackR
            obtain ⟨hsumR, hnnR, hcovR⟩ := htrackR
            rw [hslMid] at hsumR hnnR hcovR
            refine ⟨?_, hnnR, ?_⟩
            · rw [bySlotId_append, sumMinutes_append, hbyG, hsumR]
              have h0 : sumMinutes ([] : List Alloc) = 0 := rfl
              omega
            · intro hses subject hsubj hsrb hsexam
              have hsrbMid : lookZ stMid.remaining_base subject.subject_id ≤ 0 := by
                simp only [hstMid]
                rw [hrbG]
                exact hsrb
              rcases hcovR hses subject hsubj hsrbMid hsexam with h1 | h1 |
                ⟨a, ha, hae⟩
              · exact Or.inl h1
              · exact Or.inr (Or.inl h1)
              · exact Or.inr (Or.inr ⟨a, List.mem_append_right _ ha, hae⟩)

theorem phase3Candidates_spec (ctx : AllocCtx) (st : AllocState) (slot : Slot)
    (free : ℤ) :
    ∀ c ∈ phase3Candidates ctx st slot free,
      lookZ st.remaining_base c.2.2.subject_id ≤ 0 := by
  intro c hc
  rcases List.mem_filterMap.mp hc with ⟨subject, _, hf⟩
  dsimp only at hf
  split at hf
  · exact absurd hf (by simp)
  · split at hf
    · exact absurd hf (by simp)
    · rename_i h1 _
      rcases Option.some.inj hf with rfl
      exact le_of_not_lt h1

theorem phase3Give_spec (ctx : AllocCtx) (slot : Slot)
    (hs : 1 ≤ ctx.session_minutes) :
    ∀ (cands : List Cand) (free : ℤ) (st : AllocState) (free' : ℤ)
      (st' : AllocState),
      (∀ sid, 0 ≤ lookZ st.remaining_buffer sid) →
      phase3Give ctx slot cands free st = (free', st') →
      st'.remaining_base = st.remaining_base
      ∧ st'.slack = st.slack
      ∧ (∀ sid, 0 ≤ lookZ st'.remaining_buffer sid)
      ∧ ∃ extra, st'.allocations = st.allocations ++ extra
        ∧ (∀ a ∈ extra, a.slot_id = slot.slot_id ∧ a.date = slot.date
            ∧ a.bucket = "buffer" ∧ 1 ≤ a.minutes
            ∧ ∃ c ∈ cands, c.2.2.subject_id = a.subject_id)
        ∧ sumMinutes extra = free - free'
        ∧ (0 ≤ free → 0 ≤ free') := by
  intro cands
  induction cands with
  | nil =>
    intro free st free' st' hbuf0 h
    simp only [phase3Give, Prod.mk.injEq] at h
    obtain ⟨rfl, rfl⟩ := h
    exact ⟨rfl, rfl, hbuf0, ([] : List Alloc), (List.append_nil _).symm,
      fun a ha => absurd ha (List.not_mem_nil a), by simp [sumMinutes],
      fun h => h⟩
  | cons c rest ih =>
    intro free st free' st' hbuf0 h
    simp only [phase3Give] at h
    split at h
    · obtain ⟨hrb, hslack, hbnn, extra, he, hf, hsum, hnn⟩ :=
        ih free st free' st' hbuf0 h
      refine ⟨hrb, hslack, hbnn, extra, he, ?_, hsum, hnn⟩
      intro a ha
      obtain ⟨h1, h2, h3, h4, c', hc', h5⟩ := hf a ha
      exact ⟨h1, h2, h3, h4, c', List.mem_cons_of_mem _ hc', h5⟩
    · rename_i hge
      have hfree : ctx.session_minutes ≤ free := le_of_not_lt hge
      set sid := c.2.2.subject_id with hsid
      set buf := lookZ st.remaining_buffer sid with hbufdef
      have hbufnn : 0 ≤ buf := hbuf0 sid
      set chunk := min ctx.session_minutes (min free buf) with hchunk
      have hchunk_nn : 0 ≤ chunk := by
        simp only [hchunk, le_min_iff]
        exact ⟨by omega, by omega, hbufnn⟩
      have hchunk_le_free : chunk ≤ free := le_trans (min_le_right _ _)
        (min_le_left _ _)
      have hchunk_le_buf : chunk ≤ buf := le_trans (min_le_right _ _)
        (min_le_right _ _)
      set st'' : AllocState :=
        { st with
          allocations := allocChunk sid slot chunk "buffer" st.allocations
          remaining_buffer := updZ st.remaining_buffer sid (buf - chunk)
          hist := registerHistory st.hist slot.date sid chunk } with hst'
      have hbuf0' : ∀ s, 0 ≤ lookZ st''.remaining_buffer s := by
        intro s
        simp only [hst', lookZ_updZ]
        split
        · omega
        · exact hbuf0 s
      obtain ⟨hrb, hslack, hbnn, extra, he, hf, hsum, hnn⟩ :=
        ih (free - chunk) st'' free' st' hbuf0' h
      by_cases hbz : chunk ≤ 0
      · have hach : allocChunk sid slot chunk "buffer" st.allocations
            = st.allocations := by
          simp only [allocChunk]
          rw [if_pos hbz]
        refine ⟨hrb, hslack, hbnn, extra, ?_, ?_, ?_, ?_⟩
        · rw [he]
          simp only [hst', hach]
        · intro a ha
          obtain ⟨h1, h2, h3, h4, c', hc', h5⟩ := hf a ha
          exact ⟨h1, h2, h3, h4, c', List.mem_cons_of_mem _ hc', h5⟩
        · rw [hsum]
          omega
        · intro h0
          exact hnn (by omega)
      · have hchunk_pos : 1 ≤ chunk := by omega
        have hach : allocChunk sid slot chunk "buffer" st.allocations
            = st.allocations ++ [mkAlloc slot.slot_id slot.date sid chunk
              "buffer"] := by
          simp only [allocChunk, mkAlloc]
          rw [if_neg (by omega)]
        refine ⟨hrb, hslack, hbnn,
          mkAlloc slot.slot_id slot.date sid chunk "buffer" :: extra,
          ?_, ?_, ?_, ?_⟩
        · rw [he]
          simp only [hst', hach]
          simp
        · intro a ha
          rcases List.mem_cons.mp ha with rfl | ha'
          · exact ⟨rfl, rfl, rfl, hchunk_pos, c, List.mem_cons_self _ _, rfl⟩
          · obtain ⟨h1, h2, h3, h4, c', hc', h5⟩ := hf a ha'
            exact ⟨h1, h2, h3, h4, c', List.mem_cons_of_mem _ hc', h5⟩
        · simp only [sumMinutes, List.map_cons, List.sum_cons, mkAlloc] at *
          omega
        · intro h0
          exact hnn (by omega)

theorem phase3Slots_spec (ctx : AllocCtx) (hs : 1 ≤ ctx.session_minutes)
    (i₀ : String) :
    ∀ (slots : List Slot) (st st3 : AllocState),
      phase3Slots ctx slots st = st3 →
      (∀ sid, 0 ≤ lookZ st.remaining_buffer sid) →
      (slots.filter (fun t => t.slot_id = i₀)).length ≤ 1 →
      st3.remaining_base = st.remaining_base
      ∧ st3.slack = st.slack
      ∧ (∀ sid, 0 ≤ lookZ st3.remaining_buffer sid)
      ∧ ∃ extra, st3.allocations = st.allocations ++ extra
        ∧ (∀ a ∈ extra, 1 ≤ a.minutes
            ∧ (∃ t ∈ slots, a.slot_id = t.slot_id ∧ a.date = t.date)
            ∧ (a.bucket = "buffer" ∧ lookZ st.remaining_base a.subject_id ≤ 0
               ∨ a.bucket = "slack" ∧ a.subject_id = "__slack__"))
        ∧ (match slots.find? (fun t => t.slot_id = i₀) with
           | none => bySlotId extra i₀ = []
           | some _ => sumMinutes (bySlotId extra i₀)
                 = max 0 (lookZ st.slack i₀)
               ∧ (slackRecordsFor extra i₀).length ≤ 1
               ∧ sumMinutes ((bySlotId extra i₀).filter
                   (fun a => !(a.bucket = "slack")))
                 ≤ max 0 (lookZ st.slack i₀)) := by
  have hbs : ¬ (("buffer" : String) = "slack") := by decide
  intro slots
  induction slots with
  | nil =>
    intro st st3 h hbuf0 _
    simp only [phase3Slots] at h
    subst h
    exact ⟨rfl, rfl, hbuf0, [], (List.append_nil _).symm,
      fun a ha => absurd ha (List.not_mem_nil a),
      by simp [List.find?, bySlotId]⟩
  | cons slot rest ih =>
    intro st st3 h hbuf0 hcount
    have hcnt_rest : (rest.filter (fun t => t.slot_id = i₀)).length ≤ 1 := by
      rw [List.filter_cons] at hcount
      split at hcount
      · simp only [List.length_cons] at hcount; omega
      · exact hcount
    simp only [phase3Slots] at h
    split at h
    · rename_i hle
      obtain ⟨hrb, hsl, hbnn, extra, he, hf, htrack⟩ :=
        ih st st3 h hbuf0 hcnt_rest
      refine ⟨hrb, hsl, hbnn, extra, he, ?_, ?_⟩
      · intro a ha
        obtain ⟨h1, ⟨t, ht, h2⟩, h3⟩ := hf a ha
        exact ⟨h1, ⟨t, List.mem_cons_of_mem _ ht, h2⟩, h3⟩
      · by_cases hid : slot.slot_id = i₀
        · have hfindc : (slot :: rest).find? (fun t => t.slot_id = i₀)
              = some slot := by simp [List.find?, hid]
          rw [hfindc]
          have hcnt : (rest.filter (fun t => t.slot_id = i₀)).length = 0 := by
            rw [List.filter_cons] at hcount
            simp only [hid, decide_True, if_true, List.length_cons] at hcount
            omega
          have hfindr : rest.find? (fun t => t.slot_id = i₀) = none :=
            List.find?_eq_none.mpr (fun t ht hti => by
              have : t ∈ rest.filter (fun t => t.slot_id = i₀) :=
                List.mem_filter.mpr ⟨ht, hti⟩
              rw [List.length_eq_zero.mp hcnt] at this
              cases this)
          rw [hfindr] at htrack
          have hfr : lookZ st.slack i₀ ≤ 0 := by rw [← hid]; exact hle
          refine ⟨?_, ?_, ?_⟩
          · rw [htrack]
            have h0 : sumMinutes ([] : List Alloc) = 0 := rfl
            omega
          · have hsrn : slackRecordsFor extra i₀ = [] := by
              apply List.filter_eq_nil_iff.mpr
              intro a ha
              by_cases hai : a.slot_id = i₀
              · exfalso
                have : a ∈ bySlotId extra i₀ :=
                  List.mem_filter.mpr ⟨ha, by simp [hai]⟩
                rw [htrack] at this
                cases this
              · simp [hai]
            rw [hsrn]
            simp
          · rw [htrack]
            simp only [List.filter_nil]
            have h0 : sumMinutes ([] : List Alloc) = 0 := rfl
            omega
        · have hfindc : (slot :: rest).find? (fun t => t.slot_id = i₀)
              = rest.find? (fun t => t.slot_id = i₀) := by
            simp [List.find?, hid]
          rw [hfindc]
          exact htrack
    · rename_i hpos
      have hfree : 0 < lookZ st.slack slot.slot_id := lt_of_not_le hpos
      obtain ⟨hrbG, hslG, hbnnG, extraG, heG, hfG, hsumG, hnnG⟩ :=
        phase3Give_spec ctx slot hs
          (pySort candLe (phase3Candidates ctx st slot
            (lookZ st.slack slot.slot_id)))
          (lookZ st.slack slot.slot_id) st _ _ hbuf0 rfl
      set r := phase3Give ctx slot
        (pySort candLe (phase3Candidates ctx st slot
          (lookZ st.slack slot.slot_id)))
        (lookZ st.slack slot.slot_id) st with hr
      have hr1nn : 0 ≤ r.1 := hnnG (le_of_lt hfree)
      set stMid : AllocState :=
        if 0 < r.1 then
          { r.2 with
            allocations := allocChunk "__slack__" slot r.1 "slack"
              r.2.allocations }
        else r.2 with hstMid
      have hrbMid : stMid.remaining_base = st.remaining_base := by
        rw [hstMid]
        by_cases h1 : 0 < r.1
        · rw [if_pos h1]; exact hrbG
        · rw [if_neg h1]; exact hrbG
      have hslMid : stMid.slack = st.slack := by
        rw [hstMid]
        by_cases h1 : 0 < r.1
        · rw [if_pos h1]; exact hslG
        · rw [if_neg h1]; exact hslG
      have hbufMid : ∀ sid, 0 ≤ lookZ stMid.remaining_buffer sid := by
        intro sid
        rw [hstMid]
        by_cases h1 : 0 < r.1
        · rw [if_pos h1]; exact hbnnG sid
        · rw [if_neg h1]; exact hbnnG sid
      set extraS : List Alloc :=
        if 0 < r.1 then
          [mkAlloc slot.slot_id slot.date "__slack__" r.1 "slack"]
        else [] with hextraS
      have hallocMid : stMid.allocations
          = (st.allocations ++ extraG) ++ extraS := by
        rw [hstMid, hextraS]
        by_cases h1 : 0 < r.1
        · rw [if_pos h1, if_pos h1]
          show allocChunk "__slack__" slot r.1 "slack" r.2.allocations = _
          simp only [allocChunk, mkAlloc]
          rw [if_neg (by omega), heG]
        · rw [if_neg h1, if_neg h1]
          show r.2.allocations = _
          rw [heG]
          simp
      have hsumS : sumMinutes extraS = max 0 r.1 := by
        rw [hextraS]
        by_cases h1 : 0 < r.1
        · rw [if_pos h1]
          simp only [sumMinutes, List.map_cons, List.map_nil, List.sum_cons,
            List.sum_nil, mkAlloc]
          omega
        · rw [if_neg h1]
          have h0 : sumMinutes ([] : List Alloc) = 0 := rfl
          omega
      have hfactS : ∀ a ∈ extraS, a.slot_id = slot.slot_id
          ∧ a.date = slot.date ∧ a.bucket = "slack"
          ∧ a.subject_id = "__slack__" ∧ 1 ≤ a.minutes := by
        rw [hextraS]
        by_cases h1 : 0 < r.1
        · rw [if_pos h1]
          intro a ha
          rcases List.mem_singleton.mp ha with rfl
          exact ⟨rfl, rfl, rfl, rfl, by show (1 : ℤ) ≤ r.1; omega⟩
        · rw [if_neg h1]
          intro a ha
          cases ha
      have hlenS : extraS.length ≤ 1 := by
        rw [hextraS]
        by_cases h1 : 0 < r.1
        · rw [if_pos h1]; simp
        · rw [if_neg h1]; simp
      obtain ⟨hrbR, hslR, hbnnR, extraR, heR, hfR, htrackR⟩ :=
        ih stMid st3 h hbufMid hcnt_rest
      have hGbase : ∀ a ∈ extraG,
          lookZ st.remaining_base a.subject_id ≤ 0 := by
        intro a ha
        obtain ⟨_, _, _, _, c, hc, h5⟩ := hfG a ha
        rw [← h5]
        exact phase3Candidates_spec ctx st slot
          (lookZ st.slack slot.slot_id) c
          ((pySort_perm candLe _).mem_iff.mp hc)
      refine ⟨by rw [hrbR, hrbMid], by rw [hslR, hslMid], hbnnR,
        extraG ++ extraS ++ extraR, ?_, ?_, ?_⟩
      · rw [heR, hallocMid]
        simp [List.append_assoc]
      · intro a ha
        rcases List.mem_append.mp ha with ha' | ha'
        · rcases List.mem_append.mp ha' with haG | haS
          · obtain ⟨h1, h2, h3, h4, _, _, _⟩ := hfG a haG
            exact ⟨h4, ⟨slot, List.mem_cons_self _ _, h1, h2⟩,
              Or.inl ⟨h3, hGbase a haG⟩⟩
          · obtain ⟨h1, h2, h3, h4, h5⟩ := hfactS a haS
            exact ⟨h5, ⟨slot, List.mem_cons_self _ _, h1, h2⟩,
              Or.inr ⟨h3, h4⟩⟩
        · obtain ⟨h1, ⟨t, ht, h2⟩, h3⟩ := hfR a ha'
          refine ⟨h1, ⟨t, List.mem_cons_of_mem _ ht, h2⟩, ?_⟩
          rcases h3 with ⟨hb, hba⟩ | hslk
          · rw [hrbMid] at hba
            exact Or.inl ⟨hb, hba⟩
          · exact Or.inr hslk
      · by_cases hid : slot.slot_id = i₀
        · have hfindc : (slot :: rest).find? (fun t => t.slot_id = i₀)
              = some slot := by simp [List.find?, hid]
          rw [hfindc]
          have hcnt : (rest.filter (fun t => t.slot_id = i₀)).length = 0 := by
            rw [List.filter_cons] at hcount
            simp only [hid, decide_True, if_true, List.length_cons] at hcount
            omega
          have hfindr : rest.find? (fun t => t.slot_id = i₀) = none :=
            List.find?_eq_none.mpr (fun t ht hti => by
              have : t ∈ rest.filter (fun t => t.slot_id = i₀) :=
                List.mem_filter.mpr ⟨ht, hti⟩
              rw [List.length_eq_zero.mp hcnt] at this
              cases this)
          rw [hfindr] at htrackR
          have hbyG : bySlotId extraG i₀ = extraG := by
            apply List.filter_eq_self.mpr
            intro a ha
            simp [(hfG a ha).1, hid]
          have hbyS : bySlotId extraS i₀ = extraS := by
            apply List.filter_eq_self.mpr
            intro a ha
            simp [(hfactS a ha).1, hid]
          have hsi : lookZ st.slack i₀ = lookZ st.slack slot.slot_id := by
            rw [hid]
          have h0 : sumMinutes ([] : List Alloc) = 0 := rfl
          refine ⟨?_, ?_, ?_⟩
          · rw [bySlotId_append, bySlotId_append, sumMinutes_append,
              sumMinutes_append, hbyG, hbyS, htrackR]
            omega
          · have hsG : slackRecordsFor extraG i₀ = [] := by
              apply List.filter_eq_nil_iff.mpr
              intro a ha
              simp [(hfG a ha).2.2.1, hbs]
            have hsR : slackRecordsFor extraR i₀ = [] := by
              apply List.filter_eq_nil_iff.mpr
              intro a ha
              by_cases hai : a.slot_id = i₀
              · exfalso
                have : a ∈ bySlotId extraR i₀ :=
                  List.mem_filter.mpr ⟨ha, by simp [hai]⟩
                rw [htrackR] at this
                cases this
              · simp [hai]
            have hsSlen : (slackRecordsFor extraS i₀).length ≤ extraS.length :=
              List.length_filter_le _ _
            rw [slackRecordsFor_append, slackRecordsFor_append,
              List.length_append, List.length_append, hsG, hsR]
            simp only [List.length_nil]
            omega
          · have hfG2 : extraG.filter (fun a => !(a.bucket = "slack"))
                = extraG := by
              apply List.filter_eq_self.mpr
              intro a ha
              simp [(hfG a ha).2.2.1, hbs]
            have hfS2 : extraS.filter (fun a => !(a.bucket = "slack"))
                = [] := by
              apply List.filter_eq_nil_iff.mpr
              intro a ha
              simp [(hfactS a ha).2.2.1]
            rw [bySlotId_append, bySlotId_append, hbyG, hbyS, htrackR,
              List.filter_append, List.filter_append, hfG2, hfS2,
              List.filter_nil, sumMinutes_append, sumMinutes_append]
            omega
        · have hfindc : (slot :: rest).find? (fun t => t.slot_id = i₀)
              = rest.find? (fun t => t.slot_id = i₀) := by
            simp [List.find?, hid]
          rw [hfindc]
          have hbyG : bySlotId extraG i₀ = [] := by
            apply List.filter_eq_nil_iff.mpr
            intro a ha
            simp [(hfG a ha).1, hid]
          have hbyS : bySlotId extraS i₀ = [] := by
            apply List.filter_eq_nil_iff.mpr
            intro a ha
            simp [(hfactS a ha).1, hid]
          have hslR' : lookZ stMid.slack i₀ = lookZ st.slack i₀ := by
            rw [hslMid]
          split
          · rename_i hfind
            simp only [hfind] at htrackR
            rw [bySlotId_append, bySlotId_append, hbyG, hbyS, htrackR]
            rfl
          · rename_i t₀ hfind
            simp only [hfind] at htrackR
            rw [hslR'] at htrackR
            obtain ⟨hsumR, hslkR, hnsR⟩ := htrackR
            have hsG : slackRecordsFor extraG i₀ = [] := by
              apply List.filter_eq_nil_iff.mpr
              intro a ha
              simp [(hfG a ha).1, hid]
            have hsS : slackRecordsFor extraS i₀ = [] := by
              apply List.filter_eq_nil_iff.mpr
              intro a ha
              simp [(hfactS a ha).1, hid]
            refine ⟨?_, ?_, ?_⟩
            · rw [bySlotId_append, bySlotId_append, hbyG, hbyS]
              simp only [List.nil_append]
              exact hsumR
            · rw [slackRecordsFor_append, slackRecordsFor_append, hsG, hsS]
              simp only [List.nil_append]
              exact hslkR
            · rw [bySlotId_append, bySlotId_append, hbyG, hbyS]
              simp only [List.nil_append]
              exact hnsR

theorem allocChunk_mem (sid : String) (slot : Slot) (m : ℤ) (b : String)
    (out : List Alloc) (a : Alloc) (ha : a ∈ allocChunk sid slot m b out) :
    a ∈ out ∨ (a.bucket = b ∧ a.slot_id = slot.slot_id ∧ a.date = slot.date
      ∧ a.subject_id = sid ∧ a.minutes = m) := by
  simp only [allocChunk] at ha
  split at ha
  · exact Or.inl ha
  · rcases List.mem_append.mp ha with h | h
    · exact Or.inl h
    · rcases List.mem_singleton.mp h with rfl
      exact Or.inr ⟨rfl, rfl, rfl, rfl, rfl⟩

theorem filter_len_le_one_eq {α : Type} (p : α → Bool) (l : List α)
    (h : (l.filter p).length ≤ 1) (a b : α)
    (ha : a ∈ l) (hpa : p a = true) (hb : b ∈ l) (hpb : p b = true) :
    a = b := by
  have ha' : a ∈ l.filter p := List.mem_filter.mpr ⟨ha, hpa⟩
  have hb' : b ∈ l.filter p := List.mem_filter.mpr ⟨hb, hpb⟩
  cases hfp : l.filter p with
  | nil =>
    rw [hfp] at ha'
    cases ha'
  | cons x xs =>
    rw [hfp] at ha' hb' h
    simp only [List.length_cons] at h
    have hxs : xs = [] := List.length_eq_zero.mp (by omega)
    subst hxs
    rcases List.mem_singleton.mp ha' with rfl
    rcases List.mem_singleton.mp hb' with rfl
    rfl

theorem pairwise_filter_len_le_one {α γ : Type} [DecidableEq γ]
    (key : α → γ) :
    ∀ (l : List α), List.Pairwise (fun a b => ¬ key a = key b) l →
      ∀ k, (l.filter (fun t => key t = k)).length ≤ 1 := by
  intro l
  induction l with
  | nil =>
    intro _ k
    simp
  | cons a rest ih =>
    intro h k
    rw [List.pairwise_cons] at h
    obtain ⟨hhead, htail⟩ := h
    rw [List.filter_cons]
    by_cases hak : key a = k
    · rw [if_pos (by simp [hak])]
      have hrest : rest.filter (fun t => key t = k) = [] := by
        apply List.filter_eq_nil_iff.mpr
        intro b hb
        simp only [decide_eq_true_eq]
        intro hbk
        exact hhead b hb (hak.trans hbk.symm)
      rw [hrest]
      simp
    · rw [if_neg (by simp [hak])]
      exact ih htail k

theorem sumMinutes_filter_mono (p q : Alloc → Bool) :
    ∀ (l : List Alloc), (∀ a ∈ l, 0 ≤ a.minutes) →
      (∀ a ∈ l, p a = true → q a = true) →
      sumMinutes (l.filter p) ≤ sumMinutes (l.filter q) := by
  intro l
  induction l with
  | nil =>
    intro _ _
    exact le_refl _
  | cons a rest ih =>
    intro hnn himp
    have hIH := ih (fun x hx => hnn x (List.mem_cons_of_mem _ hx))
      (fun x hx => himp x (List.mem_cons_of_mem _ hx))
    have ha : 0 ≤ a.minutes := hnn a (List.mem_cons_self _ _)
    rw [List.filter_cons, List.filter_cons]
    by_cases hp : p a = true
    · have hq := himp a (List.mem_cons_self _ _) hp
      rw [if_pos hp, if_pos hq]
      simp only [sumMinutes, List.map_cons, List.sum_cons] at hIH ⊢
      omega
    · rw [if_neg hp]
      by_cases hq : q a = true
      · rw [if_pos hq]
        simp only [sumMinutes, List.map_cons, List.sum_cons] at hIH ⊢
        omega
      · rw [if_neg hq]
        exact hIH

theorem lookZ_foldl_updZ_max_nonneg (f : Subject → ℤ) :
    ∀ (l : List Subject) (init : ZDict),
      (∀ sid, 0 ≤ lookZ init sid) →
      ∀ sid, 0 ≤ lookZ
        (l.foldl (fun d s => updZ d s.subject_id (max 0 (f s))) init) sid := by
  intro l
  induction l with
  | nil =>
    intro init h sid
    exact h sid
  | cons s rest ih =>
    intro init h sid
    simp only [List.foldl_cons]
    apply ih
    intro x
    rw [lookZ_updZ]
    split
    · exact le_max_left _ _
    · exact h x

theorem initialMinutes_nonneg (subjects : List Subject) (h : String → QR)
    (sid : String) : 0 ≤ lookZ (initialMinutes subjects h) sid :=
  lookZ_foldl_updZ_max_nonneg (fun s => qrRound (h s.subject_id * 60))
    (pySort subjectIdLe subjects) [] (fun _ => le_refl 0) sid

theorem phase1Loop_origin (ctx : AllocCtx) (slot : Slot) :
    ∀ (fuel : Nat) (available : ℤ) (st : AllocState) (a' : ℤ)
      (st' : AllocState),
      phase1Loop ctx slot fuel available st = some (a', st') →
      ∀ a ∈ st'.allocations, a ∈ st.allocations ∨ a.bucket = "base" := by
  intro fuel
  induction fuel with
  | zero =>
    intro available st a' st' h
    cases h
  | succ fuel ih =>
    intro available st a' st' h
    simp only [phase1Loop] at h
    split at h
    · simp only [Option.some.injEq, Prod.mk.injEq] at h
      obtain ⟨_, rfl⟩ := h
      exact fun a ha => Or.inl ha
    · split at h
      · simp only [Option.some.injEq, Prod.mk.injEq] at h
        obtain ⟨_, rfl⟩ := h
        exact fun a ha => Or.inl ha
      · intro a ha
        rcases ih _ _ _ _ h a ha with hin | hb
        · rcases allocChunk_mem _ _ _ _ _ a hin with h2 | h2
          · exact Or.inl h2
          · exact Or.inr h2.1
        · exact Or.inr hb

theorem phase1Slots_origin (ctx : AllocCtx) :
    ∀ (slots : List Slot) (st st1 : AllocState),
      phase1Slots ctx slots st = some st1 →
      ∀ a ∈ st1.allocations, a ∈ st.allocations ∨ a.bucket = "base" := by
  intro slots
  induction slots with
  | nil =>
    intro st st1 h
    simp only [phase1Slots, Option.some.injEq] at h
    subst h
    exact fun a ha => Or.inl ha
  | cons slot rest ih =>
    intro st st1 h
    simp only [phase1Slots] at h
    split at h
    · cases h
    · rename_i aE st' hloop
      intro a ha
      rcases ih _ _ h a ha with hin | hb
      · rcases phase1Loop_origin ctx slot _ _ _ _ _ hloop a hin with h2 | h2
        · exact Or.inl h2
        · exact Or.inr h2
      · exact Or.inr hb

theorem phase2Give_origin (ctx : AllocCtx) (slot : Slot) :
    ∀ (cands : List Cand) (free : ℤ) (st : AllocState) (free' : ℤ)
      (st' : AllocState),
      phase2Give ctx slot cands free st = (free', st') →
      st'.remaining_base = st.remaining_base
      ∧ ∀ a ∈ st'.allocations, a ∈ st.allocations
          ∨ (a.bucket = "buffer"
             ∧ ∃ c ∈ cands, c.2.2.subject_id = a.subject_id) := by
  intro cands
  induction cands with
  | nil =>
    intro free st free' st' h
    simp only [phase2Give, Prod.mk.injEq] at h
    obtain ⟨_, rfl⟩ := h
    exact ⟨rfl, fun a ha => Or.inl ha⟩
  | cons c rest ih =>
    intro free st free' st' h
    simp only [phase2Give] at h
    split at h
    · simp only [Prod.mk.injEq] at h
      obtain ⟨_, rfl⟩ := h
      exact ⟨rfl, fun a ha => Or.inl ha⟩
    · obtain ⟨h1, h2⟩ := ih _ _ _ _ h
      refine ⟨h1, ?_⟩
      intro a ha
      rcases h2 a ha with hin | ⟨hb, c', hc', hcs⟩
      · rcases allocChunk_mem _ _ _ _ _ a hin with h3 | h3
        · exact Or.inl h3
        · exact Or.inr ⟨h3.1, c, List.mem_cons_self _ _, h3.2.2.2.1.symm⟩
      · exact Or.inr ⟨hb, c', List.mem_cons_of_mem _ hc', hcs⟩

theorem phase2Slots_origin (ctx : AllocCtx) :
    ∀ (slots : List Slot) (st st2 : AllocState),
      phase2Slots ctx slots st = st2 →
      st2.remaining_base = st.remaining_base
      ∧ ∀ a ∈ st2.allocations, a ∈ st.allocations
          ∨ (a.bucket = "buffer"
             ∧ lookZ st.remaining_base a.subject_id ≤ 0) := by
  intro slots
  induction slots with
  | nil =>
    intro st st2 h
    simp only [phase2Slots] at h
    subst h
    exact ⟨rfl, fun a ha => Or.inl ha⟩
  | cons slot rest ih =>
    intro st st2 h
    simp only [phase2Slots] at h
    split at h
    · exact ih _ _ h
    · obtain ⟨hBG, hMG⟩ := phase2Give_origin ctx slot
        (pySort candLe (phase2Candidates ctx st slot))
        (lookZ st.slack slot.slot_id) st _ _ rfl
      obtain ⟨hBR, hMR⟩ := ih _ _ h
      constructor
      · rw [hBR]
        exact hBG
      · intro a ha
        rcases hMR a ha with hin | ⟨hb, hbase⟩
        · rcases hMG a hin with h2 | ⟨hb, c, hc, hcs⟩
          · exact Or.inl h2
          · have hc' := phase2Candidates_spec ctx st slot c
              ((pySort_perm candLe _).mem_iff.mp hc)
            refine Or.inr ⟨hb, ?_⟩
            rw [← hcs]
            exact hc'.1
        · refine Or.inr ⟨hb, ?_⟩
          rw [← hBG]
          exact hbase

theorem phase3Give_origin (ctx : AllocCtx) (slot : Slot) :
    ∀ (cands : List Cand) (free : ℤ) (st : AllocState) (free' : ℤ)
      (st' : AllocState),
      phase3Give ctx slot cands free st = (free', st') →
      st'.remaining_base = st.remaining_base
      ∧ ∀ a ∈ st'.allocations, a ∈ st.allocations
          ∨ (a.bucket = "buffer"
             ∧ ∃ c ∈ cands, c.2.2.subject_id = a.subject_id) := by
  intro cands
  induction cands with
  | nil =>
    intro free st free' st' h
    simp only [phase3Give, Prod.mk.injEq] at h
    obtain ⟨_, rfl⟩ := h
    exact ⟨rfl, fun a ha => Or.inl ha⟩
  | cons c rest ih =>
    intro free st free' st' h
    simp only [phase3Give] at h
    split at h
    · obtain ⟨h1, h2⟩ := ih _ _ _ _ h
      refine ⟨h1, ?_⟩
      intro a ha
      rcases h2 a ha with hin | ⟨hb, c', hc', hcs⟩
      · exact Or.inl hin
      · exact Or.inr ⟨hb, c', List.mem_cons_of_mem _ hc', hcs⟩
    · obtain ⟨h1, h2⟩ := ih _ _ _ _ h
      refine ⟨h1, ?_⟩
      intro a ha
      rcases h2 a ha with hin | ⟨hb, c', hc', hcs⟩
      · rcases allocChunk_mem _ _ _ _ _ a hin with h3 | h3
        · exact Or.inl h3
        · exact Or.inr ⟨h3.1, c, List.mem_cons_self _ _, h3.2.2.2.1.symm⟩
      · exact Or.inr ⟨hb, c', List.mem_cons_of_mem _ hc', hcs⟩

theorem phase3Slots_origin (ctx : AllocCtx) :
    ∀ (slots : List Slot) (st st3 : AllocState),
      phase3Slots ctx slots st = st3 →
      st3.remaining_base = st.remaining_base
      ∧ ∀ a ∈ st3.allocations, a ∈ st.allocations
          ∨ (a.bucket = "buffer"
             ∧ lookZ st.remaining_base a.subject_id ≤ 0)
          ∨ (a.bucket = "slack" ∧ a.subject_id = "__slack__") := by
  intro slots
  induction slots with
  | nil =>
    intro st st3 h
    simp only [phase3Slots] at h
    subst h
    exact ⟨rfl, fun a ha => Or.inl ha⟩
  | cons slot rest ih =>
    intro st st3 h
    simp only [phase3Slots] at h
    split at h
    · exact ih _ _ h
    · obtain ⟨hBG, hMG⟩ := phase3Give_origin ctx slot
        (pySort candLe (phase3Candidates ctx st slot
          (lookZ st.slack slot.slot_id)))
        (lookZ st.slack slot.slot_id) st _ _ rfl
      set r := phase3Give ctx slot
        (pySort candLe (phase3Candidates ctx st slot
          (lookZ st.slack slot.slot_id)))
        (lookZ st.slack slot.slot_id) st with hr
      by_cases hrp : 0 < r.1
      · rw [if_pos hrp] at h
        obtain ⟨hBR, hMR⟩ := ih _ _ h
        refine ⟨by rw [hBR]; exact hBG, ?_⟩
        intro a ha
        rcases hMR a ha with hin | hrest
        · rcases allocChunk_mem _ _ _ _ _ a hin with h2 | h2
          · rcases hMG a h2 with h3 | ⟨hb, c, hc, hcs⟩
            · exact Or.inl h3
            · have hc' := phase3Candidates_spec ctx st slot _ c
                ((pySort_perm candLe _).mem_iff.mp hc)
              refine Or.inr (Or.inl ⟨hb, ?_⟩)
              rw [← hcs]
              exact hc'
          · exact Or.inr (Or.inr ⟨h2.1, h2.2.2.2.1⟩)
        · rcases hrest with ⟨hb, hbase⟩ | hslk
          · refine Or.inr (Or.inl ⟨hb, ?_⟩)
            rw [← hBG]
            exact hbase
          · exact Or.inr (Or.inr hslk)
      · rw [if_neg hrp] at h
        obtain ⟨hBR, hMR⟩ := ih _ _ h
        refine ⟨by rw [hBR]; exact hBG, ?_⟩
        intro a ha
        rcases hMR a ha with hin | hrest
        · rcases hMG a hin with h3 | ⟨hb, c, hc, hcs⟩
          · exact Or.inl h3
          · have hc' := phase3Candidates_spec ctx st slot _ c
              ((pySort_perm candLe _).mem_iff.mp hc)
            refine Or.inr (Or.inl ⟨hb, ?_⟩)
            rw [← hcs]
            exact hc'
        · rcases hrest with ⟨hb, hbase⟩ | hslk
          · refine Or.inr (Or.inl ⟨hb, ?_⟩)
            rw [← hBG]
            exact hbase
          · exact Or.inr (Or.inr hslk)

theorem allocate_plan_buffer_exhausted
    (slots : List Slot) (subjects : List Subject)
    (wk : String → Option WorkloadHours) (session : ℤ)
    (sf : String → Option Features) (cc : Option ContinuityConfig)
    (dc : Option DistributionConfig) (cs : String → Option SubjectConfig)
    (cm : String → Option String) (g : String) (r : AllocResult)
    (hr : allocate_plan slots subjects wk session sf cc dc cs cm g = some r) :
    ∀ a ∈ r.allocations, a.bucket = "buffer" →
      lookZ r.remaining_base_minutes a.subject_id ≤ 0 := by
  simp only [allocate_plan, Option.map_eq_some'] at hr
  obtain ⟨st2, hst2, hres⟩ := hr
  simp only [allocPhase2, Option.map_eq_some'] at hst2
  obtain ⟨st1, hst1, hst2e⟩ := hst2
  simp only [allocPhase1] at hst1
  set ctx := mkAllocCtx subjects session sf cc dc cs cm g with hctx
  set sorted := pySort slotOrderLe slots with hsortedEq
  set st3 := phase3Slots ctx sorted st2 with hst3
  have hra : r.allocations = st3.allocations := by rw [← hres]
  have hrbm : r.remaining_base_minutes = st3.remaining_base := by rw [← hres]
  have h1 := phase1Slots_origin ctx sorted _ st1 hst1
  obtain ⟨hB2, hM2⟩ := phase2Slots_origin ctx sorted st1 st2 hst2e
  obtain ⟨hB3, hM3⟩ := phase3Slots_origin ctx sorted st2 st3 hst3.symm
  intro a ha hb
  rw [hra] at ha
  rw [hrbm]
  rcases hM3 a ha with hin | ⟨_, hbase⟩ | ⟨hslk, _⟩
  · rcases hM2 a hin with hin1 | ⟨_, hbase⟩
    · rcases h1 a hin1 with hin0 | hbB
      · exact absurd hin0 (List.not_mem_nil a)
      · exact absurd (hbB.symm.trans hb) (by decide)
    · rw [hB3, hB2]
      exact hbase
  · rw [hB3]
    exact hbase
  · exact absurd (hslk.symm.trans hb) (by decide)

theorem allocate_plan_run_spec
    (slots : List Slot) (subjects : List Subject)
    (wk : String → Option WorkloadHours) (session : ℤ)
    (sf : String → Option Features) (cc : Option ContinuityConfig)
    (dc : Option DistributionConfig) (cs : String → Option SubjectConfig)
    (cm : String → Option String) (g : String)
    (hs : 1 ≤ session)
    (hids : ∀ i, (slots.filter (fun t => t.slot_id = i)).length ≤ 1)
    (r : AllocResult)
    (hr : allocate_plan slots subjects wk session sf cc dc cs cm g = some r) :
    (∀ a ∈ r.allocations, 1 ≤ a.minutes
       ∧ ∃ t ∈ slots, a.slot_id = t.slot_id ∧ a.date = t.date)
    ∧ ∀ t ∈ slots, 0 ≤ t.max_minutes →
        sumMinutes (bySlotId r.allocations t.slot_id) = t.max_minutes
        ∧ (slackRecordsFor r.allocations t.slot_id).length ≤ 1
        ∧ sumMinutes ((bySlotId r.allocations t.slot_id).filter
            (fun a => !(a.bucket = "slack"))) ≤ t.max_minutes := by
  simp only [allocate_plan, Option.map_eq_some'] at hr
  obtain ⟨st2, hst2, hres⟩ := hr
  simp only [allocPhase2, Option.map_eq_some'] at hst2
  obtain ⟨st1, hst1, hst2e⟩ := hst2
  simp only [allocPhase1] at hst1
  set ctx := mkAllocCtx subjects session sf cc dc cs cm g with hctx
  set sorted := pySort slotOrderLe slots with hsortedEq
  set st3 := phase3Slots ctx sorted st2 with hst3
  have hra : r.allocations = st3.allocations := by rw [← hres]
  have hs' : 1 ≤ ctx.session_minutes := by
    rw [hctx]
    exact hs
  have hsortCount : ∀ i,
      (sorted.filter (fun t => t.slot_id = i)).length ≤ 1 := by
    intro i
    rw [hsortedEq,
      List.Perm.length_eq (List.Perm.filter _ (pySort_perm slotOrderLe slots))]
    exact hids i
  have hmem_sorted : ∀ t ∈ slots, t ∈ sorted := by
    intro t ht
    rw [hsortedEq]
    exact (pySort_perm slotOrderLe slots).mem_iff.mpr ht
  have hbuf0 : ∀ sid, 0 ≤ lookZ (initialMinutes subjects
      (fun sid => ((wk sid).getD {}).hours_buffer)) sid :=
    fun sid => initialMinutes_nonneg _ _ sid
  obtain ⟨hbufP, extra₁, he₁, hf₁, _⟩ :=
    phase1Slots_spec ctx hs' "" sorted _ st1 hst1 (hsortCount "")
  have he₁' : st1.allocations = extra₁ := by
    rw [he₁]
    rfl
  have hbuf1 : ∀ sid, 0 ≤ lookZ st1.remaining_buffer sid := by
    intro sid
    rw [hbufP]
    exact hbuf0 sid
  obtain ⟨hB2, hbuf2, hbmono2, extra₂, he₂, hf₂, _⟩ :=
    phase2Slots_spec ctx hs' "" sorted st1 st2 hst2e hbuf1 (hsortCount "")
  obtain ⟨hB3, hS3, hbuf3, extra₃, he₃, hf₃, _⟩ :=
    phase3Slots_spec ctx hs' "" sorted st2 st3 hst3.symm hbuf2 (hsortCount "")
  constructor
  · intro a ha
    rw [hra, he₃, he₂, he₁'] at ha
    rcases List.mem_append.mp ha with ha' | ha₃
    · rcases List.mem_append.mp ha' with ha₁ | ha₂
      · obtain ⟨_, hm, t, htm, hmatch⟩ := hf₁ a ha₁
        rw [hsortedEq] at htm
        exact ⟨hm, t, (pySort_perm slotOrderLe slots).mem_iff.mp htm, hmatch⟩
      · obtain ⟨_, hm, ⟨t, htm, hmatch⟩, _⟩ := hf₂ a ha₂
        rw [hsortedEq] at htm
        exact ⟨hm, t, (pySort_perm slotOrderLe slots).mem_iff.mp htm, hmatch⟩
    · obtain ⟨hm, ⟨t, htm, hmatch⟩, _⟩ := hf₃ a ha₃
      rw [hsortedEq] at htm
      exact ⟨hm, t, (pySort_perm slotOrderLe slots).mem_iff.mp htm, hmatch⟩
  · intro t ht hm
    obtain ⟨_, extra₁t, he₁t, hf₁t, htrack₁⟩ :=
      phase1Slots_spec ctx hs' t.slot_id sorted _ st1 hst1
        (hsortCount t.slot_id)
    obtain ⟨_, _, _, extra₂t, he₂t, hf₂t, htrack₂⟩ :=
      phase2Slots_spec ctx hs' t.slot_id sorted st1 st2 hst2e hbuf1
        (hsortCount t.slot_id)
    obtain ⟨_, _, _, extra₃t, he₃t, hf₃t, htrack₃⟩ :=
      phase3Slots_spec ctx hs' t.slot_id sorted st2 st3 hst3.symm hbuf2
        (hsortCount t.slot_id)
    have he₁t' : st1.allocations = extra₁t := by
      rw [he₁t]
      rfl
    have hallr : r.allocations = extra₁t ++ extra₂t ++ extra₃t := by
      rw [hra, he₃t, he₂t, he₁t']
    have htmemS : t ∈ sorted := hmem_sorted t ht
    have hfind : sorted.find? (fun t' => t'.slot_id = t.slot_id)
        = some t := by
      cases hf : sorted.find? (fun t' => t'.slot_id = t.slot_id) with
      | none =>
        exfalso
        have := List.find?_eq_none.mp hf t htmemS
        simp at this
      | some t₀ =>
        have ht₀mem := List.mem_of_find?_eq_some hf
        have ht₀pred := List.find?_some hf
        have heq : t₀ = t := filter_len_le_one_eq _ sorted
          (hsortCount t.slot_id) t₀ t ht₀mem ht₀pred htmemS (by simp)
        rw [heq]
    rw [hfind] at htrack₁ htrack₂ htrack₃
    obtain ⟨hsum₁, hnn₁⟩ := htrack₁
    obtain ⟨hsum₂, hnn₂, _⟩ := htrack₂
    obtain ⟨hsum₃, hslk₃, hns₃⟩ := htrack₃
    have hk1 := hnn₁ hm
    have hk2 := hnn₂ hk1
    have hbsb : ¬ (("base" : String) = "slack") := by decide
    have hbfs : ¬ (("buffer" : String) = "slack") := by decide
    have hsr₁ : slackRecordsFor extra₁t t.slot_id = [] := by
      apply List.filter_eq_nil_iff.mpr
      intro a ha
      simp [(hf₁t a ha).1, hbsb]
    have hsr₂ : slackRecordsFor extra₂t t.slot_id = [] := by
      apply List.filter_eq_nil_iff.mpr
      intro a ha
      simp [(hf₂t a ha).1, hbfs]
    have hns₁ : (bySlotId extra₁t t.slot_id).filter
        (fun a => !(a.bucket = "slack")) = bySlotId extra₁t t.slot_id := by
      apply List.filter_eq_self.mpr
      intro a ha
      simp [(hf₁t a (List.mem_of_mem_filter ha)).1, hbsb]
    have hns₂ : (bySlotId extra₂t t.slot_id).filter
        (fun a => !(a.bucket = "slack")) = bySlotId extra₂t t.slot_id := by
      apply List.filter_eq_self.mpr
      intro a ha
      simp [(hf₂t a (List.mem_of_mem_filter ha)).1, hbfs]
    refine ⟨?_, ?_, ?_⟩
    · rw [hallr, bySlotId_append, bySlotId_append, sumMinutes_append,
        sumMinutes_append]
      omega
    · rw [hallr, slackRecordsFor_append, slackRecordsFor_append,
        List.length_append, List.length_append, hsr₁, hsr₂]
      simp only [List.length_nil]
      omega
    · rw [hallr, bySlotId_append, bySlotId_append, List.filter_append,
        List.filter_append, hns₁, hns₂, sumMinutes_append, sumMinutes_append]
      omega

theorem set_get_self {α : Type} : ∀ (l : List α) (i : ℕ) (v : α),
    l.get? i = some v → l.set i v = l := by
  intro l
  induction l with
  | nil =>
    intro i v h
    cases h
  | cons x xs ih =>
    intro i v h
    cases i with
    | zero =>
      simp only [List.get?] at h
      rcases Option.some.inj h with rfl
      rfl
    | succ n =>
      simp only [List.get?] at h
      simp only [List.set]
      rw [ih n v h]

theorem applySwap_proj (working : List Alloc) (ia ib : ℕ) :
    (applySwap working ia ib).map allocProj = working.map allocProj := by
  unfold applySwap
  cases ha : working.get? ia with
  | none => rfl
  | some a =>
    cases hb : working.get? ib with
    | none => rfl
    | some b =>
      have h1 : (working.map allocProj).set ia (allocProj a)
          = working.map allocProj :=
        set_get_self _ _ _ (by rw [List.get?_map, ha]; rfl)
      have h2 : (working.map allocProj).set ib (allocProj b)
          = working.map allocProj :=
        set_get_self _ _ _ (by rw [List.get?_map, hb]; rfl)
      rw [List.map_set, List.map_set]
      show ((working.map allocProj).set ia (allocProj a)).set ib (allocProj b)
        = working.map allocProj
      rw [h1, h2]

theorem qr_le_of_not_lt (a b : QR) (h : ¬ a < b) : b ≤ a := Int.not_lt.mp h

theorem findAccepted_spec (hum : List Alloc → QR × QR × QR)
    (slots : List Slot) (w : String → Option RebWindow) (maxSubj : ℤ)
    (tol base : QR) (bh : QR × QR × QR) (working : List Alloc) :
    ∀ (cands : List SwapCand) (r : List Alloc × QR),
      findAccepted hum slots w maxSubj tol base bh working cands = some r →
      base ≤ r.2 + tol
      ∧ r.1.map allocProj = working.map allocProj := by
  intro cands
  induction cands with
  | nil =>
    intro r h
    cases h
  | cons c rest ih =>
    intro r h
    simp only [findAccepted] at h
    split at h
    · exact ih r h
    · split at h
      · exact ih r h
      · split at h
        · rename_i hno hreg himp
          rcases Option.some.inj h with rfl
          exact ⟨qr_le_of_not_lt _ _ hreg,
            applySwap_proj working c.2.2.1 c.2.2.2⟩
        · exact ih r h

theorem rebalanceGo_spec (hum : List Alloc → QR × QR × QR)
    (slots : List Slot) (w : String → Option RebWindow)
    (modes : String → String) (lids : List String) (ldates : List Day)
    (pc : Option Day) (near maxSubj maxSwapsEff : ℤ) (tol : QR) :
    ∀ (fuel : ℕ) (accepted : ℤ) (working : List Alloc)
      (log : List (QR × QR)) (res : List Alloc × List (QR × QR)),
      rebalanceGo hum slots w modes lids ldates pc near maxSubj maxSwapsEff
        tol fuel accepted working log = res →
      (∀ p ∈ res.2, p ∈ log ∨ p.1 ≤ p.2 + tol)
      ∧ (res.2.length : ℤ) ≤ log.length + max 0 (maxSwapsEff - accepted)
      ∧ res.1.map allocProj = working.map allocProj := by
  intro fuel
  induction fuel with
  | zero =>
    intro accepted working log res h
    simp only [rebalanceGo] at h
    subst h
    refine ⟨fun p hp => Or.inl hp, ?_, rfl⟩
    show (log.length : ℤ) ≤ log.length + max 0 (maxSwapsEff - accepted)
    omega
  | succ fuel ih =>
    intro accepted working log res h
    simp only [rebalanceGo] at h
    split at h
    · subst h
      refine ⟨fun p hp => Or.inl hp, ?_, rfl⟩
      show (log.length : ℤ) ≤ log.length + max 0 (maxSwapsEff - accepted)
      omega
    · rename_i hacc
      split at h
      · subst h
        refine ⟨fun p hp => Or.inl hp, ?_, rfl⟩
        show (log.length : ℤ) ≤ log.length + max 0 (maxSwapsEff - accepted)
        omega
      · rename_i r' hfind
        obtain ⟨hbase, hproj⟩ := findAccepted_spec hum slots w maxSubj tol
          _ _ working _ r' hfind
        obtain ⟨hlogR, hlenR, hprojR⟩ := ih _ _ _ _ h
        refine ⟨?_, ?_, ?_⟩
        · intro p hp
          rcases hlogR p hp with hin | hgood
          · rcases List.mem_append.mp hin with hin' | hin''
            · exact Or.inl hin'
            · rcases List.mem_singleton.mp hin'' with rfl
              exact Or.inr hbase
          · exact Or.inr hgood
        · simp only [List.length_append, List.length_cons,
            List.length_nil] at hlenR
          omega
        · rw [hprojR, hproj]

theorem manualProgress_foldl (sessions : List ManualSession) :
    ∀ (acc : String → ProgressCounters) (sid : String), ¬ (sid = "") →
      ((sessions.foldl manualProgressStep acc) sid).effective_done_minutes
        = (acc sid).effective_done_minutes
          + ((sessions.filter (fun s => s.subject_id = sid)).map
              manualSessionCredit).sum := by
  induction sessions with
  | nil => intro acc sid hsid; simp
  | cons s ss ih =>
    intro acc sid hsid
    simp only [List.foldl_cons, List.filter_cons]
    by_cases hs : s.subject_id = ""
    · have hne : ¬ (s.subject_id = sid) := by
        intro h
        exact hsid (by rw [← h, hs])
      have hstep : manualProgressStep acc s = acc := by
        simp [manualProgressStep, hs]
      rw [hstep, ih acc sid hsid]
      simp [hne]
    · by_cases heq : s.subject_id = sid
      · have hstep : (manualProgressStep acc s) sid
            = { effective_done_minutes :=
                  (acc sid).effective_done_minutes + manualSessionCredit s
                planned_minutes :=
                  (acc sid).planned_minutes + max 0 s.planned_minutes
                skipped_minutes := (acc sid).skipped_minutes
                  + (if s.status = some "skipped" then
                      max 0 s.planned_minutes
                    else 0)
                skipped_sessions := (acc sid).skipped_sessions
                  + (if s.status = some "skipped" then 1 else 0) } := by
          simp [manualProgressStep, hs, heq.symm]
        rw [ih (manualProgressStep acc s) sid hsid, hstep]
        simp [heq]
        ring
      · have hstep : (manualProgressStep acc s) sid = acc sid := by
          have : ¬ (sid = s.subject_id) := fun h => heq h.symm
          simp [manualProgressStep, hs, this]
        rw [ih (manualProgressStep acc s) sid hsid, hstep]
        simp [heq]

theorem minDay_le_init : ∀ (ds : List Day) (a : Day), minDay a ds ≤ a := by
  intro ds
  induction ds with
  | nil => intro a; exact le_rfl
  | cons x xs ih =>
    intro a
    exact le_trans (ih (min a x)) (min_le_left a x)

theorem minDay_le_mem : ∀ (ds : List Day) (a d : Day), d ∈ ds → minDay a ds ≤ d := by
  intro ds
  induction ds with
  | nil => intro a d h; cases h
  | cons x xs ih =>
    intro a d h
    rcases List.mem_cons.mp h with rfl | hxs
    · exact le_trans (minDay_le_init xs (min a d)) (min_le_right a d)
    · exact ih (min a x) d hxs

theorem minDay_append_singleton (a d : Day) (ds : List Day) :
    minDay a (ds ++ [d]) = min (minDay a ds) d := by
  simp [minDay, List.foldl_append]

end Planner

namespace Spec

open Planner

/-- C3 counterexample: the claim asserts that for every numeric input all six
returned values are ≥ 0, but a negative `cfu` (a numeric input; the code
accepts it, `_as_float` only guards non-numerics) yields
`hours_theoretical = cfu * 25 < 0`. At `cfu = -1` the result is `-25`. -/
theorem C3_counterexample :
    (compute_subject_workload
        { cfu := -1, difficulty_coeff := 1, completion_initial := 0,
          attending := false, attendance_hours_per_cfu := none }
        0.10 none).hours_theoretical = -25 ∧
    ¬ (0 ≤ (compute_subject_workload
        { cfu := -1, difficulty_coeff := 1, completion_initial := 0,
          attending := false, attendance_hours_per_cfu := none }
        0.10 none).hours_theoretical) := by
  constructor <;> norm_num [compute_subject_workload]

/-- C3 (amended): on the test vector (`cfu=6, difficulty_coeff=1.2,
completion_initial=0.25, attending, 5 attendance hours per cfu, 10% buffer,
no externally supplied attended hours) `compute_subject_workload` returns
exactly `hours_theoretical=150`, `attendance_discount_hours=30`,
`prep_gap_coeff=1.75`, `hours_base=252`, `hours_buffer=25.2`,
`hours_target=277.2`; and for every numeric input the five outputs other than
`hours_theoretical` are ≥ 0, while `hours_theoretical ≥ 0` holds whenever
`cfu ≥ 0`. -/
theorem C3_workload_exactness :
    ((compute_subject_workload workloadExactnessSubject 0.10 none).hours_theoretical = 150 ∧
     (compute_subject_workload workloadExactnessSubject 0.10 none).attendance_discount_hours = 30 ∧
     (compute_subject_workload workloadExactnessSubject 0.10 none).prep_gap_coeff = 1.75 ∧
     (compute_subject_workload workloadExactnessSubject 0.10 none).hours_base = 252 ∧
     (compute_subject_workload workloadExactnessSubject 0.10 none).hours_buffer = 25.2 ∧
     (compute_subject_workload workloadExactnessSubject 0.10 none).hours_target = 277.2) ∧
    ∀ (s : WorkloadSubject) (pct : ℚ) (att : Option ℚ),
      (0 ≤ s.cfu → 0 ≤ (compute_subject_workload s pct att).hours_theoretical) ∧
      0 ≤ (compute_subject_workload s pct att).attendance_discount_hours ∧
      0 ≤ (compute_subject_workload s pct att).prep_gap_coeff ∧
      0 ≤ (compute_subject_workload s pct att).hours_base ∧
      0 ≤ (compute_subject_workload s pct att).hours_buffer ∧
      0 ≤ (compute_subject_workload s pct att).hours_target := by
  refine ⟨by norm_num [compute_subject_workload, workloadExactnessSubject,
    min_def, max_def], ?_⟩
  intro s pct att
  have hth : (compute_subject_workload s pct att).hours_theoretical
      = s.cfu * 25 := rfl
  have hdisc : 0 ≤ (compute_subject_workload s pct att).attendance_discount_hours := by
    show (0 : ℚ) ≤ (if s.attending then _ else 0)
    split
    · cases att with
      | none => exact le_max_left 0 _
      | some h => exact le_max_left 0 _
    · exact le_rfl
  have hgap : 0 ≤ (compute_subject_workload s pct att).prep_gap_coeff := by
    show (0 : ℚ) ≤ 1 + (1 - min 1 (max 0 s.completion_initial))
    have h1 : min 1 (max 0 s.completion_initial) ≤ 1 := min_le_left _ _
    linarith
  have hbase : 0 ≤ (compute_subject_workload s pct att).hours_base :=
    le_max_left 0 _
  have hbuf : 0 ≤ (compute_subject_workload s pct att).hours_buffer :=
    le_max_left 0 _
  have htgt : 0 ≤ (compute_subject_workload s pct att).hours_target :=
    add_nonneg hbase hbuf
  refine ⟨fun hc => ?_, hdisc, hgap, hbase, hbuf, htgt⟩
  rw [hth]
  positivity

/-- Witness for `C3_workload_exactness`: the nonnegativity clause discharged
at the concrete test-vector subject (whose `cfu = 6 ≥ 0`). -/
theorem C3_workload_exactness_witness :
    0 ≤ (compute_subject_workload workloadExactnessSubject 0.10
      none).hours_theoretical :=
  ((C3_workload_exactness.2 workloadExactnessSubject 0.10 none).1
    (by norm_num [workloadExactnessSubject]))

/-- C6: `deterministic_tie_breaker_key` computes exactly the tuple the
specification describes — `(days to nearest exam clamped at ≥ 0, or the 10^9
sentinel when the subject has no exam date; negated priority; subject_id)` —
for every subject whose `selected_exam_date`, when present, is one of its
`exam_dates` (the data-model invariant); and the example subjects
`a{priority:1, exam:2026-01-10}`, `b{priority:3, exam:2026-01-10}`,
`c{priority:1, exam:2026-01-05}` sorted by the key from reference
2026-01-01 come out `[c, b, a]`. -/
theorem C6_tie_break_total_order :
    (∀ (s : Subject) (ref : Day),
      (∀ d, s.selected_exam_date = some d → d ∈ s.exam_dates) →
      deterministic_tie_breaker_key s ref = tieBreakerKeySpec s ref) ∧
    subjectOrder [tieExampleA, tieExampleB, tieExampleC] tieExampleRef
      = [tieExampleC, tieExampleB, tieExampleA] := by
  constructor
  · intro s ref h
    unfold deterministic_tie_breaker_key tieBreakerKeySpec
    cases hd : s.exam_dates with
    | nil =>
      cases hs : s.selected_exam_date with
      | none => simp [hd, hs]
      | some d => simp [hd, hs]
    | cons e es =>
      cases hs : s.selected_exam_date with
      | none => simp [hd, hs]
      | some d =>
        have hmem : d ∈ e :: es := hd ▸ h d hs
        have hle : minDay e es ≤ d := by
          rcases List.mem_cons.mp hmem with rfl | hes
          · exact minDay_le_init es d
          · exact minDay_le_mem es e d hes
        simp only [hd, hs, List.cons_append, minDay_append_singleton,
          min_eq_left hle]
  · decide

/-- Witness for `C6_tie_break_total_order`: the refinement clause applied to
the concrete example subject `a`, whose `selected_exam_date` is absent. -/
theorem C6_tie_break_total_order_witness :
    deterministic_tie_breaker_key tieExampleA tieExampleRef
      = tieBreakerKeySpec tieExampleA tieExampleRef :=
  C6_tie_break_total_order.1 tieExampleA tieExampleRef
    (fun d hd => by simp [tieExampleA] at hd)

/-- C8 counterexample: the claimed upper bound `(24 − sleep_hours) * 60` fails
(i) when the resolved sleep hours exceed 24 — at `sleep = 25` the bound is
`-60` while `cap_minutes = 0` — and (ii) when a blocked constraint carries
negative minutes — with `blocked_minutes = -100` on a 900-minute cap and 8
sleep hours the slot gets `cap_minutes = 1000 > 960`. -/
theorem C8_counterexample :
    ((build_daily_slots 739617 739617 sleepCfg25 []).map
        (fun s => (s.cap_minutes, s.max_minutes, s.sleep_hours))
          = [(0, 0, (25 : ℚ))] ∧
      ¬ ((0 : ℚ) ≤ (24 - 25) * 60)) ∧
    ((build_daily_slots 739617 739617 negBlockedCfg [negBlockedConstraint]).map
        (fun s => (s.cap_minutes, s.max_minutes, s.sleep_hours))
          = [(1000, 1000, (8 : ℚ))] ∧
      ¬ ((1000 : ℚ) ≤ (24 - 8) * 60)) := by
  refine ⟨⟨?_, by norm_num⟩, ⟨?_, by norm_num⟩⟩
  · norm_num [build_daily_slots, buildSlotForDay, iterDays, iterDaysAux,
      resolve_sleep_hours, sleepCfg25, pyRound, pySort, capPreSleep,
      capOverrideValues, blockedListForDay, minDay]
  · have h1 : (decide (("blocked" : String) = "cap_override")) = false := by
      decide
    have h2 : (decide (("blocked" : String) = "blocked")) = true := by decide
    norm_num [build_daily_slots, buildSlotForDay, iterDays, iterDaysAux,
      resolve_sleep_hours, negBlockedCfg, negBlockedConstraint, pyRound,
      pySort, insertLe, appliesToDay, List.filter, minDay, capPreSleep,
      capOverrideValues, blockedListForDay, h1, h2]

/-- C8 (amended): every slot `build_daily_slots` produces satisfies
`0 ≤ cap_minutes ≤ max_minutes` and
`max_minutes = cap_minutes + tolerance_minutes`, and — provided every blocked
constraint carries nonnegative minutes — both `cap_minutes` and `max_minutes`
are bounded by the awake minutes `max 0 (round((24 − sleep_hours) * 60))` for
that day's resolved sleep hours. -/
theorem C8_slot_envelope :
    ∀ (s e : Day) (cfg : SlotGlobalConfig) (cs : List CalConstraint),
      (∀ c ∈ cs, 0 ≤ c.blocked_minutes) →
      ∀ slot ∈ build_daily_slots s e cfg cs,
        0 ≤ slot.cap_minutes ∧
        slot.cap_minutes ≤ slot.max_minutes ∧
        slot.max_minutes = slot.cap_minutes + slot.tolerance_minutes ∧
        slot.cap_minutes ≤ max 0 (pyRound ((24 - slot.sleep_hours) * 60)) ∧
        slot.max_minutes ≤ max 0 (pyRound ((24 - slot.sleep_hours) * 60)) := by
  intro s e cfg cs hblocked slot hslot
  rcases List.mem_map.mp hslot with ⟨day, _, rfl⟩
  have hb : 0 ≤ ((blockedListForDay (pySort constraintKeyLe cs) day).map
      (fun c => c.blocked_minutes)).sum := by
    apply List.sum_nonneg
    intro x hx
    rcases List.mem_map.mp hx with ⟨c, hc, rfl⟩
    have hc1 : c ∈ pySort constraintKeyLe cs :=
      List.mem_of_mem_filter (List.mem_of_mem_filter hc)
    exact hblocked c ((pySort_perm constraintKeyLe cs).mem_iff.mp hc1)
  simp only [buildSlotForDay]
  refine ⟨le_max_left _ _, ?_, trivial, ?_, ?_⟩ <;> omega

/-- Witness for `C8_slot_envelope`: the envelope invariant applied to the
one-day horizon with no constraints (so the blocked-minutes hypothesis is
vacuous) and the 25-hours-sleep config. -/
theorem C8_slot_envelope_witness :
    0 ≤ (buildSlotForDay sleepCfg25 [] 739617).cap_minutes ∧
    (buildSlotForDay sleepCfg25 [] 739617).cap_minutes
      ≤ (buildSlotForDay sleepCfg25 [] 739617).max_minutes ∧
    (buildSlotForDay sleepCfg25 [] 739617).max_minutes
      = (buildSlotForDay sleepCfg25 [] 739617).cap_minutes
        + (buildSlotForDay sleepCfg25 [] 739617).tolerance_minutes ∧
    (buildSlotForDay sleepCfg25 [] 739617).cap_minutes
      ≤ max 0 (pyRound ((24 - (buildSlotForDay sleepCfg25 [] 739617).sleep_hours) * 60)) ∧
    (buildSlotForDay sleepCfg25 [] 739617).max_minutes
      ≤ max 0 (pyRound ((24 - (buildSlotForDay sleepCfg25 [] 739617).sleep_hours) * 60)) :=
  C8_slot_envelope 739617 739617 sleepCfg25 []
    (fun c hc => absurd hc (List.not_mem_nil c))
    (buildSlotForDay sleepCfg25 [] 739617)
    (by simp [build_daily_slots, iterDays, iterDaysAux, pySort])

/-- C10: `compute_manual_progress` credits each nonempty-id subject with the
sum, over its sessions, of `max(planned, actual)` for status `done`,
`min(planned, max(0, actual))` for status `partial` and `0` for any other
status; sessions without a subject id contribute to nobody. -/
theorem C10_manual_progress_folding :
    ∀ (sessions : List ManualSession) (sid : String), ¬ (sid = "") →
      ((compute_manual_progress sessions) sid).effective_done_minutes
        = ((sessions.filter (fun s => s.subject_id = sid)).map (fun s =>
            if s.status = some "done" then
              max s.planned_minutes s.actual_minutes_done
            else if s.status = some "partial" then
              min s.planned_minutes (max 0 s.actual_minutes_done)
            else 0)).sum := by
  intro sessions sid hsid
  have hfun : (fun s : ManualSession =>
      if s.status = some "done" then
        max s.planned_minutes s.actual_minutes_done
      else if s.status = some "partial" then
        min s.planned_minutes (max 0 s.actual_minutes_done)
      else 0) = manualSessionCredit := rfl
  rw [hfun]
  have h := manualProgress_foldl sessions (fun _ => {}) sid hsid
  simpa [compute_manual_progress] using h

/-- Witness for `C10_manual_progress_folding`: the folding equation applied
at the concrete example list for subject `"math"` (and its two sides indeed
evaluate to 40 = 30 + 10 + 0). -/
theorem C10_manual_progress_folding_witness :
    ((compute_manual_progress manualSessionsExample) "math").effective_done_minutes
      = ((manualSessionsExample.filter (fun s => s.subject_id = "math")).map
          (fun s =>
            if s.status = some "done" then
              max s.planned_minutes s.actual_minutes_done
            else if s.status = some "partial" then
              min s.planned_minutes (max 0 s.actual_minutes_done)
            else 0)).sum ∧
    ((compute_manual_progress manualSessionsExample) "math").effective_done_minutes
      = 45 + 10 :=
  ⟨C10_manual_progress_folding manualSessionsExample "math" (by decide),
    by decide⟩

/-- C1: base-before-buffer invariant. In every terminating run of
`allocate_plan`, a subject whose remaining base minutes are still positive in
the returned result has no `"buffer"` allocation record — buffer is only ever
allocated to subjects whose base demand is fully exhausted (remaining base is
fixed after Phase 1, so the returned value is the value in force when every
buffer record was created). -/
theorem C1_base_before_buffer
    (slots : List Slot) (subjects : List Subject)
    (wk : String → Option WorkloadHours) (session : ℤ)
    (sf : String → Option Features) (cc : Option ContinuityConfig)
    (dc : Option DistributionConfig) (cs : String → Option SubjectConfig)
    (cm : String → Option String) (g : String) (r : AllocResult)
    (hr : allocate_plan slots subjects wk session sf cc dc cs cm g = some r)
    (S : String) (hpos : 0 < lookZ r.remaining_base_minutes S) :
    ∀ a ∈ r.allocations, a.subject_id = S → ¬ a.bucket = "buffer" := by
  intro a ha hsid hb
  have h := allocate_plan_buffer_exhausted slots subjects wk session sf cc dc
    cs cm g r hr a ha hb
  rw [hsid] at h
  omega

theorem C1_base_before_buffer_witness :
    allocate_plan [demoSlot60] [demoSubject] demoWorkBase2 = some rC1demo
    ∧ 0 < lookZ rC1demo.remaining_base_minutes "s"
    ∧ ∀ a ∈ rC1demo.allocations, a.subject_id = "s" → ¬ a.bucket = "buffer" :=
  ⟨by decide, by decide,
    C1_base_before_buffer [demoSlot60] [demoSubject] demoWorkBase2 30
      (fun _ => none) none none (fun _ => none) (fun _ => none) "diffuse"
      rC1demo (by decide) "s" (by decide)⟩

/-- C2 counterexample: with pairwise-distinct dates but a duplicated
`slot_id`, the shared `slack_by_slot` key lets day 739617 receive 60 non-slack
minutes against its 30-minute slot, refuting the claimed capacity bound. -/
theorem C2_counterexample :
    allocate_plan [dupIdSlotA, dupIdSlotB] [demoSubject] demoWorkBuf10
      = some rC2demo
    ∧ List.Pairwise (fun a b => ¬ a.date = b.date) [dupIdSlotA, dupIdSlotB]
    ∧ dupIdSlotA.date = 739617
    ∧ dupIdSlotA.max_minutes = 30
    ∧ ¬ sumMinutes (nonSlackByDate rC2demo.allocations dupIdSlotA.date)
        ≤ dupIdSlotA.max_minutes :=
  ⟨by decide, by decide, by decide, by decide, by decide⟩

/-- C2 (amended): capacity invariant. For a run of `allocate_plan` with a
positive session quantum on slots with pairwise-distinct dates AND
pairwise-distinct slot ids and nonnegative `max_minutes`, the non-slack
minutes dated any slot's day sum to at most that slot's `max_minutes`, and
days carrying no slot carry no non-slack records at all. -/
theorem C2_capacity_invariant
    (slots : List Slot) (subjects : List Subject)
    (wk : String → Option WorkloadHours) (session : ℤ)
    (sf : String → Option Features) (cc : Option ContinuityConfig)
    (dc : Option DistributionConfig) (cs : String → Option SubjectConfig)
    (cm : String → Option String) (g : String)
    (hs : 1 ≤ session)
    (hdatesP : List.Pairwise (fun a b => ¬ a.date = b.date) slots)
    (hidsP : List.Pairwise (fun a b => ¬ a.slot_id = b.slot_id) slots)
    (hmax : ∀ t ∈ slots, 0 ≤ t.max_minutes)
    (r : AllocResult)
    (hr : allocate_plan slots subjects wk session sf cc dc cs cm g = some r) :
    (∀ t ∈ slots, sumMinutes (nonSlackByDate r.allocations t.date)
        ≤ t.max_minutes)
    ∧ ∀ d, (∀ t ∈ slots, ¬ t.date = d) →
        nonSlackByDate r.allocations d = [] := by
  have hids := pairwise_filter_len_le_one (fun t => t.slot_id) slots hidsP
  have hdates := pairwise_filter_len_le_one (fun t => t.date) slots hdatesP
  obtain ⟨hfacts, htr⟩ := allocate_plan_run_spec slots subjects wk session
    sf cc dc cs cm g hs hids r hr
  constructor
  · intro t ht
    obtain ⟨_, _, hns⟩ := htr t ht (hmax t ht)
    have himp : ∀ a ∈ r.allocations,
        (!(a.bucket = "slack") && a.date = t.date) = true →
        (!(a.bucket = "slack") && a.slot_id = t.slot_id) = true := by
      intro a ha hp
      rw [Bool.and_eq_true] at hp ⊢
      refine ⟨hp.1, ?_⟩
      obtain ⟨_, t', ht', hsl, hdt⟩ := hfacts a ha
      have hdq : a.date = t.date := of_decide_eq_true hp.2
      have ht'd : t'.date = t.date := by rw [← hdt]; exact hdq
      have hteq : t' = t := filter_len_le_one_eq _ slots (hdates t.date)
        t' t ht' (by simp [ht'd]) ht (by simp)
      exact decide_eq_true (by rw [hsl, hteq])
    have hmono := sumMinutes_filter_mono
      (fun a => !(a.bucket = "slack") && a.date = t.date)
      (fun a => !(a.bucket = "slack") && a.slot_id = t.slot_id)
      r.allocations
      (fun a ha => by have h1 := (hfacts a ha).1; omega)
      himp
    have heq : r.allocations.filter
        (fun a => !(a.bucket = "slack") && a.slot_id = t.slot_id)
        = (bySlotId r.allocations t.slot_id).filter
            (fun a => !(a.bucket = "slack")) := by
      simp only [bySlotId, List.filter_filter]
    calc sumMinutes (nonSlackByDate r.allocations t.date)
        ≤ sumMinutes (r.allocations.filter
            (fun a => !(a.bucket = "slack") && a.slot_id = t.slot_id)) := hmono
      _ ≤ t.max_minutes := by rw [heq]; exact hns
  · intro d hnone
    simp only [nonSlackByDate]
    apply List.filter_eq_nil_iff.mpr
    intro a ha hcon
    rw [Bool.and_eq_true] at hcon
    obtain ⟨_, t', ht', _, hdt⟩ := hfacts a ha
    have hdq : a.date = d := of_decide_eq_true hcon.2
    exact hnone t' ht' (by rw [← hdt]; exact hdq)

theorem C2_capacity_invariant_witness :
    allocate_plan [demoSlot60] [demoSubject] demoWorkBase2 = some rC1demo
    ∧ (∀ t ∈ [demoSlot60],
        sumMinutes (nonSlackByDate rC1demo.allocations t.date)
          ≤ t.max_minutes)
    ∧ nonSlackByDate rC1demo.allocations 0 = [] := by
  obtain ⟨h1, h2⟩ := C2_capacity_invariant [demoSlot60] [demoSubject]
    demoWorkBase2 30 (fun _ => none) none none (fun _ => none) (fun _ => none)
    "diffuse" (by decide) (by simp) (by simp) (by decide) rC1demo (by decide)
  exact ⟨by decide, h1, h2 0 (by decide)⟩

/-- C7 counterexample: in the 120-minute buffer-only run, Phase 2 ends with
90 free minutes (≥ one 30-minute quantum) on the slot AND 90 buffer minutes
remaining for the eligible subject `"s"` — Phase 2 gives at most one chunk
per candidate, so it does not run until capacity or buffer is exhausted. -/
theorem C7_counterexample :
    allocPhase1 [demoSlot120] [demoSubject] demoWorkBuf2 30 (fun _ => none)
      none none (fun _ => none) (fun _ => none) "diffuse" = some st1C7
    ∧ allocPhase2 [demoSlot120] [demoSubject] demoWorkBuf2 30 (fun _ => none)
      none none (fun _ => none) (fun _ => none) "diffuse" = some st2C7
    ∧ 30 ≤ lookZ st1C7.slack "a"
    ∧ lookZ st1C7.remaining_base "s" ≤ 0
    ∧ demoSlot120.date ≤ (mkAllocCtx [demoSubject] 30 (fun _ => none) none
        none (fun _ => none) (fun _ => none) "diffuse").examDay "s"
    ∧ ¬ lookZ st2C7.slack "a" < 30
    ∧ ¬ lookZ st2C7.remaining_buffer "s" ≤ 0 :=
  ⟨by decide, by decide, by decide, by decide, by decide, by decide,
    by decide⟩

/-- C7 (amended): Phase-2 buffer progress. For a run with a positive session
quantum and pairwise-distinct slot ids, every slot whose Phase-1 leftover is
at least one quantum satisfies, for every subject that was Phase-2-eligible
for it (base exhausted, exam day not passed): at the end of Phase 2 the
slot's free capacity is below one quantum, or that subject's buffer is
exhausted, or at least one buffer chunk for that subject was recorded against
the slot. (The unamended claim — repeat until capacity or buffer exhausted —
is refuted by `C7_counterexample`: each candidate receives at most one chunk
per slot.) -/
theorem C7_phase2_exhaustion
    (slots : List Slot) (subjects : List Subject)
    (wk : String → Option WorkloadHours) (session : ℤ)
    (sf : String → Option Features) (cc : Option ContinuityConfig)
    (dc : Option DistributionConfig) (cs : String → Option SubjectConfig)
    (cm : String → Option String) (g : String)
    (hs : 1 ≤ session)
    (hidsP : List.Pairwise (fun a b => ¬ a.slot_id = b.slot_id) slots)
    (st1 st2 : AllocState)
    (h1 : allocPhase1 slots subjects wk session sf cc dc cs cm g = some st1)
    (h2 : allocPhase2 slots subjects wk session sf cc dc cs cm g = some st2)
    (t : Slot) (ht : t ∈ slots)
    (hfree : session ≤ lookZ st1.slack t.slot_id)
    (subject : Subject) (hmem : subject ∈ subjects)
    (hbase : lookZ st1.remaining_base subject.subject_id ≤ 0)
    (hexam : t.date ≤ (mkAllocCtx subjects session sf cc dc cs cm
        g).examDay subject.subject_id) :
    lookZ st2.slack t.slot_id < session
    ∨ lookZ st2.remaining_buffer subject.subject_id ≤ 0
    ∨ ∃ a ∈ st2.allocations, a.slot_id = t.slot_id
        ∧ a.subject_id = subject.subject_id ∧ a.bucket = "buffer" := by
  simp only [allocPhase2] at h2
  rw [h1] at h2
  simp only [Option.map_some'] at h2
  have h2e := Option.some.inj h2
  simp only [allocPhase1] at h1
  set ctx := mkAllocCtx subjects session sf cc dc cs cm g with hctx
  set sorted := pySort slotOrderLe slots with hsortedEq
  have hs' : 1 ≤ ctx.session_minutes := by
    rw [hctx]
    exact hs
  have hids := pairwise_filter_len_le_one (fun t' => t'.slot_id) slots hidsP
  have hsortCount : ∀ i,
      (sorted.filter (fun t' => t'.slot_id = i)).length ≤ 1 := by
    intro i
    rw [hsortedEq,
      List.Perm.length_eq (List.Perm.filter _ (pySort_perm slotOrderLe slots))]
    exact hids i
  obtain ⟨hbufP, _, _, _, _⟩ :=
    phase1Slots_spec ctx hs' "" sorted _ st1 h1 (hsortCount "")
  have hbuf1 : ∀ sid, 0 ≤ lookZ st1.remaining_buffer sid := by
    intro sid
    rw [hbufP]
    exact initialMinutes_nonneg subjects
      (fun sid => ((wk sid).getD {}).hours_buffer) sid
  obtain ⟨_, _, _, extra₂, he₂, _, htrack₂⟩ :=
    phase2Slots_spec ctx hs' t.slot_id sorted st1 st2 h2e hbuf1
      (hsortCount t.slot_id)
  have htmemS : t ∈ sorted := by
    rw [hsortedEq]
    exact (pySort_perm slotOrderLe slots).mem_iff.mpr ht
  have hfind : sorted.find? (fun t' => t'.slot_id = t.slot_id) = some t := by
    cases hf : sorted.find? (fun t' => t'.slot_id = t.slot_id) with
    | none =>
      exfalso
      have := List.find?_eq_none.mp hf t htmemS
      simp at this
    | some t₀ =>
      have ht₀mem := List.mem_of_find?_eq_some hf
      have ht₀pred := List.find?_some hf
      have heq : t₀ = t := filter_len_le_one_eq _ sorted
        (hsortCount t.slot_id) t₀ t ht₀mem ht₀pred htmemS (by simp)
      rw [heq]
  rw [hfind] at htrack₂
  obtain ⟨_, _, hcov⟩ := htrack₂
  have hfree' : ctx.session_minutes ≤ lookZ st1.slack t.slot_id := hfree
  have hmem' : subject ∈ ctx.orderedSubjects :=
    (pySort_perm subjectIdLe subjects).mem_iff.mpr hmem
  rcases hcov hfree' subject hmem' hbase hexam with hlt | hble
    | ⟨a, haext, ha1, ha2, ha3⟩
  · exact Or.inl hlt
  · exact Or.inr (Or.inl hble)
  · refine Or.inr (Or.inr ⟨a, ?_, ha1, ha2, ha3⟩)
    rw [he₂]
    exact List.mem_append_right _ haext

theorem C7_phase2_exhaustion_witness :
    lookZ st2C7.slack demoSlot120.slot_id < 30
    ∨ lookZ st2C7.remaining_buffer demoSubject.subject_id ≤ 0
    ∨ ∃ a ∈ st2C7.allocations, a.slot_id = demoSlot120.slot_id
        ∧ a.subject_id = demoSubject.subject_id ∧ a.bucket = "buffer" :=
  C7_phase2_exhaustion [demoSlot120] [demoSubject] demoWorkBuf2 30
    (fun _ => none) none none (fun _ => none) (fun _ => none) "diffuse"
    (by decide) (by simp) st1C7 st2C7 (by decide) (by decide)
    demoSlot120 (List.mem_cons_self _ _) (by decide)
    demoSubject (List.mem_cons_self _ _) (by decide) (by decide)

/-- C9 counterexample: with a negative session quantum (an input the claim
does not exclude) the run terminates but emits a single 50-minute slack
record against the 30-minute slot, so the per-slot sum is not the slot's
`max_minutes`. -/
theorem C9_counterexample :
    allocate_plan [demoSlot30] [demoSubject] demoWorkBuf1 (-10) = some rC9neg
    ∧ (∀ t ∈ [demoSlot30], 0 ≤ t.max_minutes)
    ∧ ¬ sumMinutes (bySlotId rC9neg.allocations demoSlot30.slot_id)
        = demoSlot30.max_minutes :=
  ⟨by decide, by decide, by decide⟩

/-- C9 (amended): slack accounting. For a run of `allocate_plan` with a
positive session quantum on slots with pairwise-distinct slot ids and
nonnegative `max_minutes`: every returned record has at least one minute,
and for each slot the minutes of the records carrying its id (non-slack plus
slack) sum exactly to the slot's `max_minutes`, with at most one slack
record per slot — no capacity is silently dropped. -/
theorem C9_slack_accounting
    (slots : List Slot) (subjects : List Subject)
    (wk : String → Option WorkloadHours) (session : ℤ)
    (sf : String → Option Features) (cc : Option ContinuityConfig)
    (dc : Option DistributionConfig) (cs : String → Option SubjectConfig)
    (cm : String → Option String) (g : String)
    (hs : 1 ≤ session)
    (hidsP : List.Pairwise (fun a b => ¬ a.slot_id = b.slot_id) slots)
    (hmax : ∀ t ∈ slots, 0 ≤ t.max_minutes)
    (r : AllocResult)
    (hr : allocate_plan slots subjects wk session sf cc dc cs cm g = some r) :
    (∀ a ∈ r.allocations, 1 ≤ a.minutes)
    ∧ ∀ t ∈ slots,
        sumMinutes (bySlotId r.allocations t.slot_id) = t.max_minutes
        ∧ (slackRecordsFor r.allocations t.slot_id).length ≤ 1 := by
  have hids := pairwise_filter_len_le_one (fun t => t.slot_id) slots hidsP
  obtain ⟨hfacts, htr⟩ := allocate_plan_run_spec slots subjects wk session
    sf cc dc cs cm g hs hids r hr
  refine ⟨fun a ha => (hfacts a ha).1, fun t ht => ?_⟩
  obtain ⟨h1, h2, _⟩ := htr t ht (hmax t ht)
  exact ⟨h1, h2⟩

theorem C9_slack_accounting_witness :
    allocate_plan [demoSlot60] [demoSubject] demoWorkBase2 = some rC1demo
    ∧ (∀ a ∈ rC1demo.allocations, 1 ≤ a.minutes)
    ∧ sumMinutes (bySlotId rC1demo.allocations demoSlot60.slot_id)
        = demoSlot60.max_minutes
    ∧ (slackRecordsFor rC1demo.allocations demoSlot60.slot_id).length ≤ 1 := by
  obtain ⟨h1, h2⟩ := C9_slack_accounting [demoSlot60] [demoSubject]
    demoWorkBase2 30 (fun _ => none) none none (fun _ => none) (fun _ => none)
    "diffuse" (by decide) (by simp) (by decide) rC1demo (by decide)
  obtain ⟨h3, h4⟩ := h2 demoSlot60 (List.mem_cons_self _ _)
  exact ⟨by decide, h1, h3, h4⟩

/-- C4 counterexample: with `rebalance_max_swaps` configured to 0 the source
computes `int(0 or max_swaps) = max_swaps` (Python `or` treats 0 as falsy),
so the four-record demo accepts one swap although
`min(max_swaps, rebalance_max_swaps) = min(100, 0) = 0`. -/
theorem C4_counterexample :
    c4Cfg.rebalance_max_swaps = some 0
    ∧ ((rebalance_swap_log compute_humanity_metrics c4Allocs []
        [c4SubjMath, c4SubjPhys] c4Cfg (fun _ => none) none 100 2 0
        []).length : ℤ) = 1
    ∧ ¬ ((rebalance_swap_log compute_humanity_metrics c4Allocs []
        [c4SubjMath, c4SubjPhys] c4Cfg (fun _ => none) none 100 2 0
        []).length : ℤ) ≤ min 100 0 :=
  ⟨rfl, by decide, by decide⟩

/-- C4 (amended): rebalance non-regression and swap budget. For every run
(and every humanity-vector function, the metrics module being external),
each accepted swap's pre-swap feasibility is at most its post-swap
feasibility plus the regression tolerance, and the number of accepted swaps
is at most `max(0, min(max_swaps, int(rebalance_max_swaps or max_swaps)))`
— the code's effective budget, in which a falsy (zero) configured value
falls back to the `max_swaps` argument instead of winning the `min` as the
claim states (refuted by `C4_counterexample`). -/
theorem C4_rebalance_budget
    (hum : List Alloc → QR × QR × QR) (allocations : List Alloc)
    (slots : List Slot) (subjects : List Subject) (cfg : RebConfig)
    (config_by_subject : String → Option SubjectConfig)
    (past_cutoff : Option Day) (max_swaps near_days_window : ℤ) (tol : QR)
    (locked_allocations : List Alloc) :
    (∀ p ∈ rebalance_swap_log hum allocations slots subjects cfg
        config_by_subject past_cutoff max_swaps near_days_window tol
        locked_allocations, p.1 ≤ p.2 + tol)
    ∧ ((rebalance_swap_log hum allocations slots subjects cfg
        config_by_subject past_cutoff max_swaps near_days_window tol
        locked_allocations).length : ℤ)
      ≤ max 0 (min max_swaps (pyOrInt cfg.rebalance_max_swaps max_swaps)) := by
  unfold rebalance_swap_log
  split
  · refine ⟨fun p hp => absurd hp (List.not_mem_nil p), ?_⟩
    show ((List.length [] : ℕ) : ℤ) ≤ _
    simp only [List.length_nil]
    omega
  · obtain ⟨hlog, hlen, _⟩ := rebalanceGo_spec hum slots
      (subjectWindows subjects)
      (strategyModes subjects cfg config_by_subject)
      (locked_allocations.map (fun x => x.slot_id))
      ((locked_allocations.filter
        (fun x => strLeadB "manual-" x.slot_id)).map (fun x => x.date))
      past_cutoff
      (max 0 (pyOrInt cfg.rebalance_near_days_window near_days_window))
      (max 1 (pyOrInt cfg.max_subjects_per_day (10 ^ 9)))
      (max 0 (min max_swaps (pyOrInt cfg.rebalance_max_swaps max_swaps)))
      tol
      (max 0 (pyOrInt cfg.rebalance_max_iterations
        (pyOrInt cfg.rebalance_max_swaps max_swaps))).toNat
      0 allocations []
      (rebalanceRun hum allocations slots subjects cfg config_by_subject
        past_cutoff max_swaps near_days_window tol locked_allocations)
      rfl
    refine ⟨?_, ?_⟩
    · intro p hp
      rcases hlog p hp with hin | hgood
      · exact absurd hin (List.not_mem_nil p)
      · exact hgood
    · simp only [List.length_nil] at hlen
      omega

theorem C4_rebalance_budget_witness :
    (∀ p ∈ rebalance_swap_log compute_humanity_metrics c4Allocs []
        [c4SubjMath, c4SubjPhys] c4Cfg (fun _ => none) none 100 2 0 [],
        p.1 ≤ p.2 + 0)
    ∧ ((rebalance_swap_log compute_humanity_metrics c4Allocs []
        [c4SubjMath, c4SubjPhys] c4Cfg (fun _ => none) none 100 2 0
        []).length : ℤ)
      ≤ max 0 (min 100 (pyOrInt c4Cfg.rebalance_max_swaps 100)) :=
  C4_rebalance_budget compute_humanity_metrics c4Allocs []
    [c4SubjMath, c4SubjPhys] c4Cfg (fun _ => none) none 100 2 0 []

/-- C5: rebalancer frame property. For every input (and every
humanity-vector function), the returned list has the same length as the
input allocations and the same multiset of `(slot_id, date, minutes,
bucket)` projections — only `subject_id` fields are ever exchanged. -/
theorem C5_rebalancer_frame
    (hum : List Alloc → QR × QR × QR) (allocations : List Alloc)
    (slots : List Slot) (subjects : List Subject) (cfg : RebConfig)
    (config_by_subject : String → Option SubjectConfig)
    (past_cutoff : Option Day) (max_swaps near_days_window : ℤ) (tol : QR)
    (locked_allocations : List Alloc) :
    (rebalance_allocations hum allocations slots subjects cfg
        config_by_subject past_cutoff max_swaps near_days_window tol
        locked_allocations).length = allocations.length
    ∧ List.Perm
        ((rebalance_allocations hum allocations slots subjects cfg
          config_by_subject past_cutoff max_swaps near_days_window tol
          locked_allocations).map allocProj)
        (allocations.map allocProj) := by
  unfold rebalance_allocations
  split
  · exact ⟨rfl, List.Perm.refl _⟩
  · obtain ⟨_, _, hproj⟩ := rebalanceGo_spec hum slots
      (subjectWindows subjects)
      (strategyModes subjects cfg config_by_subject)
      (locked_allocations.map (fun x => x.slot_id))
      ((locked_allocations.filter
        (fun x => strLeadB "manual-" x.slot_id)).map (fun x => x.date))
      past_cutoff
      (max 0 (pyOrInt cfg.rebalance_near_days_window near_days_window))
      (max 1 (pyOrInt cfg.max_subjects_per_day (10 ^ 9)))
      (max 0 (min max_swaps (pyOrInt cfg.rebalance_max_swaps max_swaps)))
      tol
      (max 0 (pyOrInt cfg.rebalance_max_iterations
        (pyOrInt cfg.rebalance_max_swaps max_swaps))).toNat
      0 allocations []
      (rebalanceRun hum allocations slots subjects cfg config_by_subject
        past_cutoff max_swaps near_days_window tol locked_allocations)
      rfl
    have hperm := pySort_perm rebalanceOutLe
      (rebalanceRun hum allocations slots subjects cfg config_by_subject
        past_cutoff max_swaps near_days_window tol locked_allocations).1
    constructor
    · rw [hperm.length_eq]
      have hl := congrArg List.length hproj
      simpa using hl
    · refine (List.Perm.map allocProj hperm).trans ?_
      rw [hproj]

theorem C5_rebalancer_frame_witness :
    (rebalance_allocations (fun _ => (1, 1, 1)) c4Allocs []
        [c4SubjMath, c4SubjPhys] c4Cfg (fun _ => none) none 100 2 0
        []).length = c4Allocs.length
    ∧ List.Perm
        ((rebalance_allocations (fun _ => (1, 1, 1)) c4Allocs []
          [c4SubjMath, c4SubjPhys] c4Cfg (fun _ => none) none 100 2 0
          []).map allocProj)
        (c4Allocs.map allocProj) :=
  C5_rebalancer_frame (fun _ => (1, 1, 1)) c4Allocs []
    [c4SubjMath, c4SubjPhys] c4Cfg (fun _ => none) none 100 2 0 []

end Spec
